import Mathlib

set_option maxHeartbeats 1000000
set_option maxRecDepth 4000

namespace Noctis

/-! # Shallow embedding of the noctis kernel core

This file embeds the parts of the noctis kernel relevant to the frozen claims:
the page-table manager (src/kernel/src/paging.rs), the scheduler switch
(src/kernel/src/task.rs with src/kernel/src/spin.rs), the interrupt dispatcher
(src/kernel/src/idt.rs with src/kernel/src/timer.rs), and the bump allocator
(src/kernel/src/allocator.rs).  Machine integers (usize/u64) are modelled as
Nat with explicit reduction mod 2^64 where the Rust code wraps.  Rust panics
(assert!, array-index out of bounds, double-locking a spin lock) are modelled
as explicit outcome constructors; dereferencing a page-table pointer that does
not denote an allocated node (undefined behaviour in the Rust code) is
modelled as an explicit stuck state `badNodePointer`. -/

/-- Page size in bytes, `PAGE_SIZE` in paging.rs. -/
def PAGE_SIZE : Nat := 4096

/-- 2^64, the modulus for 64-bit machine arithmetic. -/
def U64 : Nat := 2 ^ 64

/-- `PTE_ATTR_MASK` in paging.rs: mask selecting the physical-address field
(bits 12..62) of a page-table entry. -/
def PTE_ATTR_MASK : Nat := 0x7FFFFFFFFFFFF000

/-- The complement of `PTE_ATTR_MASK` inside a u64 (`!PTE_ATTR_MASK`). -/
def PTE_ATTR_MASK_NOT : Nat := 0x8000000000000FFF

/-- `PageTableAttr` in paging.rs. -/
inductive PageTableAttr
  | NotPresent
  | ReadExecuteKernel
  | ReadKernel
  | ReadWriteExecuteKernel
  | ReadWriteKernel
  | ReadWriteKernel1GiB
  | ReadWriteKernelIo
deriving DecidableEq

/-- The u64 discriminant value of each `PageTableAttr` variant, i.e. the OR of
the attribute bit constants used in its definition in paging.rs.
PRESENT = 1, WRITABLE = 2, WRITE_THROUGH = 8, CACHE_DISABLED = 16,
HUGE_PAGE = 128, NOT_EXECUTABLE = 2^63. -/
def attrVal : PageTableAttr → Nat
  | .NotPresent => 0
  | .ReadExecuteKernel => 0x1
  | .ReadKernel => 0x8000000000000001
  | .ReadWriteExecuteKernel => 0x3
  | .ReadWriteKernel => 0x8000000000000003
  | .ReadWriteKernel1GiB => 0x8000000000000083
  | .ReadWriteKernelIo => 0x800000000000001B

/-- `PageTableEntry::is_present`: bit 0 of the entry value. -/
def isPresent (v : Nat) : Bool := v.testBit 0

/-- `PageTableEntry::is_huge`: bit 7 of the entry value. -/
def isHuge (v : Nat) : Bool := v.testBit 7

/-- `PageTableEntry::paddr`: the entry value masked with `PTE_ATTR_MASK`. -/
def entryPaddr (v : Nat) : Nat := v &&& PTE_ATTR_MASK

/-- The attribute bits of an entry: the value masked with `!PTE_ATTR_MASK`. -/
def entryAttr (v : Nat) : Nat := v &&& PTE_ATTR_MASK_NOT

/-- Error values surfaced by the paging code (`Err(&'static str)` in
paging.rs), plus the model-level stuck state `badNodePointer` standing for the
undefined behaviour of dereferencing an entry's physical address when it does
not denote an allocated table node. -/
inductive PageErr
  | physMisaligned
  | alreadyAllocated
  | badNodePointer
deriving DecidableEq

/-- Rust panics reachable from `PageTable::map`: the two `assert!`s and the
out-of-bounds index on the 1 GiB huge-page path. -/
inductive PanicKind
  | virtUnaligned
  | physUnaligned
  | indexOutOfBounds
deriving DecidableEq

/-- `PageTableEntry::set_entry` in paging.rs.  Returns the new entry value, or
an error when the physical address has bits outside the address-field mask. -/
def setEntry (paddr : Nat) (attr : PageTableAttr) : Except PageErr Nat :=
  if paddr &&& PTE_ATTR_MASK_NOT ≠ 0 then .error .physMisaligned
  else .ok (paddr ||| attrVal attr)

/-- `PageTableNode` in paging.rs: an array of 512 entry values (each a u64).
Well-formed nodes have `entries.length = 512`. -/
structure PageTableNode where
  entries : List Nat
deriving DecidableEq

/-- Read entry `i` of a node (in-bounds for every node of length 512 because
all indices are 9-bit values). -/
def getEntry (n : PageTableNode) (i : Nat) : Nat := n.entries.getD i 0

/-- Write entry `i` of a node. -/
def putEntry (n : PageTableNode) (i v : Nat) : PageTableNode := ⟨n.entries.set i v⟩

/-- A freshly allocated node, zeroed (`MaybeUninit::zeroed`). -/
def zeroNode : PageTableNode := ⟨List.replicate 512 0⟩

/-- The kernel-heap memory holding the boxed intermediate `PageTableNode`s,
addressed by their (identity-mapped) addresses.  `nextAddr` is the address the
next `Box::new` returns; the model allocator hands out page-aligned fresh
addresses, matching `#[repr(align(4096))]` boxes from the bump allocator. -/
structure Heap where
  nodes : List (Nat × PageTableNode)
  nextAddr : Nat
deriving DecidableEq

/-- Dereference a node address. -/
def lookupNode (h : Heap) (a : Nat) : Option PageTableNode :=
  (h.nodes.find? (fun p => p.1 == a)).map Prod.snd

/-- Store a node back at an (already allocated) address. -/
def updateNode (h : Heap) (a : Nat) (n : PageTableNode) : Heap :=
  ⟨h.nodes.map (fun p => if p.1 = a then (p.1, n) else p), h.nextAddr⟩

/-- `Box::new(zeroed node)`: allocate a fresh zeroed node, returning its
address. -/
def allocNode (h : Heap) : Heap × Nat :=
  (⟨h.nodes ++ [(h.nextAddr, zeroNode)], h.nextAddr + PAGE_SIZE⟩, h.nextAddr)

/-- The addresses of the allocated nodes. -/
def keys (h : Heap) : List Nat := h.nodes.map Prod.fst

/-- `PageTable` in paging.rs: the inline PML4 node together with the heap of
boxed lower-level nodes it points into. -/
structure PageTable where
  pml4 : PageTableNode
  heap : Heap
deriving DecidableEq

/-- `VirtAddr::canonicalize`: sign-extend bit 47 into bits 48..63. -/
def canonicalize (a : Nat) : Nat :=
  if a.testBit 47 then a ||| 0xFFFF000000000000 else a &&& 0x0000FFFFFFFFFFFF

/-- `VirtAddr::add`: wrapping u64 addition followed by canonicalization. -/
def vadd (a off : Nat) : Nat := canonicalize ((a + off) % U64)

/-- `VirtAddr::nth_level_table_index`: the 9-bit table index of a virtual
address at a given level (4 = PML4, 3 = PDPT, 2 = PD, 1 = PT). -/
def tableIndex (a level : Nat) : Nat := (a >>> (12 + (level - 1) * 9)) &&& 0x1FF

/-- `PageTableEntry::alloc_next_level_table`: errors when the entry is already
present, otherwise allocates a fresh zeroed node and returns the new entry
value (node address OR'd with `ReadWriteExecuteKernel`). -/
def alloc_next_level_table (h : Heap) (v : Nat) : Except PageErr (Heap × Nat) :=
  if isPresent v then .error .alreadyAllocated
  else
    let (h1, a) := allocNode h
    .ok (h1, a ||| attrVal .ReadWriteExecuteKernel)

/-- `PageTableEntry::get_or_alloc_next_level_table` applied to entry `i` of
node `n`: returns the updated heap, the updated containing node, and the
physical address the child reference is created from.  Note that the code
dereferences `self.paddr()`, i.e. the masked stored value, which is why the
returned address is `entryPaddr` of the entry value in both branches. -/
def getOrAllocChild (h : Heap) (n : PageTableNode) (i : Nat) :
    Heap × PageTableNode × Nat :=
  let v := getEntry n i
  if isPresent v then (h, n, entryPaddr v)
  else
    match alloc_next_level_table h v with
    | .ok (h1, v1) => (h1, putEntry n i v1, entryPaddr v1)
    | .error _ => (h, n, entryPaddr v)

/-- The descending walk `for level in (2..=4).rev()` of `PageTable::map`:
get-or-alloc through PML4 → PDPT → PD, returning the address of the PT-level
node for `va`.  A present entry whose physical address does not denote an
allocated node is undefined behaviour in the code; the model returns
`badNodePointer`. -/
def walkAlloc (pt : PageTable) (va : Nat) : Except (PageErr × PageTable) (PageTable × Nat) :=
  let s4 := getOrAllocChild pt.heap pt.pml4 (tableIndex va 4)
  let pt1 : PageTable := ⟨s4.2.1, s4.1⟩
  match lookupNode pt1.heap s4.2.2 with
  | none => .error (.badNodePointer, pt1)
  | some n3 =>
    let s3 := getOrAllocChild pt1.heap n3 (tableIndex va 3)
    let pt2 : PageTable := ⟨pt1.pml4, updateNode s3.1 s4.2.2 s3.2.1⟩
    match lookupNode pt2.heap s3.2.2 with
    | none => .error (.badNodePointer, pt2)
    | some n2 =>
      let s2 := getOrAllocChild pt2.heap n2 (tableIndex va 2)
      let pt3 : PageTable := ⟨pt2.pml4, updateNode s2.1 s3.2.2 s2.2.1⟩
      match lookupNode pt3.heap s2.2.2 with
      | none => .error (.badNodePointer, pt3)
      | some _ => .ok (pt3, s2.2.2)

/-- Result of `PageTable::map` / `create_mapping`: success, an `Err` return,
or a Rust panic; the failure constructors carry the table state at the point
of failure. -/
inductive MapOutcome
  | ok (pt : PageTable)
  | err (e : PageErr) (pt : PageTable)
  | panic (p : PanicKind) (pt : PageTable)
deriving DecidableEq

/-- The `for i in 0..num_pages` loop of `PageTable::map` (4 KiB path).
`startIndex` is `virt_start.pt_index()`, `i` the loop counter, `remaining`
the number of iterations left, `nodeAddr` the address of the PT node the
mutable `node` reference currently points at. -/
def mapLoop (pt : PageTable) (nodeAddr vaddr paddr : Nat) (attr : PageTableAttr)
    (startIndex i remaining : Nat) : MapOutcome :=
  match remaining with
  | 0 => .ok pt
  | rem + 1 =>
    let index := (startIndex + i) % 512
    let step : Except (PageErr × PageTable) (PageTable × Nat) :=
      if index = 0 ∧ i ≠ 0 then walkAlloc pt vaddr else .ok (pt, nodeAddr)
    match step with
    | .error (e, pt1) => .err e pt1
    | .ok (pt1, na) =>
      match lookupNode pt1.heap na with
      | none => .err .badNodePointer pt1
      | some n =>
        match setEntry paddr attr with
        | .error e => .err e pt1
        | .ok v =>
          let pt2 : PageTable := ⟨pt1.pml4, updateNode pt1.heap na (putEntry n index v)⟩
          mapLoop pt2 na (vadd vaddr PAGE_SIZE) ((paddr + PAGE_SIZE) % U64) attr
            startIndex (i + 1) rem

/-- The `for i in 0..(num_pages / (1 << 18))` loop of the 1 GiB huge-page
path: writes a huge entry per gigabyte into the PDPT node at `aPdpt`.
Indexing `pdpt.entries[pdpt_index + i]` out of bounds is a Rust panic. -/
def hugeLoop (pt : PageTable) (aPdpt pdptIdx phys : Nat) (attr : PageTableAttr)
    (i remaining : Nat) : MapOutcome :=
  match remaining with
  | 0 => .ok pt
  | rem + 1 =>
    if pdptIdx + i < 512 then
      match lookupNode pt.heap aPdpt with
      | none => .err .badNodePointer pt
      | some n =>
        match setEntry ((phys + i * 2 ^ 30) % U64) attr with
        | .error e => .err e pt
        | .ok v =>
          hugeLoop ⟨pt.pml4, updateNode pt.heap aPdpt (putEntry n (pdptIdx + i) v)⟩
            aPdpt pdptIdx phys attr (i + 1) rem
    else .panic .indexOutOfBounds pt

/-- `PageTable::map` in paging.rs. -/
def map (pt : PageTable) (virt phys numPages : Nat) (attr : PageTableAttr) : MapOutcome :=
  if virt % PAGE_SIZE ≠ 0 then .panic .virtUnaligned pt
  else if phys % PAGE_SIZE ≠ 0 then .panic .physUnaligned pt
  else if attr = .ReadWriteKernel1GiB ∧ virt % 2 ^ 30 = 0 ∧ phys % 2 ^ 30 = 0 ∧
      numPages % 2 ^ 18 = 0 then
    let s4 := getOrAllocChild pt.heap pt.pml4 (tableIndex virt 4)
    let pt1 : PageTable := ⟨s4.2.1, s4.1⟩
    match lookupNode pt1.heap s4.2.2 with
    | none => .err .badNodePointer pt1
    | some _ => hugeLoop pt1 s4.2.2 (tableIndex virt 3) phys attr 0 (numPages / 2 ^ 18)
  else
    match walkAlloc pt virt with
    | .error (e, pt1) => .err e pt1
    | .ok (pt1, a1) => mapLoop pt1 a1 virt phys attr (tableIndex virt 1) 0 numPages

/-- `PageTable::create_mapping`: rounds the byte size up to whole pages and
calls `map`. -/
def create_mapping (pt : PageTable) (virt phys size : Nat) (attr : PageTableAttr) :
    MapOutcome :=
  map pt virt phys ((size + PAGE_SIZE - 1) / PAGE_SIZE) attr

/-- `PageTable::duplicate_kernel`: a new table whose PML4 starts zeroed and
receives a copy of every present source entry at the same index (equivalently,
each entry is the source entry if present, 0 otherwise); lower-level nodes are
shared, not copied, so the heap is unchanged. -/
def duplicate_kernel (pt : PageTable) : PageTable :=
  ⟨⟨pt.pml4.entries.map (fun v => if isPresent v then v else 0)⟩, pt.heap⟩

/-- A hardware-style read-only table walk used to state the mapping claims:
returns the physical address of the 4 KiB frame backing `va` together with
the attribute bits of the mapping entry, or `none` when the walk faults. -/
def walkPage (pt : PageTable) (va : Nat) : Option (Nat × Nat) :=
  let e4 := getEntry pt.pml4 (tableIndex va 4)
  if isPresent e4 then
    match lookupNode pt.heap (entryPaddr e4) with
    | none => none
    | some n3 =>
      let e3 := getEntry n3 (tableIndex va 3)
      if isPresent e3 then
        if isHuge e3 then
          some (entryPaddr e3 + va % 2 ^ 30 / PAGE_SIZE * PAGE_SIZE, entryAttr e3)
        else
          match lookupNode pt.heap (entryPaddr e3) with
          | none => none
          | some n2 =>
            let e2 := getEntry n2 (tableIndex va 2)
            if isPresent e2 then
              if isHuge e2 then
                some (entryPaddr e2 + va % 2 ^ 21 / PAGE_SIZE * PAGE_SIZE, entryAttr e2)
              else
                match lookupNode pt.heap (entryPaddr e2) with
                | none => none
                | some n1 =>
                  let e1 := getEntry n1 (tableIndex va 1)
                  if isPresent e1 then some (entryPaddr e1, entryAttr e1) else none
            else none
      else none
  else none

/-- Read-only chase to the PT-level node of `va` (present, non-huge entries at
the PML4/PDPT/PD levels), returning its address. -/
def ptAddrOf (pt : PageTable) (va : Nat) : Option Nat :=
  let e4 := getEntry pt.pml4 (tableIndex va 4)
  if isPresent e4 then
    match lookupNode pt.heap (entryPaddr e4) with
    | none => none
    | some n3 =>
      let e3 := getEntry n3 (tableIndex va 3)
      if isPresent e3 && !isHuge e3 then
        match lookupNode pt.heap (entryPaddr e3) with
        | none => none
        | some n2 =>
          let e2 := getEntry n2 (tableIndex va 2)
          if isPresent e2 && !isHuge e2 then some (entryPaddr e2) else none
      else none
  else none

/-- The PT-level entry value backing `va`, when the chase succeeds. -/
def installedVal (pt : PageTable) (va : Nat) : Option Nat :=
  match ptAddrOf pt va with
  | none => none
  | some a1 =>
    match lookupNode pt.heap a1 with
    | none => none
    | some n1 => some (getEntry n1 (tableIndex va 1))

/-- A fresh empty page table (a zeroed PML4 and no allocated lower nodes);
the model heap starts allocating at a page-aligned nonzero address. -/
def emptyTable : PageTable := ⟨zeroNode, ⟨[], 0x100000⟩⟩

/-! ## Scheduler (src/kernel/src/task.rs) -/

/-- `TaskState` in task.rs. -/
inductive TaskState
  | Runnable
  | Stopped
deriving DecidableEq

/-- The scheduler-visible part of `Task` in task.rs. -/
structure Task where
  state : TaskState
  running : Bool
deriving DecidableEq

/-- The scheduler-visible global state: the global `TASKS` list (in insertion
order; an `Arc` is pushed once per task, so list position identifies the
task), and the CPU's `current_task` pointer, modelled by the list index of
the task it refers to. -/
structure Sched where
  tasks : List Task
  current : Nat
deriving DecidableEq

/-- Outcome of one `switch` call: either the call returns (with the resulting
state), or it deadlocks spinning forever on a `SpinLock` it already holds
(the `SpinLock` in spin.rs is not reentrant: `lock` spins while the flag is
set, and interrupts are disabled during `switch`, so a second `lock` of the
same task never succeeds). -/
inductive SwitchResult
  | normal (s : Sched) (switched : Bool)
  | deadlock (s : Sched)
deriving DecidableEq

/-- Whether `tasks.get(i)` yields a task in the `Runnable` state (the body of
the `if let Some(task) = tasks.get(i)` check in `switch`). -/
def runnableAt (tasks : List Task) (i : Nat) : Bool :=
  match tasks.get? i with
  | some t => t.state == TaskState.Runnable
  | none => false

/-- The scan loop inside `switch`: starting at index `i`, look for a task
whose state is `Runnable`, stepping `i = (i + 1) % len` and giving up when
the index returns to `start`.  The loop visits at most `tasks.length`
indices, which is supplied as fuel. -/
def scanNext (tasks : List Task) (fuel i start : Nat) : Option Nat :=
  match fuel with
  | 0 => none
  | f + 1 =>
    if runnableAt tasks i then some i
    else
      let i1 := (i + 1) % tasks.length
      if i1 = start then none else scanNext tasks f i1 start

/-- `switch` in task.rs (the lock/interrupt manipulation and the low-level
register swap `switch_inner` are not part of the sequential state; the tick
reset touches `CpuContextBlock.ticks`, which is not part of `Sched`).
If the scan selects the current task itself, the switch body locks the same
spin lock twice and the call deadlocks. -/
def switch (s : Sched) : SwitchResult :=
  let tasks := s.tasks
  let currentIndex : Option Nat :=
    if s.current < tasks.length then some s.current else none
  let next : Option Nat :=
    if tasks.isEmpty then none
    else
      let len := tasks.length
      let i0 := match currentIndex with
        | none => 0
        | some i => (i + 1) % len
      scanNext tasks len i0 i0
  match next with
  | none => .normal s false
  | some j =>
    if j = s.current then .deadlock s
    else
      let prev := tasks.getD s.current ⟨.Stopped, false⟩
      let nxt := tasks.getD j ⟨.Stopped, false⟩
      .normal ⟨(tasks.set s.current { prev with running := false }).set j
        { nxt with running := true }, j⟩ true

/-- Iterate `switch`, failing if any call deadlocks. -/
def iterSwitch : Nat → Sched → Option Sched
  | 0, s => some s
  | k + 1, s =>
    match switch s with
    | .normal s1 _ => iterSwitch k s1
    | .deadlock _ => none

/-- The selection policy the spec describes: the first index, scanning
cyclically from the position immediately after `c` and wrapping at the list
end, whose task is `Runnable` (the scan covers every index, ending with `c`
itself). -/
def specNext (ts : List Task) (c : Nat) : Option Nat :=
  (List.range ts.length).findSome? (fun k =>
    let j := (c + 1 + k) % ts.length
    if runnableAt ts j then some j else none)

/-! ## Interrupt dispatcher (src/kernel/src/idt.rs, src/kernel/src/timer.rs) -/

/-- How a call to `interrupt_handler` ends: a normal return (resuming the
interrupted code) or the trailing `loop { hlt }` that never terminates. -/
inductive IntEnd
  | returns
  | haltForever
deriving DecidableEq

/-- The state `interrupt_handler` can modify: the local-APIC timer count
(`LocalApicTimer::count`, a u32), whether end-of-interrupt was written to the
interrupt controller during this call, and the per-CPU tick counter
(`CpuContextBlock.ticks`, a usize). -/
structure IntState where
  timerCount : Nat
  eoiAcked : Bool
  ticks : Nat
deriving DecidableEq

/-- `LocalApicTimer::increment_count` in timer.rs: `count += 1` (u32,
wrapping), skipping 0 on wraparound. -/
def increment_count (c : Nat) : Nat :=
  let c1 := (c + 1) % 2 ^ 32
  if c1 = 0 then 1 else c1

/-- `interrupt_handler` in idt.rs.  Vectors 3 (breakpoint) and 42 (local
timer) return; vectors 6, 13, 14 and every other vector fall through to
`loop { hlt }`.  On vector 42 the handler calls `timer::increment_count`,
`timer::notify_end_of_interrupt` and `task::tick` before returning.
(The log output is I/O and not part of the modelled state.) -/
def interrupt_handler (s : IntState) (vector : Nat) : IntState × IntEnd :=
  if vector = 3 then (s, .returns)
  else if vector = 6 then (s, .haltForever)
  else if vector = 13 then (s, .haltForever)
  else if vector = 14 then (s, .haltForever)
  else if vector = 42 then
    ({ timerCount := increment_count s.timerCount, eoiAcked := true,
       ticks := (s.ticks + 1) % U64 }, .returns)
  else (s, .haltForever)

/-! ## Bump allocator (src/kernel/src/allocator.rs) -/

/-- `LinerAllocator` in allocator.rs (`end` is a reserved word in Lean, so
the field is named `end_`). -/
structure LinerAllocator where
  start : Nat
  end_ : Nat
  next : Nat
deriving DecidableEq

/-- `GlobalAlloc::alloc` for `SpinLock<LinerAllocator>`: align `next` up to
the layout's alignment (u64 arithmetic, wrapping on the `+ align - 1`),
return null (`none`) when the end computation overflows (`checked_add`) or
the allocation would pass `end`, otherwise return the aligned start and bump
`next` past the allocation. -/
def LinerAllocator.alloc (a : LinerAllocator) (size align : Nat) :
    Option Nat × LinerAllocator :=
  let current := a.next
  let alloc_start := ((current + align - 1) % U64) &&& (U64 - align)
  if alloc_start + size < U64 then
    let alloc_end := alloc_start + size
    if alloc_end > a.end_ then (none, a)
    else (some alloc_start, { a with next := alloc_end })
  else (none, a)

/-- `GlobalAlloc::dealloc` for `SpinLock<LinerAllocator>`: a no-op. -/
def LinerAllocator.dealloc (a : LinerAllocator) (_ptr _size _align : Nat) :
    LinerAllocator := a

/-! ## Bit-level toolbox -/

theorem land_pow_sub_one (x n : Nat) : x &&& (2 ^ n - 1) = x % 2 ^ n := by
  apply Nat.eq_of_testBit_eq
  intro i
  simp [Nat.testBit_land, Nat.testBit_two_pow_sub_one, Nat.testBit_mod_two_pow,
    Bool.and_comm]

theorem testBit_false_of_mod {x n i : Nat} (h : x % 2 ^ n = 0) (hi : i < n) :
    x.testBit i = false := by
  have hx : x = 2 ^ n * (x / 2 ^ n) := by
    conv_lhs => rw [← Nat.mod_add_div x (2 ^ n)]
    rw [h, Nat.zero_add]
  rw [Nat.testBit_to_div_mod, hx]
  have hsplit : 2 ^ n = 2 ^ i * 2 ^ (n - i) := by
    rw [← pow_add]
    congr 1
    omega
  rw [hsplit, Nat.mul_assoc, Nat.mul_div_cancel_left _ (Nat.pos_pow_of_pos i (by norm_num))]
  have hsplit2 : 2 ^ (n - i) = 2 * 2 ^ (n - i - 1) := by
    rw [← pow_succ']
    congr 1
    omega
  rw [hsplit2, Nat.mul_assoc, Nat.mul_mod_right]
  decide

theorem mod_two_pow_eq_zero_of_testBit {x n : Nat}
    (h : ∀ i < n, x.testBit i = false) : x % 2 ^ n = 0 := by
  have : x % 2 ^ n = 0 % 2 ^ n := by
    apply Nat.eq_of_testBit_eq
    intro i
    rw [Nat.testBit_mod_two_pow, Nat.testBit_mod_two_pow]
    by_cases hi : i < n
    · simp [hi, h i hi]
    · simp [hi]
  simpa using this

theorem testBit_false_of_lt_u64 {x i : Nat} (hx : x < U64) (hi : 64 ≤ i) :
    x.testBit i = false := by
  apply Nat.testBit_lt_two_pow
  calc x < 2 ^ 64 := hx
    _ ≤ 2 ^ i := Nat.pow_le_pow_right (by norm_num) hi

/-- Bit characterization of `PTE_ATTR_MASK`: bits 12..62. -/
theorem maskBit (i : Nat) : PTE_ATTR_MASK.testBit i = decide (12 ≤ i ∧ i < 63) := by
  by_cases hi : i < 64
  · have h : ∀ j < 64, PTE_ATTR_MASK.testBit j = decide (12 ≤ j ∧ j < 63) := by decide
    exact h i hi
  · rw [testBit_false_of_lt_u64 (by decide) (by omega)]
    have : ¬(12 ≤ i ∧ i < 63) := by omega
    simp [this]

/-- Bit characterization of `!PTE_ATTR_MASK`: bits 0..11 and 63. -/
theorem notmaskBit (i : Nat) :
    PTE_ATTR_MASK_NOT.testBit i = decide (i < 12 ∨ i = 63) := by
  by_cases hi : i < 64
  · have h : ∀ j < 64, PTE_ATTR_MASK_NOT.testBit j = decide (j < 12 ∨ j = 63) := by decide
    exact h i hi
  · rw [testBit_false_of_lt_u64 (by decide) (by omega)]
    have : ¬(i < 12 ∨ i = 63) := by omega
    simp [this]

/-- Passing the `set_entry` alignment check is the same as being 4 KiB-aligned
with bit 63 clear. -/
theorem land_notmask_eq_zero_iff {p : Nat} (hp : p < U64) :
    p &&& PTE_ATTR_MASK_NOT = 0 ↔ p % PAGE_SIZE = 0 ∧ p < 2 ^ 63 := by
  constructor
  · intro h
    have hbit : ∀ i, p.testBit i = false ∨ PTE_ATTR_MASK_NOT.testBit i = false := by
      intro i
      have := congrArg (fun x => Nat.testBit x i) h
      simp only [Nat.testBit_land, Nat.zero_testBit] at this
      rcases Bool.and_eq_false_iff.mp this with h1 | h1
      · exact Or.inl h1
      · exact Or.inr h1
    constructor
    · apply mod_two_pow_eq_zero_of_testBit (n := 12)
      intro i hi
      rcases hbit i with h1 | h1
      · exact h1
      · rw [notmaskBit] at h1
        simp at h1
        omega
    · apply Nat.lt_pow_two_of_testBit
      intro j hj
      by_cases hj64 : j < 64
      · have hj63 : j = 63 := by omega
        rcases hbit j with h1 | h1
        · exact h1
        · rw [notmaskBit] at h1
          simp [hj63] at h1
      · exact testBit_false_of_lt_u64 hp (by omega)
  · rintro ⟨hal, hlt⟩
    apply Nat.eq_of_testBit_eq
    intro i
    simp only [Nat.testBit_land, Nat.zero_testBit, Bool.and_eq_false_iff]
    rw [notmaskBit]
    by_cases h12 : i < 12
    · exact Or.inl (testBit_false_of_mod hal h12)
    · by_cases h63 : i = 63
      · subst h63
        exact Or.inl (Nat.testBit_lt_two_pow hlt)
      · right
        simp
        omega

theorem attrVal_land_mask (attr : PageTableAttr) : attrVal attr &&& PTE_ATTR_MASK = 0 := by
  cases attr <;> decide

theorem attrVal_lt (attr : PageTableAttr) : attrVal attr < U64 := by
  cases attr <;> decide

/-- Splitting an OR'd entry `paddr ||| attr-bits` back into its fields. -/
theorem entry_decomp {p t : Nat} (hp64 : p < U64) (hpm : p &&& PTE_ATTR_MASK_NOT = 0)
    (ht64 : t < U64) (htm : t &&& PTE_ATTR_MASK = 0) :
    entryPaddr (p ||| t) = p ∧ entryAttr (p ||| t) = t := by
  have hpbit : ∀ i, PTE_ATTR_MASK_NOT.testBit i = true → p.testBit i = false := by
    intro i hi
    have := congrArg (fun x => Nat.testBit x i) hpm
    simp only [Nat.testBit_land, Nat.zero_testBit, Bool.and_eq_false_iff] at this
    rcases this with h1 | h1
    · exact h1
    · rw [hi] at h1; cases h1
  have htbit : ∀ i, PTE_ATTR_MASK.testBit i = true → t.testBit i = false := by
    intro i hi
    have := congrArg (fun x => Nat.testBit x i) htm
    simp only [Nat.testBit_land, Nat.zero_testBit, Bool.and_eq_false_iff] at this
    rcases this with h1 | h1
    · exact h1
    · rw [hi] at h1; cases h1
  constructor
  · apply Nat.eq_of_testBit_eq
    intro i
    simp only [entryPaddr, Nat.testBit_land, Nat.testBit_lor]
    by_cases hi64 : i < 64
    · by_cases hm : PTE_ATTR_MASK.testBit i = true
      · rw [hm, htbit i hm]
        simp
      · have hm' : PTE_ATTR_MASK.testBit i = false := by
          cases h : PTE_ATTR_MASK.testBit i
          · rfl
          · exact absurd h hm
        have hn : PTE_ATTR_MASK_NOT.testBit i = true := by
          rw [maskBit] at hm'
          rw [notmaskBit]
          simp at hm' ⊢
          omega
        rw [hm', hpbit i hn]
        simp
    · rw [testBit_false_of_lt_u64 hp64 (by omega),
        testBit_false_of_lt_u64 (x := PTE_ATTR_MASK) (by decide) (by omega)]
      simp
  · apply Nat.eq_of_testBit_eq
    intro i
    simp only [entryAttr, Nat.testBit_land, Nat.testBit_lor]
    by_cases hi64 : i < 64
    · by_cases hn : PTE_ATTR_MASK_NOT.testBit i = true
      · rw [hn, hpbit i hn]
        simp
      · have hn' : PTE_ATTR_MASK_NOT.testBit i = false := by
          cases h : PTE_ATTR_MASK_NOT.testBit i
          · rfl
          · exact absurd h hn
        have hm : PTE_ATTR_MASK.testBit i = true := by
          rw [notmaskBit] at hn'
          rw [maskBit]
          simp at hn' ⊢
          omega
        rw [hn', htbit i hm]
        simp
    · rw [testBit_false_of_lt_u64 ht64 (by omega),
        testBit_false_of_lt_u64 (x := PTE_ATTR_MASK_NOT) (by decide) (by omega)]
      simp

theorem lor_lt_u64 {p t : Nat} (hp : p < U64) (ht : t < U64) : p ||| t < U64 := by
  apply Nat.lt_pow_two_of_testBit
  intro j hj
  rw [Nat.testBit_lor, testBit_false_of_lt_u64 hp hj, testBit_false_of_lt_u64 ht hj]
  rfl

/-- The physical-address field of any entry value is 4 KiB-aligned. -/
theorem entryPaddr_mod (v : Nat) : entryPaddr v % PAGE_SIZE = 0 := by
  apply mod_two_pow_eq_zero_of_testBit (n := 12)
  intro i hi
  simp only [entryPaddr, Nat.testBit_land]
  rw [maskBit]
  have : ¬(12 ≤ i ∧ i < 63) := by omega
  simp [this]

theorem entryPaddr_lt (v : Nat) : entryPaddr v < 2 ^ 63 := by
  apply Nat.lt_pow_two_of_testBit
  intro j hj
  simp only [entryPaddr, Nat.testBit_land]
  rw [maskBit]
  have : ¬(12 ≤ j ∧ j < 63) := by omega
  simp [this]

/-- `isPresent` of a composed entry is the attribute's present bit. -/
theorem isPresent_lor {p t : Nat} (hpm : p &&& PTE_ATTR_MASK_NOT = 0) :
    isPresent (p ||| t) = isPresent t := by
  have hp0 : p.testBit 0 = false := by
    have := congrArg (fun x => Nat.testBit x 0) hpm
    simp only [Nat.testBit_land, Nat.zero_testBit, Bool.and_eq_false_iff] at this
    rcases this with h1 | h1
    · exact h1
    · rw [notmaskBit] at h1
      simp at h1
  unfold isPresent
  rw [Nat.testBit_lor, hp0, Bool.false_or]

/-- `isHuge` of a composed entry is the attribute's huge bit. -/
theorem isHuge_lor {p t : Nat} (hpm : p &&& PTE_ATTR_MASK_NOT = 0) :
    isHuge (p ||| t) = isHuge t := by
  have hp7 : p.testBit 7 = false := by
    have := congrArg (fun x => Nat.testBit x 7) hpm
    simp only [Nat.testBit_land, Nat.zero_testBit, Bool.and_eq_false_iff] at this
    rcases this with h1 | h1
    · exact h1
    · rw [notmaskBit] at h1
      simp at h1
  unfold isHuge
  rw [Nat.testBit_lor, hp7, Bool.false_or]

theorem tableIndex_lt (a l : Nat) : tableIndex a l < 512 :=
  lt_of_le_of_lt Nat.and_le_right (by norm_num)

theorem tableIndex_eq (a l : Nat) :
    tableIndex a l = a / 2 ^ (12 + (l - 1) * 9) % 512 := by
  have h : (0x1FF : Nat) = 2 ^ 9 - 1 := by norm_num
  rw [tableIndex, h, land_pow_sub_one, Nat.shiftRight_eq_div_pow]
  norm_num

/-- Table indices at levels 1..4 only depend on the address modulo 2^48. -/
theorem tableIndex_congr {a b : Nat} (l : Nat) (hl : l ≤ 4)
    (h : a % 2 ^ 48 = b % 2 ^ 48) : tableIndex a l = tableIndex b l := by
  rw [tableIndex_eq, tableIndex_eq]
  set s := 12 + (l - 1) * 9 with hs
  have hs48 : s + 9 ≤ 48 := by omega
  have key : ∀ x : Nat, x / 2 ^ s % 512 = x % 2 ^ 48 / 2 ^ s % 512 := by
    intro x
    have h1 : x % 2 ^ 48 % 2 ^ (s + 9) = x % 2 ^ (s + 9) :=
      Nat.mod_mod_of_dvd x (pow_dvd_pow 2 hs48)
    have h2 : ∀ y : Nat, y / 2 ^ s % 512 = y % 2 ^ (s + 9) / 2 ^ s := by
      intro y
      have : (512 : Nat) = 2 ^ 9 := by norm_num
      rw [this, ← Nat.mod_mul_right_div_self, ← pow_add]
    rw [h2, h2, h1]
  rw [key a, key b, h]

/-! ## Heap and node lemmas -/

theorem getEntry_put_self {n : PageTableNode} {i : Nat} (v : Nat)
    (h : i < n.entries.length) : getEntry (putEntry n i v) i = v := by
  unfold getEntry putEntry
  rw [List.getD_eq_getElem?_getD, List.getElem?_set_self h]
  rfl

theorem getEntry_put_ne {n : PageTableNode} {i j : Nat} (v : Nat) (h : i ≠ j) :
    getEntry (putEntry n i v) j = getEntry n j := by
  unfold getEntry putEntry
  rw [List.getD_eq_getElem?_getD, List.getD_eq_getElem?_getD, List.getElem?_set_ne h]

theorem putEntry_length (n : PageTableNode) (i v : Nat) :
    (putEntry n i v).entries.length = n.entries.length := by
  simp [putEntry]

theorem putEntry_same {n : PageTableNode} {i v : Nat} (hlen : i < n.entries.length)
    (h : getEntry n i = v) : putEntry n i v = n := by
  unfold getEntry at h
  rw [List.getD_eq_getElem?_getD] at h
  have hval : n.entries[i]? = some v := by
    rcases hget : n.entries[i]? with _ | w
    · rw [List.getElem?_eq_none_iff] at hget
      omega
    · rw [hget] at h
      simp at h
      rw [h]
  have : n.entries.set i v = n.entries := by
    apply List.ext_getElem?
    intro j
    by_cases hj : i = j
    · subst hj
      rw [List.getElem?_set_self hlen, hval]
    · rw [List.getElem?_set_ne hj]
  simp [putEntry, this]

theorem getEntry_zeroNode (i : Nat) : getEntry zeroNode i = 0 := by
  unfold getEntry zeroNode
  rw [List.getD_eq_getElem?_getD, List.getElem?_replicate]
  by_cases h : i < 512
  · rw [if_pos h]
    rfl
  · rw [if_neg h]
    rfl

theorem zeroNode_length : zeroNode.entries.length = 512 := by
  unfold zeroNode
  exact List.length_replicate 512 0

theorem isPresent_zero : isPresent 0 = false := by decide

theorem lookupNode_none_iff {h : Heap} {a : Nat} :
    lookupNode h a = none ↔ a ∉ keys h := by
  unfold lookupNode keys
  rcases hf : h.nodes.find? (fun p => p.1 == a) with _ | p
  · rw [hf]
    constructor
    · intro _ hmem
      rcases List.mem_map.mp hmem with ⟨q, hq, hqa⟩
      have := List.find?_eq_none.mp hf q hq
      simp [hqa] at this
    · intro _
      rfl
  · rw [hf]
    constructor
    · intro hc
      cases hc
    · intro hmem
      exfalso
      apply hmem
      have hm := List.mem_of_find?_eq_some hf
      have hp := List.find?_some hf
      simp at hp
      exact List.mem_map.mpr ⟨p, hm, hp⟩

theorem lookupNode_mem {h : Heap} {a : Nat} {n : PageTableNode}
    (hl : lookupNode h a = some n) : (a, n) ∈ h.nodes ∧ a ∈ keys h := by
  unfold lookupNode at hl
  rcases hf : h.nodes.find? (fun p => p.1 == a) with _ | p
  · rw [hf] at hl
    cases hl
  · rw [hf] at hl
    have hmem := List.mem_of_find?_eq_some hf
    have hp := List.find?_some hf
    simp at hp
    have hl : p.2 = n := by
      cases hl
      rfl
    constructor
    · have hpair : p = (a, n) := by
        rcases p with ⟨p1, p2⟩
        simp only at hp hl
        rw [hp, hl]
      rw [← hpair]
      exact hmem
    · exact List.mem_map.mpr ⟨p, hmem, hp⟩

theorem lookupNode_isSome_of_mem {h : Heap} {a : Nat} (hmem : a ∈ keys h) :
    ∃ n, lookupNode h a = some n := by
  rcases hl : lookupNode h a with _ | n
  · rw [lookupNode_none_iff] at hl
    exact absurd hmem hl
  · exact ⟨n, rfl⟩

theorem keys_updateNode (h : Heap) (a : Nat) (n : PageTableNode) :
    keys (updateNode h a n) = keys h := by
  unfold keys updateNode
  simp only [List.map_map]
  apply List.map_congr_left
  intro p _
  by_cases hp : p.1 = a <;> simp [hp]

theorem nextAddr_updateNode (h : Heap) (a : Nat) (n : PageTableNode) :
    (updateNode h a n).nextAddr = h.nextAddr := rfl

/-- Helper: `find?` over a key-update map. -/
theorem find?_update_self {l : List (Nat × PageTableNode)} {a : Nat} (n : PageTableNode)
    (hmem : a ∈ l.map Prod.fst) :
    (l.map (fun p => if p.1 = a then (p.1, n) else p)).find? (fun p => p.1 == a) =
      some (a, n) := by
  induction l with
  | nil => simp at hmem
  | cons p l ih =>
    by_cases hp : p.1 = a
    · simp only [List.map_cons, if_pos hp]
      rw [List.find?_cons_of_pos _ (by simp [hp])]
      rw [hp]
    · simp only [List.map_cons, List.mem_cons] at hmem
      rcases hmem with h1 | h1
      · exact absurd h1.symm hp
      · simp only [List.map_cons, if_neg hp]
        rw [List.find?_cons_of_neg _ (by simp [hp])]
        exact ih h1

theorem updateNode_nodes (h : Heap) (a : Nat) (n : PageTableNode) :
    (updateNode h a n).nodes = h.nodes.map (fun p => if p.1 = a then (p.1, n) else p) := rfl

theorem lookupNode_update_self {h : Heap} {a : Nat} (n : PageTableNode)
    (hmem : a ∈ keys h) : lookupNode (updateNode h a n) a = some n := by
  unfold lookupNode
  rw [updateNode_nodes, find?_update_self n hmem]
  rfl

/-- Helper: `find?` for a different key ignores a key-update map. -/
theorem find?_update_ne {l : List (Nat × PageTableNode)} {a b : Nat} (n : PageTableNode)
    (hne : b ≠ a) :
    (l.map (fun p => if p.1 = a then (p.1, n) else p)).find? (fun p => p.1 == b) =
      l.find? (fun p => p.1 == b) := by
  induction l with
  | nil => rfl
  | cons p l ih =>
    simp only [List.map_cons]
    by_cases hp : p.1 = b
    · have hpa : ¬p.1 = a := by omega
      rw [if_neg hpa]
      rw [List.find?_cons_of_pos _ (by simp [hp]), List.find?_cons_of_pos _ (by simp [hp])]
    · by_cases hpa : p.1 = a
      · rw [if_pos hpa]
        rw [List.find?_cons_of_neg _ (by simp; omega), List.find?_cons_of_neg _ (by simp [hp])]
        exact ih
      · rw [if_neg hpa]
        rw [List.find?_cons_of_neg _ (by simp [hp]), List.find?_cons_of_neg _ (by simp [hp])]
        exact ih

theorem lookupNode_update_ne {h : Heap} {a b : Nat} (n : PageTableNode)
    (hne : b ≠ a) : lookupNode (updateNode h a n) b = lookupNode h b := by
  unfold lookupNode
  rw [updateNode_nodes, find?_update_ne n hne]

theorem mem_eq_of_lookup {h : Heap} {a : Nat} {n m : PageTableNode}
    (hnd : (keys h).Nodup) (hl : lookupNode h a = some n)
    (hmem : (a, m) ∈ h.nodes) : m = n := by
  unfold lookupNode at hl
  unfold keys at hnd
  rcases h with ⟨nodes, next⟩
  simp only at hl hnd hmem
  induction nodes with
  | nil => simp at hmem
  | cons p l ih =>
    simp only [List.map_cons, List.nodup_cons, List.mem_map] at hnd
    rcases List.mem_cons.mp hmem with h1 | h1
    · have hp : p.1 = a := by rw [← h1]
      rw [List.find?_cons_of_pos _ (by simp [hp])] at hl
      simp at hl
      rw [← hl, ← h1]
    · by_cases hp : p.1 = a
      · exfalso
        apply hnd.1
        exact ⟨(a, m), h1, by simp [hp]⟩
      · rw [List.find?_cons_of_neg _ (by simp [hp])] at hl
        exact ih hnd.2 hl h1

theorem updateNode_same {h : Heap} {a : Nat} {n : PageTableNode}
    (hnd : (keys h).Nodup) (hl : lookupNode h a = some n) :
    updateNode h a n = h := by
  have hfix : ∀ p ∈ h.nodes, (if p.1 = a then (p.1, n) else p) = p := by
    intro p hp
    by_cases hpa : p.1 = a
    · have hpair : p = (a, p.2) := by
        rw [← hpa]
      have hm : (a, p.2) ∈ h.nodes := hpair ▸ hp
      have heq := mem_eq_of_lookup hnd hl hm
      rw [if_pos hpa, ← heq]
    · rw [if_neg hpa]
  unfold updateNode
  rcases h with ⟨nodes, next⟩
  simp only [Heap.mk.injEq, and_true]
  calc nodes.map (fun p => if p.1 = a then (p.1, n) else p)
      = nodes.map id := List.map_congr_left hfix
    _ = nodes := List.map_id nodes

theorem keys_allocNode (h : Heap) : keys (allocNode h).1 = keys h ++ [h.nextAddr] := by
  simp [keys, allocNode]

theorem nextAddr_allocNode (h : Heap) : (allocNode h).1.nextAddr = h.nextAddr + PAGE_SIZE := rfl

theorem allocNode_nodes (h : Heap) :
    (allocNode h).1.nodes = h.nodes ++ [(h.nextAddr, zeroNode)] := rfl

theorem lookupNode_alloc_old {h : Heap} {b : Nat} :
    b ∈ keys h → lookupNode (allocNode h).1 b = lookupNode h b := by
  intro hmem
  unfold lookupNode
  rw [allocNode_nodes, List.find?_append]
  rcases hf : h.nodes.find? (fun p => p.1 == b) with _ | p
  · exfalso
    have : lookupNode h b = none := by
      unfold lookupNode
      rw [hf]
      rfl
    exact lookupNode_none_iff.mp this hmem
  · rw [hf]
    rfl

theorem lookupNode_alloc_new {h : Heap} (hfresh : h.nextAddr ∉ keys h) :
    lookupNode (allocNode h).1 h.nextAddr = some zeroNode := by
  unfold lookupNode
  rw [allocNode_nodes, List.find?_append]
  rcases hf : h.nodes.find? (fun p => p.1 == h.nextAddr) with _ | p
  · rw [hf]
    simp [List.find?]
  · have hmem := List.mem_of_find?_eq_some hf
    have hp := List.find?_some hf
    simp at hp
    exfalso
    exact hfresh (List.mem_map.mpr ⟨p, hmem, hp⟩)

theorem lookupNode_alloc_fresh_none {h : Heap} {b : Nat} (hb : b ∉ keys h)
    (hbne : b ≠ h.nextAddr) : lookupNode (allocNode h).1 b = none := by
  rw [lookupNode_none_iff, keys_allocNode]
  simp [hb, hbne]

/-! ## Allocator alignment lemma -/

theorem land_align_mod {y k : Nat} (hk : k ≤ 64) : (y &&& (U64 - 2 ^ k)) % 2 ^ k = 0 := by
  apply mod_two_pow_eq_zero_of_testBit
  intro i hi
  rw [Nat.testBit_land]
  have hdvd : 2 ^ k ∣ U64 - 2 ^ k :=
    Nat.dvd_sub' (pow_dvd_pow 2 hk) dvd_rfl
  have hmod : (U64 - 2 ^ k) % 2 ^ k = 0 := Nat.dvd_iff_mod_eq_zero.mp hdvd
  rw [testBit_false_of_mod hmod hi]
  simp

/-! ## Claim theorems: easy claims -/

/-- C8: the interrupt dispatcher returns normally exactly for the breakpoint
vector 3 and the timer vector 42; every other vector (including 6, 13, 14)
falls into the halt-forever loop; on vector 42 it increments the local-APIC
timer count, acknowledges end-of-interrupt, and invokes the per-tick hook
(`task::tick`) before returning; on vector 3 the state is untouched. -/
theorem interrupt_handler_dispatch (s : IntState) (vector : Nat) :
    ((interrupt_handler s vector).2 = IntEnd.returns ↔ vector = 3 ∨ vector = 42) ∧
    (interrupt_handler s 3 = (s, IntEnd.returns)) ∧
    (interrupt_handler s 42 =
      ({ timerCount := increment_count s.timerCount, eoiAcked := true,
         ticks := (s.ticks + 1) % U64 }, IntEnd.returns)) := by
  refine ⟨?_, rfl, rfl⟩
  unfold interrupt_handler
  split_ifs with h1 h2 h3 h4 h5 <;> simp_all

/-- C9: for every allocator state and every layout (size, power-of-two
alignment), `alloc` returns null and leaves the state unchanged when the end
computation overflows (`checked_add`) or when the allocation would pass the
allocator's `end`; otherwise it returns the aligned start (a multiple of the
alignment) and advances `next` exactly past the allocation; `dealloc` is a
no-op for every pointer and layout. -/
theorem liner_allocator_spec (a : LinerAllocator) (size k : Nat) (hk : k ≤ 64) :
    (U64 ≤ ((a.next + 2 ^ k - 1) % U64 &&& (U64 - 2 ^ k)) + size →
      a.alloc size (2 ^ k) = (none, a)) ∧
    (((a.next + 2 ^ k - 1) % U64 &&& (U64 - 2 ^ k)) + size < U64 →
      a.end_ < ((a.next + 2 ^ k - 1) % U64 &&& (U64 - 2 ^ k)) + size →
      a.alloc size (2 ^ k) = (none, a)) ∧
    (((a.next + 2 ^ k - 1) % U64 &&& (U64 - 2 ^ k)) + size < U64 →
      ((a.next + 2 ^ k - 1) % U64 &&& (U64 - 2 ^ k)) + size ≤ a.end_ →
      a.alloc size (2 ^ k) =
        (some ((a.next + 2 ^ k - 1) % U64 &&& (U64 - 2 ^ k)),
         { a with next := ((a.next + 2 ^ k - 1) % U64 &&& (U64 - 2 ^ k)) + size }) ∧
      ((a.next + 2 ^ k - 1) % U64 &&& (U64 - 2 ^ k)) % 2 ^ k = 0) ∧
    (∀ p sz al, a.dealloc p sz al = a) := by
  refine ⟨?_, ?_, ?_, fun p sz al => rfl⟩
  · intro hov
    unfold LinerAllocator.alloc
    rw [if_neg (by omega)]
  · intro hno hend
    unfold LinerAllocator.alloc
    rw [if_pos hno, if_pos (by omega)]
  · intro hno hend
    refine ⟨?_, land_align_mod hk⟩
    unfold LinerAllocator.alloc
    rw [if_pos hno, if_neg (by omega)]

/-- C7: `set_entry` rejects (with an error, leaving no value written) every
physical address with a bit outside the address-field mask — in particular
any misaligned address — and never stores a truncated address: on success the
entry's physical-address field is exactly the requested (page-aligned)
address.  `alloc_next_level_table` errors when the entry is already present,
and otherwise produces an entry whose physical-address field is the freshly
allocated node's (page-aligned) address. -/
theorem set_entry_alignment (paddr : Nat) (attr : PageTableAttr) (hp : paddr < U64) :
    (paddr &&& PTE_ATTR_MASK_NOT ≠ 0 → setEntry paddr attr = .error .physMisaligned) ∧
    (paddr % PAGE_SIZE ≠ 0 → setEntry paddr attr = .error .physMisaligned) ∧
    (∀ v, setEntry paddr attr = .ok v →
      entryPaddr v = paddr ∧ paddr % PAGE_SIZE = 0 ∧ entryPaddr v % PAGE_SIZE = 0) ∧
    (∀ h : Heap, ∀ v : Nat, isPresent v = true →
      alloc_next_level_table h v = .error .alreadyAllocated) ∧
    (∀ h : Heap, ∀ v : Nat, isPresent v = false →
      h.nextAddr % PAGE_SIZE = 0 → h.nextAddr < 2 ^ 63 →
      alloc_next_level_table h v =
        .ok ((allocNode h).1, h.nextAddr ||| attrVal .ReadWriteExecuteKernel) ∧
      entryPaddr (h.nextAddr ||| attrVal .ReadWriteExecuteKernel) = h.nextAddr) := by
  refine ⟨?_, ?_, ?_, ?_, ?_⟩
  · intro hne
    unfold setEntry
    rw [if_pos hne]
  · intro hne
    unfold setEntry
    rw [if_pos ?_]
    intro h0
    exact hne ((land_notmask_eq_zero_iff hp).mp h0).1
  · intro v hok
    unfold setEntry at hok
    by_cases h0 : paddr &&& PTE_ATTR_MASK_NOT = 0
    · rw [if_neg (by simp [h0])] at hok
      have hv : v = paddr ||| attrVal attr := by
        cases hok
        rfl
      have hd := entry_decomp hp h0 (attrVal_lt attr) (attrVal_land_mask attr)
      rw [hv]
      exact ⟨hd.1, ((land_notmask_eq_zero_iff hp).mp h0).1, by rw [hd.1]; exact ((land_notmask_eq_zero_iff hp).mp h0).1⟩
    · rw [if_pos h0] at hok
      cases hok
  · intro h v hpres
    unfold alloc_next_level_table
    rw [if_pos hpres]
  · intro h v hpres halign hlt
    have hgoal : alloc_next_level_table h v =
        .ok ((allocNode h).1, h.nextAddr ||| attrVal .ReadWriteExecuteKernel) := by
      unfold alloc_next_level_table
      rw [if_neg (by simp [hpres])]
      rfl
    refine ⟨hgoal, ?_⟩
    have hlt64 : h.nextAddr < U64 := lt_trans hlt (by norm_num [U64])
    have h0 : h.nextAddr &&& PTE_ATTR_MASK_NOT = 0 :=
      (land_notmask_eq_zero_iff hlt64).mpr ⟨halign, hlt⟩
    exact (entry_decomp hlt64 h0 (attrVal_lt _) (attrVal_land_mask _)).1

/-- C5: `duplicate_kernel` copies every present PML4 entry value verbatim
(the identical value, hence the same physical pointer to the shared
lower-level nodes — the heap of lower-level nodes itself is untouched and
shared), and leaves every non-present entry non-present in the duplicate. -/
theorem duplicate_kernel_shares (pt : PageTable) (h512 : pt.pml4.entries.length = 512) :
    (duplicate_kernel pt).heap = pt.heap ∧
    ∀ i < 512,
      (isPresent (getEntry pt.pml4 i) = true →
        getEntry (duplicate_kernel pt).pml4 i = getEntry pt.pml4 i) ∧
      (isPresent (getEntry pt.pml4 i) = false →
        isPresent (getEntry (duplicate_kernel pt).pml4 i) = false) := by
  refine ⟨rfl, ?_⟩
  intro i hi
  have hib : i < pt.pml4.entries.length := by omega
  have hget : getEntry (duplicate_kernel pt).pml4 i =
      (if isPresent (getEntry pt.pml4 i) then getEntry pt.pml4 i else 0) := by
    unfold duplicate_kernel getEntry
    simp only
    rw [List.getD_eq_getElem?_getD, List.getD_eq_getElem?_getD, List.getElem?_map]
    rcases hx : pt.pml4.entries[i]? with _ | w
    · rw [List.getElem?_eq_none_iff] at hx
      omega
    · simp
  constructor
  · intro hpres
    rw [hget, if_pos hpres]
  · intro hnp
    rw [hget, if_neg (by simp [hnp]), isPresent_zero]

/-- C2 counterexample: requesting a mapping at the non-page-aligned virtual
address 0x10000007 does not return an error value to the caller — the
`assert!` in `map` fires, i.e. the call panics (kernel panic), with the table
untouched. -/
theorem create_mapping_misaligned_panics_concrete :
    create_mapping emptyTable 0x10000007 0 4096 PageTableAttr.ReadWriteKernel =
      MapOutcome.panic PanicKind.virtUnaligned emptyTable := by
  rfl

/-- C2 (amended): calling `create_mapping` with a virtual start address that
is not 4 KiB-aligned makes the `assert!` in `map` fire — a kernel panic, not
a returned error value — before any table mutation, so no silently rounded
mapping is installed (the table carried by the panic outcome is unchanged). -/
theorem create_mapping_misaligned_asserts (pt : PageTable) (virt phys size : Nat)
    (attr : PageTableAttr) (hv : virt % PAGE_SIZE ≠ 0) :
    create_mapping pt virt phys size attr = MapOutcome.panic PanicKind.virtUnaligned pt := by
  unfold create_mapping map
  rw [if_pos hv]

/-- Witness for the C2 amended theorem at a concrete input. -/
theorem create_mapping_misaligned_asserts_witness :
    (0x1007 % PAGE_SIZE ≠ 0) ∧
    create_mapping emptyTable 0x1007 0 8192 PageTableAttr.ReadWriteKernel =
      MapOutcome.panic PanicKind.virtUnaligned emptyTable :=
  ⟨by decide, create_mapping_misaligned_asserts emptyTable 0x1007 0 8192
    PageTableAttr.ReadWriteKernel (by decide)⟩

/-- C4: with exactly one Runnable task which is the current task (alone in
the list, or alongside Stopped tasks), the scan in `switch` wraps around and
selects the current task itself; the switch body then locks the same
(non-reentrant) spin lock twice and spins forever — a deadlock, not the
no-context-switch return the spec describes. -/
theorem switch_single_runnable_deadlocks :
    switch ⟨[⟨TaskState.Runnable, true⟩], 0⟩ =
      SwitchResult.deadlock ⟨[⟨TaskState.Runnable, true⟩], 0⟩ ∧
    switch ⟨[⟨TaskState.Runnable, true⟩, ⟨TaskState.Stopped, false⟩], 0⟩ =
      SwitchResult.deadlock ⟨[⟨TaskState.Runnable, true⟩, ⟨TaskState.Stopped, false⟩], 0⟩ := by
  constructor
  · rfl
  · rfl

/-- Witness for the C9 allocator theorem at a concrete state and layout. -/
theorem liner_allocator_spec_witness :
    (4 ≤ 64) ∧
    ((U64 ≤ ((0x1007 + 2 ^ 4 - 1) % U64 &&& (U64 - 2 ^ 4)) + 256 →
      LinerAllocator.alloc ⟨0x1000, 0x9000, 0x1007⟩ 256 (2 ^ 4) =
        (none, ⟨0x1000, 0x9000, 0x1007⟩)) ∧
    (((0x1007 + 2 ^ 4 - 1) % U64 &&& (U64 - 2 ^ 4)) + 256 < U64 →
      (0x9000 : Nat) < ((0x1007 + 2 ^ 4 - 1) % U64 &&& (U64 - 2 ^ 4)) + 256 →
      LinerAllocator.alloc ⟨0x1000, 0x9000, 0x1007⟩ 256 (2 ^ 4) =
        (none, ⟨0x1000, 0x9000, 0x1007⟩)) ∧
    (((0x1007 + 2 ^ 4 - 1) % U64 &&& (U64 - 2 ^ 4)) + 256 < U64 →
      ((0x1007 + 2 ^ 4 - 1) % U64 &&& (U64 - 2 ^ 4)) + 256 ≤ 0x9000 →
      LinerAllocator.alloc ⟨0x1000, 0x9000, 0x1007⟩ 256 (2 ^ 4) =
        (some ((0x1007 + 2 ^ 4 - 1) % U64 &&& (U64 - 2 ^ 4)),
         { start := 0x1000, end_ := 0x9000,
           next := ((0x1007 + 2 ^ 4 - 1) % U64 &&& (U64 - 2 ^ 4)) + 256 }) ∧
      ((0x1007 + 2 ^ 4 - 1) % U64 &&& (U64 - 2 ^ 4)) % 2 ^ 4 = 0) ∧
    (∀ p sz al, LinerAllocator.dealloc ⟨0x1000, 0x9000, 0x1007⟩ p sz al =
      ⟨0x1000, 0x9000, 0x1007⟩)) :=
  ⟨by decide, liner_allocator_spec ⟨0x1000, 0x9000, 0x1007⟩ 256 4 (by decide)⟩

/-- Witness for the C7 set_entry theorem at a concrete physical address. -/
theorem set_entry_alignment_witness :
    ((0x5000 : Nat) < U64) ∧
    (((0x5000 : Nat) &&& PTE_ATTR_MASK_NOT ≠ 0 →
      setEntry 0x5000 PageTableAttr.ReadWriteKernel = .error .physMisaligned) ∧
    ((0x5000 : Nat) % PAGE_SIZE ≠ 0 →
      setEntry 0x5000 PageTableAttr.ReadWriteKernel = .error .physMisaligned) ∧
    (∀ v, setEntry 0x5000 PageTableAttr.ReadWriteKernel = .ok v →
      entryPaddr v = 0x5000 ∧ (0x5000 : Nat) % PAGE_SIZE = 0 ∧
        entryPaddr v % PAGE_SIZE = 0) ∧
    (∀ h : Heap, ∀ v : Nat, isPresent v = true →
      alloc_next_level_table h v = .error .alreadyAllocated) ∧
    (∀ h : Heap, ∀ v : Nat, isPresent v = false →
      h.nextAddr % PAGE_SIZE = 0 → h.nextAddr < 2 ^ 63 →
      alloc_next_level_table h v =
        .ok ((allocNode h).1, h.nextAddr ||| attrVal .ReadWriteExecuteKernel) ∧
      entryPaddr (h.nextAddr ||| attrVal .ReadWriteExecuteKernel) = h.nextAddr)) :=
  ⟨by norm_num [U64], set_entry_alignment 0x5000 PageTableAttr.ReadWriteKernel
    (by norm_num [U64])⟩

/-- Witness for the C5 duplicate_kernel theorem at a concrete table. -/
theorem duplicate_kernel_shares_witness :
    (emptyTable.pml4.entries.length = 512) ∧
    ((duplicate_kernel emptyTable).heap = emptyTable.heap ∧
    ∀ i < 512,
      (isPresent (getEntry emptyTable.pml4 i) = true →
        getEntry (duplicate_kernel emptyTable).pml4 i = getEntry emptyTable.pml4 i) ∧
      (isPresent (getEntry emptyTable.pml4 i) = false →
        isPresent (getEntry (duplicate_kernel emptyTable).pml4 i) = false)) :=
  ⟨by rfl, duplicate_kernel_shares emptyTable (by rfl)⟩

/-! ## Scheduler scan lemmas (for C3) -/

theorem getD_mem_of_lt {ts : List Task} {i : Nat} (h : i < ts.length) (d : Task) :
    ts.getD i d ∈ ts := by
  rw [List.getD_eq_getElem?_getD, List.getElem?_eq_getElem h]
  exact List.getElem_mem h

/-- Reference scan: check `r` consecutive indices starting at `i` (cyclic). -/
def scanSpec (ts : List Task) : Nat → Nat → Option Nat
  | _, 0 => none
  | i, r + 1 => if runnableAt ts i then some i else scanSpec ts ((i + 1) % ts.length) r

theorem findSome?_congr {α β : Type} {f g : α → Option β} :
    ∀ {l : List α}, (∀ a ∈ l, f a = g a) → l.findSome? f = l.findSome? g := by
  intro l
  induction l with
  | nil => intro _; rfl
  | cons a l ih =>
    intro h
    rw [List.findSome?_cons, List.findSome?_cons, h a (List.mem_cons_self a l)]
    rcases g a with _ | b
    · exact ih (fun x hx => h x (List.mem_cons_of_mem a hx))
    · rfl

/-- The fueled wrap-around scan agrees with the reference scan: with the
invariant that `r` more positions remain before the index returns to
`start`. -/
theorem scanNext_eq_scanSpec (ts : List Task) :
    ∀ r f i, 0 < ts.length → i < ts.length → 1 ≤ r → r ≤ ts.length → r ≤ f →
      ∀ start, (i + r) % ts.length = start →
      scanNext ts f i start = scanSpec ts i r := by
  intro r
  induction r with
  | zero => omega
  | succ r' ih =>
    intro f i hlen hi hr1 hrlen hrf start hinv
    rcases f with _ | f'
    · omega
    unfold scanNext scanSpec
    by_cases hhit : runnableAt ts i
    · rw [if_pos hhit, if_pos hhit]
    · rw [if_neg hhit, if_neg hhit]
      by_cases hr0 : r' = 0
      · subst hr0
        have : (i + 1) % ts.length = start := by
          rw [← hinv]
        rw [if_pos this]
        rfl
      · have hne : (i + 1) % ts.length ≠ start := by
          intro hcon
          rw [← hinv] at hcon
          have hmodeq : (i + 1) ≡ (i + 1) + r' [MOD ts.length] := by
            unfold Nat.ModEq
            rw [hcon]
            congr 1
            omega
          have hdvd := (Nat.modEq_iff_dvd' (by omega)).mp hmodeq
          simp only [Nat.add_sub_cancel_left] at hdvd
          have := Nat.le_of_dvd (by omega) hdvd
          omega
        rw [if_neg hne]
        apply ih f' ((i + 1) % ts.length) hlen (Nat.mod_lt _ hlen) (by omega)
          (by omega) (by omega)
        rw [Nat.mod_add_mod, ← hinv]
        congr 1
        omega

/-- The reference scan computes the findSome? formulation. -/
theorem scanSpec_eq_findSome (ts : List Task) (hlen : 0 < ts.length) :
    ∀ r i, i < ts.length →
      scanSpec ts i r = (List.range r).findSome? (fun k =>
        if runnableAt ts ((i + k) % ts.length) then some ((i + k) % ts.length)
        else none) := by
  intro r
  induction r with
  | zero => intro i _; rfl
  | succ r' ih =>
    intro i hi
    rw [List.range_succ_eq_map, List.findSome?_cons]
    have hi0 : (i + 0) % ts.length = i := by
      rw [Nat.add_zero, Nat.mod_eq_of_lt hi]
    unfold scanSpec
    by_cases hhit : runnableAt ts i
    · rw [if_pos hhit]
      rw [hi0, if_pos hhit]
    · rw [if_neg hhit]
      rw [hi0, if_neg hhit]
      rw [List.findSome?_map]
      rw [ih ((i + 1) % ts.length) (Nat.mod_lt _ hlen)]
      apply findSome?_congr
      intro k _
      simp only [Function.comp]
      have harith : ((i + 1) % ts.length + k) % ts.length =
          (i + Nat.succ k) % ts.length := by
        rw [Nat.mod_add_mod]
        congr 1
        omega
      rw [harith]

/-- `switch`'s scan is exactly the spec policy `specNext`. -/
theorem scanNext_eq_specNext (ts : List Task) (c : Nat) (hlen : 0 < ts.length)
    (hc : c < ts.length) :
    scanNext ts ts.length ((c + 1) % ts.length) ((c + 1) % ts.length) =
      specNext ts c := by
  have hstart : (c + 1) % ts.length < ts.length := Nat.mod_lt _ hlen
  rw [scanNext_eq_scanSpec ts ts.length ts.length ((c + 1) % ts.length) hlen hstart
    (by omega) (by omega) (by omega) _ (by rw [Nat.mod_add_mod, Nat.add_mod_right])]
  rw [scanSpec_eq_findSome ts hlen ts.length ((c + 1) % ts.length) hstart]
  unfold specNext
  apply findSome?_congr
  intro k _
  have : ((c + 1) % ts.length + k) % ts.length = (c + 1 + k) % ts.length := by
    rw [Nat.mod_add_mod]
  rw [this]

/-- Any index produced by `specNext` is in bounds. -/
theorem specNext_lt {ts : List Task} {c j : Nat} (hlen : 0 < ts.length)
    (hspec : specNext ts c = some j) : j < ts.length := by
  unfold specNext at hspec
  rcases List.exists_of_findSome?_eq_some hspec with ⟨k, _, hk⟩
  simp only at hk
  by_cases hr : runnableAt ts ((c + 1 + k) % ts.length)
  · rw [if_pos hr] at hk
    cases hk
    exact Nat.mod_lt _ hlen
  · rw [if_neg hr] at hk
    cases hk

/-- One `switch` call moves from `c` to the task selected by the spec scan
policy (when that task is distinct from the current one), updating exactly
the two running flags. -/
theorem switch_eq_of_specNext {ts : List Task} {c j : Nat}
    (hc : c < ts.length) (hspec : specNext ts c = some j) (hne : j ≠ c) :
    switch ⟨ts, c⟩ = SwitchResult.normal
      ⟨(ts.set c { ts.getD c ⟨TaskState.Stopped, false⟩ with running := false }).set j
        { ts.getD j ⟨TaskState.Stopped, false⟩ with running := true }, j⟩ true := by
  have hlen : 0 < ts.length := by omega
  have hemp : ts.isEmpty = false := by
    rcases ts with _ | ⟨x, xs⟩
    · simp at hlen
    · rfl
  unfold switch
  simp only [hemp, Bool.false_eq_true, if_false, if_pos hc]
  rw [scanNext_eq_specNext ts c hlen hc, hspec]
  simp only
  rw [if_neg hne]

/-- With every task Runnable, the scan selects the next list position. -/
theorem specNext_all_runnable {ts : List Task} (hall : ∀ t ∈ ts, t.state = TaskState.Runnable)
    {c : Nat} (hlen : 0 < ts.length) (hc : c < ts.length) :
    specNext ts c = some ((c + 1) % ts.length) := by
  have hj : (c + 1) % ts.length < ts.length := Nat.mod_lt _ hlen
  have hrun : runnableAt ts ((c + 1) % ts.length) = true := by
    have hred : runnableAt ts ((c + 1) % ts.length) =
        ((ts.get ⟨(c + 1) % ts.length, hj⟩).state == TaskState.Runnable) := by
      unfold runnableAt
      rw [List.get?_eq_get hj]
    rw [hred, hall (ts.get ⟨(c + 1) % ts.length, hj⟩) (ts.get_mem _ _)]
    rfl
  unfold specNext
  rcases hn : ts.length with _ | m
  · omega
  rw [List.range_succ_eq_map, List.findSome?_cons]
  simp only [Nat.add_zero]
  rw [← hn, hrun]
  rfl

/-- Iterating `switch` over an all-Runnable list of length ≥ 2 advances the
current index by one (mod N) per call and keeps every task Runnable. -/
theorem iterSwitch_all_runnable {N : Nat} (hN : 2 ≤ N) :
    ∀ (k : Nat) (ts : List Task) (c : Nat), ts.length = N →
      (∀ t ∈ ts, t.state = TaskState.Runnable) → c < N →
      ∃ ts', iterSwitch k ⟨ts, c⟩ = some ⟨ts', (c + k) % N⟩ ∧
        ts'.length = N ∧ ∀ t ∈ ts', t.state = TaskState.Runnable := by
  intro k
  induction k with
  | zero =>
    intro ts c hlen hall hc
    refine ⟨ts, ?_, hlen, hall⟩
    unfold iterSwitch
    rw [Nat.add_zero, Nat.mod_eq_of_lt hc]
  | succ k' ih =>
    intro ts c hlen hall hc
    have hlen0 : 0 < ts.length := by omega
    have hcc : c < ts.length := by omega
    have hspec := specNext_all_runnable hall hlen0 hcc
    have hne : (c + 1) % ts.length ≠ c := by
      intro hcon
      rcases Nat.lt_or_ge (c + 1) ts.length with hlt | hge
      · rw [Nat.mod_eq_of_lt hlt] at hcon
        omega
      · have hc1 : c + 1 = ts.length := by omega
        rw [hc1, Nat.mod_self] at hcon
        omega
    have hstep := switch_eq_of_specNext hcc hspec hne
    set ts1 := (ts.set c { ts.getD c ⟨TaskState.Stopped, false⟩ with running := false }).set
      ((c + 1) % ts.length) { ts.getD ((c + 1) % ts.length) ⟨TaskState.Stopped, false⟩ with
        running := true } with hts1
    have hlen1 : ts1.length = N := by
      rw [hts1]
      simp [hlen]
    have hall1 : ∀ t ∈ ts1, t.state = TaskState.Runnable := by
      intro t ht
      rw [hts1] at ht
      rcases List.mem_or_eq_of_mem_set ht with h1 | h1
      · rcases List.mem_or_eq_of_mem_set h1 with h2 | h2
        · exact hall t h2
        · rw [h2]
          exact hall (ts.getD c ⟨TaskState.Stopped, false⟩)
            (getD_mem_of_lt hcc ⟨TaskState.Stopped, false⟩)
      · rw [h1]
        exact hall (ts.getD ((c + 1) % ts.length) ⟨TaskState.Stopped, false⟩)
          (getD_mem_of_lt (Nat.mod_lt (c + 1) hlen0) ⟨TaskState.Stopped, false⟩)
    have hc1 : (c + 1) % ts.length < N := by
      rw [hlen]
      exact Nat.mod_lt _ (by omega)
    rcases ih ts1 ((c + 1) % ts.length) hlen1 hall1 hc1 with ⟨ts', hiter, hlen', hall'⟩
    refine ⟨ts', ?_, hlen', hall'⟩
    have harith : ((c + 1) % ts.length + k') % N = (c + (k' + 1)) % N := by
      rw [hlen, Nat.mod_add_mod]
      congr 1
      omega
    have hiter1 : iterSwitch (k' + 1) ⟨ts, c⟩ =
        iterSwitch k' ⟨ts1, (c + 1) % ts.length⟩ := by
      simp only [iterSwitch]
      rw [hstep]
    rw [hiter1, hiter, harith]

/-- C3: `switch` selects the next task by scanning from the position
immediately after the current task's index, wrapping at the list end and
skipping tasks that are not Runnable (the `specNext` policy): whenever that
scan selects a task distinct from the current one, `switch` makes it current
(clearing the previous task's running flag and setting the next one's), so
with N ≥ 2 tasks all Runnable and t0 current, k repeated calls leave task
k mod N current — the cyclic order t1, t2, ..., t(N-1), t0, t1, ... -/
theorem switch_round_robin (ts : List Task) (c : Nat)
    (hlen : 2 ≤ ts.length) (hc : c < ts.length) :
    (∀ j, specNext ts c = some j → j ≠ c →
      switch ⟨ts, c⟩ = SwitchResult.normal
        ⟨(ts.set c { ts.getD c ⟨TaskState.Stopped, false⟩ with running := false }).set j
          { ts.getD j ⟨TaskState.Stopped, false⟩ with running := true }, j⟩ true) ∧
    ((∀ t ∈ ts, t.state = TaskState.Runnable) →
      ∀ k, ∃ ts', iterSwitch k ⟨ts, 0⟩ = some ⟨ts', k % ts.length⟩ ∧
        ts'.length = ts.length ∧ ∀ t ∈ ts', t.state = TaskState.Runnable) := by
  constructor
  · intro j hspec hne
    exact switch_eq_of_specNext hc hspec hne
  · intro hall k
    rcases iterSwitch_all_runnable hlen k ts 0 rfl hall (by omega) with ⟨ts', hiter, hl, ha⟩
    refine ⟨ts', ?_, hl, ha⟩
    rw [Nat.zero_add] at hiter
    exact hiter

/-- Witness for the C3 theorem: three Runnable tasks. -/
theorem switch_round_robin_witness :
    (2 ≤ ([⟨TaskState.Runnable, true⟩, ⟨TaskState.Runnable, false⟩,
      ⟨TaskState.Runnable, false⟩] : List Task).length) ∧
    (0 < ([⟨TaskState.Runnable, true⟩, ⟨TaskState.Runnable, false⟩,
      ⟨TaskState.Runnable, false⟩] : List Task).length) ∧
    ((∀ j, specNext [⟨TaskState.Runnable, true⟩, ⟨TaskState.Runnable, false⟩,
        ⟨TaskState.Runnable, false⟩] 0 = some j → j ≠ 0 →
      switch ⟨[⟨TaskState.Runnable, true⟩, ⟨TaskState.Runnable, false⟩,
        ⟨TaskState.Runnable, false⟩], 0⟩ = SwitchResult.normal
        ⟨(([⟨TaskState.Runnable, true⟩, ⟨TaskState.Runnable, false⟩,
          ⟨TaskState.Runnable, false⟩] : List Task).set 0
            { ([⟨TaskState.Runnable, true⟩, ⟨TaskState.Runnable, false⟩,
              ⟨TaskState.Runnable, false⟩] : List Task).getD 0 ⟨TaskState.Stopped, false⟩ with
              running := false }).set j
          { ([⟨TaskState.Runnable, true⟩, ⟨TaskState.Runnable, false⟩,
            ⟨TaskState.Runnable, false⟩] : List Task).getD j ⟨TaskState.Stopped, false⟩ with
            running := true }, j⟩ true) ∧
    ((∀ t ∈ ([⟨TaskState.Runnable, true⟩, ⟨TaskState.Runnable, false⟩,
        ⟨TaskState.Runnable, false⟩] : List Task), t.state = TaskState.Runnable) →
      ∀ k, ∃ ts', iterSwitch k ⟨[⟨TaskState.Runnable, true⟩, ⟨TaskState.Runnable, false⟩,
          ⟨TaskState.Runnable, false⟩], 0⟩ = some ⟨ts', k % 3⟩ ∧
        ts'.length = 3 ∧ ∀ t ∈ ts', t.state = TaskState.Runnable)) :=
  ⟨by decide, by decide,
    switch_round_robin [⟨TaskState.Runnable, true⟩, ⟨TaskState.Runnable, false⟩,
      ⟨TaskState.Runnable, false⟩] 0 (by decide) (by decide)⟩

/-! ## Page-table chase predicates -/

/-- Explicit characterization of the read-only pointer chase from the PML4 to
the PT-level node of `va`. -/
def ChasePT (pt : PageTable) (va a1 : Nat) : Prop :=
  ∃ n3 n2,
    isPresent (getEntry pt.pml4 (tableIndex va 4)) = true ∧
    lookupNode pt.heap (entryPaddr (getEntry pt.pml4 (tableIndex va 4))) = some n3 ∧
    isPresent (getEntry n3 (tableIndex va 3)) = true ∧
    isHuge (getEntry n3 (tableIndex va 3)) = false ∧
    lookupNode pt.heap (entryPaddr (getEntry n3 (tableIndex va 3))) = some n2 ∧
    isPresent (getEntry n2 (tableIndex va 2)) = true ∧
    isHuge (getEntry n2 (tableIndex va 2)) = false ∧
    entryPaddr (getEntry n2 (tableIndex va 2)) = a1

theorem ptAddrOf_eq_some_iff {pt : PageTable} {va a1 : Nat} :
    ptAddrOf pt va = some a1 ↔ ChasePT pt va a1 := by
  unfold ptAddrOf ChasePT
  constructor
  · intro h
    by_cases h4 : isPresent (getEntry pt.pml4 (tableIndex va 4))
    · rw [if_pos h4] at h
      rcases hl3 : lookupNode pt.heap (entryPaddr (getEntry pt.pml4 (tableIndex va 4)))
        with _ | n3
      · rw [hl3] at h
        cases h
      · rw [hl3] at h
        dsimp only at h
        by_cases h3 : isPresent (getEntry n3 (tableIndex va 3)) &&
            !isHuge (getEntry n3 (tableIndex va 3))
        · rw [if_pos h3] at h
          rcases hl2 : lookupNode pt.heap (entryPaddr (getEntry n3 (tableIndex va 3)))
            with _ | n2
          · rw [hl2] at h
            cases h
          · rw [hl2] at h
            dsimp only at h
            by_cases h2 : isPresent (getEntry n2 (tableIndex va 2)) &&
                !isHuge (getEntry n2 (tableIndex va 2))
            · rw [if_pos h2] at h
              simp only [Option.some.injEq] at h
              simp only [Bool.and_eq_true, Bool.not_eq_eq_eq_not, Bool.not_true] at h3 h2
              exact ⟨n3, n2, h4, rfl, h3.1, h3.2, hl2, h2.1, h2.2, h⟩
            · rw [if_neg h2] at h
              cases h
        · rw [if_neg h3] at h
          cases h
    · rw [if_neg h4] at h
      cases h
  · rintro ⟨n3, n2, h4, hl3, h3p, h3h, hl2, h2p, h2h, ha⟩
    rw [if_pos h4, hl3]
    dsimp only
    rw [if_pos (by rw [h3p, h3h]; rfl), hl2]
    dsimp only
    rw [if_pos (by rw [h2p, h2h]; rfl), ha]

/-- PT-level entry content predicate: the chase reaches node `a1` and its
PT entry for `va` holds the value `v`. -/
def InstalledP (pt : PageTable) (va v : Nat) : Prop :=
  ∃ a1 n1, ptAddrOf pt va = some a1 ∧ lookupNode pt.heap a1 = some n1 ∧
    getEntry n1 (tableIndex va 1) = v

/-- A table walk through an installed, present PT entry translates to the
entry's physical address and attribute bits. -/
theorem walkPage_of_installed {pt : PageTable} {va v : Nat}
    (hi : InstalledP pt va v) (hp : isPresent v = true) :
    walkPage pt va = some (entryPaddr v, entryAttr v) := by
  rcases hi with ⟨a1, n1, hchase, hl1, hv⟩
  rcases ptAddrOf_eq_some_iff.mp hchase with
    ⟨n3, n2, h4, hl3, h3p, h3h, hl2, h2p, h2h, ha⟩
  unfold walkPage
  rw [if_pos h4, hl3]
  dsimp only
  rw [if_pos h3p, if_neg (by simp [h3h]), hl2]
  dsimp only
  rw [if_pos h2p, if_neg (by simp [h2h]), ha, hl1]
  dsimp only
  rw [hv, if_pos hp]

/-- `ptAddrOf` depends only on the three upper table indices. -/
theorem ptAddrOf_congr {pt : PageTable} {va vb : Nat}
    (h4 : tableIndex va 4 = tableIndex vb 4) (h3 : tableIndex va 3 = tableIndex vb 3)
    (h2 : tableIndex va 2 = tableIndex vb 2) :
    ptAddrOf pt va = ptAddrOf pt vb := by
  unfold ptAddrOf
  rw [h4, h3, h2]

/-- All four table indices agree for addresses congruent mod 2^48. -/
theorem tableIndex_all_congr {va vb : Nat} (h : va % 2 ^ 48 = vb % 2 ^ 48) :
    tableIndex va 4 = tableIndex vb 4 ∧ tableIndex va 3 = tableIndex vb 3 ∧
    tableIndex va 2 = tableIndex vb 2 ∧ tableIndex va 1 = tableIndex vb 1 :=
  ⟨tableIndex_congr 4 (by omega) h, tableIndex_congr 3 (by omega) h,
   tableIndex_congr 2 (by omega) h, tableIndex_congr 1 (by omega) h⟩

/-- One table modifies "present-preservingly" into another: every present
PML4 entry keeps its value, and every allocated node keeps its present
entries (new entries and new nodes may appear). -/
def PreservesPresent (pt ptb : PageTable) : Prop :=
  (∀ i, isPresent (getEntry pt.pml4 i) = true →
    getEntry ptb.pml4 i = getEntry pt.pml4 i) ∧
  (∀ a n, lookupNode pt.heap a = some n → ∃ nb, lookupNode ptb.heap a = some nb ∧
    ∀ i, isPresent (getEntry n i) = true → getEntry nb i = getEntry n i)

theorem preserves_refl (pt : PageTable) : PreservesPresent pt pt :=
  ⟨fun _ _ => rfl, fun a n hl => ⟨n, hl, fun _ _ => rfl⟩⟩

theorem preserves_trans {pt1 pt2 pt3 : PageTable} (h12 : PreservesPresent pt1 pt2)
    (h23 : PreservesPresent pt2 pt3) : PreservesPresent pt1 pt3 := by
  constructor
  · intro i hp
    have h2 : isPresent (getEntry pt2.pml4 i) = true := by
      rw [h12.1 i hp]
      exact hp
    rw [h23.1 i h2, h12.1 i hp]
  · intro a n hl
    rcases h12.2 a n hl with ⟨n2, hl2, hpr2⟩
    rcases h23.2 a n2 hl2 with ⟨n3, hl3, hpr3⟩
    refine ⟨n3, hl3, ?_⟩
    intro i hp
    have h2 : isPresent (getEntry n2 i) = true := by
      rw [hpr2 i hp]
      exact hp
    rw [hpr3 i h2, hpr2 i hp]

theorem chase_mono {pt ptb : PageTable} {va a1 : Nat} (hpp : PreservesPresent pt ptb)
    (hc : ChasePT pt va a1) : ChasePT ptb va a1 := by
  rcases hc with ⟨n3, n2, h4, hl3, h3p, h3h, hl2, h2p, h2h, ha⟩
  have he4 := hpp.1 _ h4
  rcases hpp.2 _ _ hl3 with ⟨n3b, hl3b, hpr3⟩
  rcases hpp.2 _ _ hl2 with ⟨n2b, hl2b, hpr2⟩
  have he3 := hpr3 _ h3p
  have he2 := hpr2 _ h2p
  refine ⟨n3b, n2b, ?_, ?_, ?_, ?_, ?_, ?_, ?_, ?_⟩
  · rw [he4]
    exact h4
  · rw [he4]
    exact hl3b
  · rw [he3]
    exact h3p
  · rw [he3]
    exact h3h
  · rw [he3]
    exact hl2b
  · rw [he2]
    exact h2p
  · rw [he2]
    exact h2h
  · rw [he2]
    exact ha

theorem installed_mono {pt ptb : PageTable} {va v : Nat} (hpp : PreservesPresent pt ptb)
    (hi : InstalledP pt va v) (hp : isPresent v = true) : InstalledP ptb va v := by
  rcases hi with ⟨a1, n1, hchase, hl1, hv⟩
  rcases hpp.2 _ _ hl1 with ⟨n1b, hl1b, hpr1⟩
  refine ⟨a1, n1b, ?_, hl1b, ?_⟩
  · exact ptAddrOf_eq_some_iff.mpr (chase_mono hpp (ptAddrOf_eq_some_iff.mp hchase))
  · rw [hpr1 _ (by rw [hv]; exact hp), hv]

/-! ## Index arithmetic -/

theorem canonicalize_mod48 (x : Nat) : canonicalize x % 2 ^ 48 = x % 2 ^ 48 := by
  unfold canonicalize
  by_cases h47 : x.testBit 47
  · rw [if_pos h47]
    have hlow : ∀ i < 48, (0xFFFF000000000000 : Nat).testBit i = false := by decide
    apply Nat.eq_of_testBit_eq
    intro i
    rw [Nat.testBit_mod_two_pow, Nat.testBit_mod_two_pow, Nat.testBit_lor]
    by_cases hi : i < 48
    · rw [hlow i hi]
      simp
    · simp [hi]
  · rw [if_neg h47]
    rw [show (0x0000FFFFFFFFFFFF : Nat) = 2 ^ 48 - 1 from by norm_num,
      land_pow_sub_one]
    exact Nat.mod_mod_of_dvd x dvd_rfl

theorem mod_pow_split (x s : Nat) :
    x % 2 ^ (s + 9) = x % 2 ^ s + 2 ^ s * (x / 2 ^ s % 2 ^ 9) := by
  rw [pow_add]
  exact Nat.mod_mul

/-- Base-512 digit decomposition of the low 48 bits of an address into its
four table indices. -/
theorem digits48 (x : Nat) :
    x % 2 ^ 48 = x % 2 ^ 12 + 2 ^ 12 * tableIndex x 1 + 2 ^ 21 * tableIndex x 2 +
      2 ^ 30 * tableIndex x 3 + 2 ^ 39 * tableIndex x 4 := by
  have h1 : x % 2 ^ 48 = x % 2 ^ 39 + 2 ^ 39 * (x / 2 ^ 39 % 2 ^ 9) := mod_pow_split x 39
  have h2 : x % 2 ^ 39 = x % 2 ^ 30 + 2 ^ 30 * (x / 2 ^ 30 % 2 ^ 9) := mod_pow_split x 30
  have h3 : x % 2 ^ 30 = x % 2 ^ 21 + 2 ^ 21 * (x / 2 ^ 21 % 2 ^ 9) := mod_pow_split x 21
  have h4 : x % 2 ^ 21 = x % 2 ^ 12 + 2 ^ 12 * (x / 2 ^ 12 % 2 ^ 9) := mod_pow_split x 12
  have e1 : tableIndex x 1 = x / 2 ^ 12 % 2 ^ 9 := by
    rw [tableIndex_eq]
    norm_num
  have e2 : tableIndex x 2 = x / 2 ^ 21 % 2 ^ 9 := by
    rw [tableIndex_eq]
    norm_num
  have e3 : tableIndex x 3 = x / 2 ^ 30 % 2 ^ 9 := by
    rw [tableIndex_eq]
    norm_num
  have e4 : tableIndex x 4 = x / 2 ^ 39 % 2 ^ 9 := by
    rw [tableIndex_eq]
    norm_num
  rw [e1, e2, e3, e4]
  omega

/-- Two page-aligned addresses with equal table indices at all four levels
are congruent mod 2^48. -/
theorem mod48_eq_of_indices {va vb : Nat} (ha : va % PAGE_SIZE = 0)
    (hb : vb % PAGE_SIZE = 0)
    (h1 : tableIndex va 1 = tableIndex vb 1) (h2 : tableIndex va 2 = tableIndex vb 2)
    (h3 : tableIndex va 3 = tableIndex vb 3) (h4 : tableIndex va 4 = tableIndex vb 4) :
    va % 2 ^ 48 = vb % 2 ^ 48 := by
  have da := digits48 va
  have db := digits48 vb
  have ha12 : va % 2 ^ 12 = 0 := ha
  have hb12 : vb % 2 ^ 12 = 0 := hb
  rw [h1, h2, h3, h4] at da
  omega

/-- The PT-level index of an aligned base plus a page offset. -/
theorem idx1_aligned_offset (y i : Nat) :
    tableIndex (4096 * y + i * 4096) 1 = (y + i) % 512 := by
  rw [tableIndex_eq]
  have hdiv : (4096 * y + i * 4096) / 2 ^ (12 + (1 - 1) * 9) = y + i := by
    rw [show 12 + (1 - 1) * 9 = 12 from by norm_num,
      show (2:Nat) ^ 12 = 4096 from by norm_num, Nat.mul_comm 4096 y,
      Nat.add_mul_div_right _ _ (by norm_num : (0:Nat) < 4096),
      Nat.mul_div_cancel _ (by norm_num : (0:Nat) < 4096)]
  rw [hdiv]

/-- The PT-level index of the i-th page after an aligned base. -/
theorem idx1_of_offset {virt vaddr i : Nat} (hal : virt % PAGE_SIZE = 0)
    (hva : vaddr % 2 ^ 48 = (virt + i * PAGE_SIZE) % 2 ^ 48) :
    tableIndex vaddr 1 = (tableIndex virt 1 + i) % 512 := by
  rw [tableIndex_congr 1 (by omega) hva]
  have hal4096 : virt % 4096 = 0 := hal
  obtain ⟨y, hy⟩ : ∃ y, virt = 4096 * y := ⟨virt / 4096, by omega⟩
  subst hy
  have hPS : PAGE_SIZE = 4096 := rfl
  rw [hPS, idx1_aligned_offset y i]
  have e2 : tableIndex (4096 * y) 1 = y % 512 := by
    rw [tableIndex_eq,
      show 12 + (1 - 1) * 9 = 12 from by norm_num,
      show (2:Nat) ^ 12 = 4096 from by norm_num,
      Nat.mul_div_cancel_left _ (by norm_num : (0:Nat) < 4096)]
  rw [e2, Nat.mod_add_mod]

/-- Helper: the level-l index (l ≥ 2) of a page-aligned address in terms of
its page number. -/
theorem tableIndex_upper_of_aligned (y l : Nat) (hl2 : 2 ≤ l) (hl4 : l ≤ 4) :
    tableIndex (4096 * y) l = y / 2 ^ (12 + (l - 1) * 9 - 12) % 512 := by
  rw [tableIndex_eq]
  have hsplit : (2:Nat) ^ (12 + (l - 1) * 9) = 2 ^ 12 * 2 ^ (12 + (l - 1) * 9 - 12) := by
    rw [← pow_add]
    congr 1
    omega
  rw [hsplit, ← Nat.div_div_eq_div_mul,
    show (2:Nat) ^ 12 = 4096 from by norm_num,
    Nat.mul_div_cancel_left _ (by norm_num : (0:Nat) < 4096)]

/-- When mapping the next page does not wrap the PT index to 0, the upper
three indices are unchanged. -/
theorem tableIndex_upper_add_page {va : Nat} (hal : va % PAGE_SIZE = 0)
    (hnw : tableIndex (va + PAGE_SIZE) 1 ≠ 0) {l : Nat} (hl2 : 2 ≤ l) (hl4 : l ≤ 4) :
    tableIndex (va + PAGE_SIZE) l = tableIndex va l := by
  have hal4096 : va % 4096 = 0 := hal
  obtain ⟨y, hy⟩ : ∃ y, va = 4096 * y := ⟨va / 4096, by omega⟩
  subst hy
  have hsucc : 4096 * y + PAGE_SIZE = 4096 * (y + 1) := by
    rw [show PAGE_SIZE = 4096 from rfl]
    ring
  rw [hsucc] at hnw ⊢
  have hidx1 : tableIndex (4096 * (y + 1)) 1 = (y + 1) % 512 := by
    rw [tableIndex_eq,
      show 12 + (1 - 1) * 9 = 12 from by norm_num,
      show (2:Nat) ^ 12 = 4096 from by norm_num,
      Nat.mul_div_cancel_left _ (by norm_num : (0:Nat) < 4096)]
  rw [hidx1] at hnw
  rw [tableIndex_upper_of_aligned _ l hl2 hl4, tableIndex_upper_of_aligned _ l hl2 hl4]
  have hk9 : 9 ≤ 12 + (l - 1) * 9 - 12 := by omega
  have hndvd : ¬ 2 ^ (12 + (l - 1) * 9 - 12) ∣ (y + 1) := by
    intro hdvd
    have h512 : (512 : Nat) ∣ y + 1 := by
      have h2k : (512 : Nat) ∣ 2 ^ (12 + (l - 1) * 9 - 12) := by
        rw [show (512:Nat) = 2 ^ 9 from by norm_num]
        exact pow_dvd_pow 2 hk9
      exact dvd_trans h2k hdvd
    rcases h512 with ⟨c, hc⟩
    have hz : (y + 1) % 512 = 0 := by
      rw [hc]
      exact Nat.mul_mod_right 512 c
    exact hnw hz
  have hsd := Nat.succ_div y (2 ^ (12 + (l - 1) * 9 - 12))
  rw [if_neg hndvd] at hsd
  rw [show y + 1 = Nat.succ y from rfl, hsd, Nat.add_zero]

/-! ## Well-formed typed page tables -/

/-- Structural well-formedness of a page table, with a typing function `lvl`
assigning each allocated node its level (3 = PDPT, 2 = PD, 1 = PT).  This is
the invariant actual kernel tables built by the mapping API maintain: nodes
are 512 entries long, node addresses are aligned, below the allocation
frontier and distinct, present PML4 entries point to distinct PDPT nodes,
present entries of PDPT/PD nodes are non-huge pointers to distinct nodes of
the next level.  PT-node contents are unconstrained. -/
structure TypedWF (pt : PageTable) (lvl : Nat → Nat) : Prop where
  pml4_len : pt.pml4.entries.length = 512
  node_len : ∀ a n, lookupNode pt.heap a = some n → n.entries.length = 512
  keys_nodup : (keys pt.heap).Nodup
  key_pos : ∀ a ∈ keys pt.heap, 0 < a
  key_align : ∀ a ∈ keys pt.heap, a % PAGE_SIZE = 0
  key_lt : ∀ a ∈ keys pt.heap, a < pt.heap.nextAddr
  next_align : pt.heap.nextAddr % PAGE_SIZE = 0
  next_pos : 0 < pt.heap.nextAddr
  lvl_range : ∀ a ∈ keys pt.heap, lvl a = 1 ∨ lvl a = 2 ∨ lvl a = 3
  pml4_ptr : ∀ i, isPresent (getEntry pt.pml4 i) = true →
    entryPaddr (getEntry pt.pml4 i) ∈ keys pt.heap ∧
      lvl (entryPaddr (getEntry pt.pml4 i)) = 3
  mid_ptr : ∀ a n, lookupNode pt.heap a = some n → (lvl a = 3 ∨ lvl a = 2) → ∀ i,
    isPresent (getEntry n i) = true →
    isHuge (getEntry n i) = false ∧ entryPaddr (getEntry n i) ∈ keys pt.heap ∧
      lvl (entryPaddr (getEntry n i)) = lvl a - 1
  inj_pml4 : ∀ i j, isPresent (getEntry pt.pml4 i) = true →
    isPresent (getEntry pt.pml4 j) = true →
    entryPaddr (getEntry pt.pml4 i) = entryPaddr (getEntry pt.pml4 j) → i = j
  inj_mix : ∀ i, isPresent (getEntry pt.pml4 i) = true →
    ∀ a n, lookupNode pt.heap a = some n → (lvl a = 3 ∨ lvl a = 2) → ∀ j,
    isPresent (getEntry n j) = true →
    entryPaddr (getEntry pt.pml4 i) ≠ entryPaddr (getEntry n j)
  inj_nodes : ∀ a n, lookupNode pt.heap a = some n → (lvl a = 3 ∨ lvl a = 2) →
    ∀ b m, lookupNode pt.heap b = some m → (lvl b = 3 ∨ lvl b = 2) →
    ∀ i j, isPresent (getEntry n i) = true → isPresent (getEntry m j) = true →
    entryPaddr (getEntry n i) = entryPaddr (getEntry m j) → a = b ∧ i = j

/-- The empty table is well-formed (with the constant typing). -/
theorem typedWF_empty : TypedWF emptyTable (fun _ => 1) := by
  have hlook : ∀ a, lookupNode emptyTable.heap a = none := fun a => rfl
  have hget : ∀ i, getEntry emptyTable.pml4 i = 0 := fun i => getEntry_zeroNode i
  have hkeys : ∀ a, a ∉ keys emptyTable.heap := by
    intro a ha
    simp [keys, emptyTable] at ha
  constructor
  · exact zeroNode_length
  · intro a n hl
    rw [hlook a] at hl
    cases hl
  · exact List.nodup_nil
  · intro a ha
    exact absurd ha (hkeys a)
  · intro a ha
    exact absurd ha (hkeys a)
  · intro a ha
    exact absurd ha (hkeys a)
  · decide
  · decide
  · intro a ha
    exact absurd ha (hkeys a)
  · intro i hp
    rw [hget i, isPresent_zero] at hp
    cases hp
  · intro a n hl
    rw [hlook a] at hl
    cases hl
  · intro i j hp hq
    rw [hget i, isPresent_zero] at hp
    cases hp
  · intro i hp
    rw [hget i, isPresent_zero] at hp
    cases hp
  · intro a n hl
    rw [hlook a] at hl
    cases hl

/-- A fresh allocation address is not in the key set. -/
theorem next_not_mem {pt : PageTable} {lvl : Nat → Nat} (hwf : TypedWF pt lvl) :
    pt.heap.nextAddr ∉ keys pt.heap := by
  intro hmem
  exact absurd (hwf.key_lt _ hmem) (lt_irrefl _)

/-- No present PML4 pointer entry targets the allocation frontier or above. -/
theorem pml4_target_lt {pt : PageTable} {lvl : Nat → Nat} (hwf : TypedWF pt lvl)
    {i : Nat} (hp : isPresent (getEntry pt.pml4 i) = true) :
    entryPaddr (getEntry pt.pml4 i) < pt.heap.nextAddr :=
  hwf.key_lt _ (hwf.pml4_ptr i hp).1

theorem mid_target_lt {pt : PageTable} {lvl : Nat → Nat} (hwf : TypedWF pt lvl)
    {a : Nat} {n : PageTableNode} (hl : lookupNode pt.heap a = some n)
    (hlvl : lvl a = 3 ∨ lvl a = 2) {i : Nat} (hp : isPresent (getEntry n i) = true) :
    entryPaddr (getEntry n i) < pt.heap.nextAddr :=
  hwf.key_lt _ (hwf.mid_ptr a n hl hlvl i hp).2.1

/-- The chase through a well-formed table is typed: it ends at a PT node. -/
theorem chase_typed {pt : PageTable} {lvl : Nat → Nat} {va a1 : Nat}
    (hwf : TypedWF pt lvl) (hc : ChasePT pt va a1) :
    a1 ∈ keys pt.heap ∧ lvl a1 = 1 := by
  rcases hc with ⟨n3, n2, h4, hl3, h3p, _, hl2, h2p, _, ha⟩
  have h3 := hwf.pml4_ptr _ h4
  have h2 := hwf.mid_ptr _ _ hl3 (Or.inl h3.2) _ h3p
  have hlv2 : lvl (entryPaddr (getEntry n3 (tableIndex va 3))) = 2 := by
    rw [h2.2.2, h3.2]
  have h1 := hwf.mid_ptr _ _ hl2 (Or.inr hlv2) _ h2p
  rw [ha] at h1
  refine ⟨h1.2.1, ?_⟩
  rw [h1.2.2, hlv2]

/-- Distinct upper index triples reach distinct PT nodes (injectivity of the
pointer graph). -/
theorem chase_distinct {pt : PageTable} {lvl : Nat → Nat} {va vb a1 b1 : Nat}
    (hwf : TypedWF pt lvl) (hca : ChasePT pt va a1) (hcb : ChasePT pt vb b1)
    (hne : ¬(tableIndex va 4 = tableIndex vb 4 ∧ tableIndex va 3 = tableIndex vb 3 ∧
      tableIndex va 2 = tableIndex vb 2)) :
    a1 ≠ b1 := by
  rcases hca with ⟨n3a, n2a, ha4, hal3, ha3p, _, hal2, ha2p, _, haa⟩
  rcases hcb with ⟨n3b, n2b, hb4, hbl3, hb3p, _, hbl2, hb2p, _, hba⟩
  intro heq
  have ha3 := hwf.pml4_ptr _ ha4
  have hb3 := hwf.pml4_ptr _ hb4
  have ha2 := hwf.mid_ptr _ _ hal3 (Or.inl ha3.2) _ ha3p
  have hb2 := hwf.mid_ptr _ _ hbl3 (Or.inl hb3.2) _ hb3p
  have hlva2 : lvl (entryPaddr (getEntry n3a (tableIndex va 3))) = 2 := by
    rw [ha2.2.2, ha3.2]
  have hlvb2 : lvl (entryPaddr (getEntry n3b (tableIndex vb 3))) = 2 := by
    rw [hb2.2.2, hb3.2]
  have hstep2 := hwf.inj_nodes _ _ hal2 (Or.inr hlva2) _ _ hbl2 (Or.inr hlvb2)
    _ _ ha2p hb2p (by rw [haa, hba]; exact heq)
  have hstep3 := hwf.inj_nodes _ _ hal3 (Or.inl ha3.2) _ _ hbl3 (Or.inl hb3.2)
    _ _ ha3p hb3p hstep2.1
  have h4eq := hwf.inj_pml4 _ _ ha4 hb4 hstep3.1
  exact hne ⟨h4eq, hstep3.2, hstep2.2⟩

/-! ## Allocation step lemmas -/

theorem getEntry_oob {n : PageTableNode} {j : Nat} (h : n.entries.length ≤ j) :
    getEntry n j = 0 := by
  unfold getEntry
  rw [List.getD_eq_getElem?_getD, List.getElem?_eq_none_iff.mpr h]
  rfl

/-- Field decomposition of a freshly written pointer entry. -/
theorem ptr_entry_facts {a : Nat} (halign : a % PAGE_SIZE = 0) (hlt : a < 2 ^ 63) :
    isPresent (a ||| attrVal .ReadWriteExecuteKernel) = true ∧
    isHuge (a ||| attrVal .ReadWriteExecuteKernel) = false ∧
    entryPaddr (a ||| attrVal .ReadWriteExecuteKernel) = a ∧
    entryAttr (a ||| attrVal .ReadWriteExecuteKernel) = attrVal .ReadWriteExecuteKernel := by
  have h64 : a < U64 := lt_trans hlt (by norm_num [U64])
  have h0 : a &&& PTE_ATTR_MASK_NOT = 0 :=
    (land_notmask_eq_zero_iff h64).mpr ⟨halign, hlt⟩
  have hd := entry_decomp h64 h0 (attrVal_lt .ReadWriteExecuteKernel)
    (attrVal_land_mask .ReadWriteExecuteKernel)
  refine ⟨?_, ?_, hd.1, hd.2⟩
  · rw [isPresent_lor h0]
    decide
  · rw [isHuge_lor h0]
    decide

/-- `get_or_alloc_next_level_table` on a PML4 entry: the table remains
well-formed (extending the typing at a fresh PDPT when allocating), existing
state is untouched apart from the one entry, and the returned address is a
typed level-3 node. -/
theorem getOrAlloc_pml4_spec {pt : PageTable} {lvl : Nat → Nat} {i4 : Nat}
    {h1 : Heap} {p1 : PageTableNode} {a3 : Nat}
    (hwf : TypedWF pt lvl) (hi4 : i4 < 512)
    (hbud : pt.heap.nextAddr + PAGE_SIZE ≤ 2 ^ 63)
    (heq : getOrAllocChild pt.heap pt.pml4 i4 = (h1, p1, a3)) :
    ∃ lvl1, TypedWF ⟨p1, h1⟩ lvl1 ∧
      (∀ x ∈ keys pt.heap, lvl1 x = lvl x) ∧
      PreservesPresent pt ⟨p1, h1⟩ ∧
      (∀ b ∈ keys pt.heap, lookupNode h1 b = lookupNode pt.heap b) ∧
      (∀ b ∈ keys pt.heap, b ∈ keys h1) ∧
      pt.heap.nextAddr ≤ h1.nextAddr ∧
      h1.nextAddr ≤ pt.heap.nextAddr + PAGE_SIZE ∧
      isPresent (getEntry p1 i4) = true ∧
      entryPaddr (getEntry p1 i4) = a3 ∧
      a3 ∈ keys h1 ∧ lvl1 a3 = 3 ∧
      (∀ j, j ≠ i4 → getEntry p1 j = getEntry pt.pml4 j) ∧
      (∀ b ∈ keys h1, b ∈ keys pt.heap ∨ b = pt.heap.nextAddr) := by
  unfold getOrAllocChild at heq
  by_cases hpres : isPresent (getEntry pt.pml4 i4) = true
  · rw [if_pos hpres] at heq
    have hh1 : h1 = pt.heap := by cases heq; rfl
    have hp1 : p1 = pt.pml4 := by cases heq; rfl
    have ha3 : a3 = entryPaddr (getEntry pt.pml4 i4) := by cases heq; rfl
    subst hh1
    subst hp1
    subst ha3
    have hfacts := hwf.pml4_ptr i4 hpres
    exact ⟨lvl, hwf, fun x _ => rfl, preserves_refl pt, fun b _ => rfl,
      fun b hb => hb, le_refl _, by omega, hpres, rfl, hfacts.1, hfacts.2,
      fun j _ => rfl, fun b hb => Or.inl hb⟩
  · rw [if_neg hpres] at heq
    have hpres' : isPresent (getEntry pt.pml4 i4) = false := by
      cases h : isPresent (getEntry pt.pml4 i4)
      · rfl
      · exact absurd h hpres
    have halloc : alloc_next_level_table pt.heap (getEntry pt.pml4 i4) =
        .ok ((allocNode pt.heap).1,
          pt.heap.nextAddr ||| attrVal .ReadWriteExecuteKernel) := by
      unfold alloc_next_level_table
      rw [if_neg (by rw [hpres']; intro hc; cases hc)]
      rfl
    rw [halloc] at heq
    dsimp only at heq
    set na := pt.heap.nextAddr with hna
    set v1 := na ||| attrVal PageTableAttr.ReadWriteExecuteKernel with hv1
    have hh1 : h1 = (allocNode pt.heap).1 := by cases heq; rfl
    have hp1 : p1 = putEntry pt.pml4 i4 v1 := by cases heq; rfl
    have ha3eq : a3 = entryPaddr v1 := by cases heq; rfl
    have hna63 : na < 2 ^ 63 := by
      have h4096 : (0:Nat) < PAGE_SIZE := by
        unfold PAGE_SIZE
        omega
      omega
    have hpf := @ptr_entry_facts na hwf.next_align hna63
    have hfresh : na ∉ keys pt.heap := next_not_mem hwf
    have hkeys1 : keys h1 = keys pt.heap ++ [na] := by
      rw [hh1]
      exact keys_allocNode pt.heap
    have hmem1 : ∀ b ∈ keys pt.heap, b ∈ keys h1 := by
      intro b hb
      rw [hkeys1]
      exact List.mem_append_left _ hb
    have hlook_old : ∀ b ∈ keys pt.heap, lookupNode h1 b = lookupNode pt.heap b := by
      intro b hb
      rw [hh1]
      exact lookupNode_alloc_old hb
    have hlook_new : lookupNode h1 na = some zeroNode := by
      rw [hh1]
      exact lookupNode_alloc_new hfresh
    have hna_mem : na ∈ keys h1 := by
      rw [hkeys1]
      exact List.mem_append_right _ (List.mem_singleton.mpr rfl)
    have ha3 : a3 = na := by
      rw [ha3eq, hv1]
      exact hpf.2.2.1
    have hnext1 : h1.nextAddr = na + PAGE_SIZE := by
      rw [hh1]
      rfl
    have hget_i4 : getEntry p1 i4 = v1 := by
      rw [hp1]
      exact getEntry_put_self v1 (by rw [hwf.pml4_len]; exact hi4)
    have hget_ne : ∀ j, j ≠ i4 → getEntry p1 j = getEntry pt.pml4 j := by
      intro j hj
      rw [hp1]
      exact getEntry_put_ne v1 (fun hc => hj hc.symm)
    have hlook_cases : ∀ b n, lookupNode h1 b = some n →
        (b ∈ keys pt.heap ∧ lookupNode pt.heap b = some n) ∨ (b = na ∧ n = zeroNode) := by
      intro b n hl
      by_cases hb : b ∈ keys pt.heap
      · left
        refine ⟨hb, ?_⟩
        rw [← hlook_old b hb]
        exact hl
      · by_cases hbna : b = na
        · right
          subst hbna
          rw [hlook_new] at hl
          cases hl
          exact ⟨rfl, rfl⟩
        · exfalso
          rw [hh1, lookupNode_alloc_fresh_none hb hbna] at hl
          cases hl
    set lvl1 : Nat → Nat := fun x => if x = na then 3 else lvl x with hlvl1
    have hlvl1_old : ∀ x ∈ keys pt.heap, lvl1 x = lvl x := by
      intro x hx
      rw [hlvl1]
      have : x ≠ na := by
        intro hc
        rw [hc] at hx
        exact hfresh hx
      simp [this]
    have hlvl1_na : lvl1 na = 3 := by
      rw [hlvl1]
      simp
    have hwf1 : TypedWF ⟨p1, h1⟩ lvl1 := by
      constructor
      · rw [hp1, putEntry_length]
        exact hwf.pml4_len
      · intro a n hl
        replace hl : lookupNode h1 a = some n := hl
        rcases hlook_cases a n hl with ⟨_, hold⟩ | ⟨_, hz⟩
        · exact hwf.node_len a n hold
        · rw [hz]
          exact zeroNode_length
      · show (keys h1).Nodup
        rw [hkeys1, List.nodup_append]
        refine ⟨hwf.keys_nodup, List.nodup_singleton na, ?_⟩
        intro x hx
        simp only [List.mem_singleton]
        intro hxna
        rw [hxna] at hx
        exact hfresh hx
      · intro a ha
        replace ha : a ∈ keys h1 := ha
        rw [hkeys1] at ha
        rcases List.mem_append.mp ha with h | h
        · exact hwf.key_pos a h
        · rw [List.mem_singleton.mp h]
          exact hwf.next_pos
      · intro a ha
        replace ha : a ∈ keys h1 := ha
        rw [hkeys1] at ha
        rcases List.mem_append.mp ha with h | h
        · exact hwf.key_align a h
        · rw [List.mem_singleton.mp h]
          exact hwf.next_align
      · intro a ha
        replace ha : a ∈ keys h1 := ha
        show a < h1.nextAddr
        rw [hkeys1] at ha
        rw [hnext1]
        have hPpos : (0:Nat) < PAGE_SIZE := by
          unfold PAGE_SIZE
          omega
        rcases List.mem_append.mp ha with h | h
        · have := hwf.key_lt a h
          omega
        · rw [List.mem_singleton.mp h]
          omega
      · show h1.nextAddr % PAGE_SIZE = 0
        rw [hnext1, Nat.add_mod, hwf.next_align, Nat.mod_self]
        rfl
      · show 0 < h1.nextAddr
        rw [hnext1]
        have := hwf.next_pos
        omega
      · intro a ha
        replace ha : a ∈ keys h1 := ha
        rw [hkeys1] at ha
        rcases List.mem_append.mp ha with h | h
        · rw [hlvl1_old a h]
          exact hwf.lvl_range a h
        · rw [List.mem_singleton.mp h, hlvl1_na]
          right
          right
          rfl
      · intro j hp
        replace hp : isPresent (getEntry p1 j) = true := hp
        show entryPaddr (getEntry p1 j) ∈ keys h1 ∧ lvl1 (entryPaddr (getEntry p1 j)) = 3
        by_cases hj : j = i4
        · subst hj
          rw [hget_i4, hv1, hpf.2.2.1]
          exact ⟨hna_mem, hlvl1_na⟩
        · rw [hget_ne j hj] at hp ⊢
          have hold := hwf.pml4_ptr j hp
          exact ⟨hmem1 _ hold.1, by rw [hlvl1_old _ hold.1]; exact hold.2⟩
      · intro a n hl hlvla i hp
        replace hl : lookupNode h1 a = some n := hl
        rcases hlook_cases a n hl with ⟨hamem, hold⟩ | ⟨hana, hz⟩
        · rw [hlvl1_old a hamem] at hlvla
          have hmid := hwf.mid_ptr a n hold hlvla i hp
          refine ⟨hmid.1, hmem1 _ hmid.2.1, ?_⟩
          show lvl1 (entryPaddr (getEntry n i)) = lvl1 a - 1
          rw [hlvl1_old _ hmid.2.1, hlvl1_old a hamem]
          exact hmid.2.2
        · rw [hz, getEntry_zeroNode, isPresent_zero] at hp
          cases hp
      · intro i j hpi hpj hpaddr
        replace hpi : isPresent (getEntry p1 i) = true := hpi
        replace hpj : isPresent (getEntry p1 j) = true := hpj
        replace hpaddr : entryPaddr (getEntry p1 i) = entryPaddr (getEntry p1 j) := hpaddr
        by_cases hii : i = i4
        · by_cases hjj : j = i4
          · rw [hii, hjj]
          · exfalso
            subst hii
            rw [hget_i4, hv1, hpf.2.2.1] at hpaddr
            rw [hget_ne j hjj] at hpj hpaddr
            have := pml4_target_lt hwf hpj
            rw [← hpaddr] at this
            exact absurd this (lt_irrefl na)
        · by_cases hjj : j = i4
          · exfalso
            subst hjj
            rw [hget_i4, hv1, hpf.2.2.1] at hpaddr
            rw [hget_ne i hii] at hpi hpaddr
            have := pml4_target_lt hwf hpi
            rw [hpaddr] at this
            exact absurd this (lt_irrefl na)
          · rw [hget_ne i hii] at hpi hpaddr
            rw [hget_ne j hjj] at hpj hpaddr
            exact hwf.inj_pml4 i j hpi hpj hpaddr
      · intro i hpi a n hl hlvla j hpj
        replace hpi : isPresent (getEntry p1 i) = true := hpi
        replace hl : lookupNode h1 a = some n := hl
        show entryPaddr (getEntry p1 i) ≠ entryPaddr (getEntry n j)
        rcases hlook_cases a n hl with ⟨hamem, hold⟩ | ⟨hana, hz⟩
        · rw [hlvl1_old a hamem] at hlvla
          by_cases hii : i = i4
          · subst hii
            rw [hget_i4, hv1, hpf.2.2.1]
            have := mid_target_lt hwf hold hlvla hpj
            omega
          · rw [hget_ne i hii] at hpi ⊢
            exact hwf.inj_mix i hpi a n hold hlvla j hpj
        · rw [hz, getEntry_zeroNode, isPresent_zero] at hpj
          cases hpj
      · intro a n hla hlvla b m hlb hlvlb i j hpi hpj hpaddr
        replace hla : lookupNode h1 a = some n := hla
        replace hlb : lookupNode h1 b = some m := hlb
        rcases hlook_cases a n hla with ⟨hamem, holda⟩ | ⟨hana, hza⟩
        · rcases hlook_cases b m hlb with ⟨hbmem, holdb⟩ | ⟨hbna, hzb⟩
          · rw [hlvl1_old a hamem] at hlvla
            rw [hlvl1_old b hbmem] at hlvlb
            exact hwf.inj_nodes a n holda hlvla b m holdb hlvlb i j hpi hpj hpaddr
          · rw [hzb, getEntry_zeroNode, isPresent_zero] at hpj
            cases hpj
        · rw [hza, getEntry_zeroNode, isPresent_zero] at hpi
          cases hpi
    have hpp : PreservesPresent pt ⟨p1, h1⟩ := by
      constructor
      · intro j hp
        show getEntry p1 j = getEntry pt.pml4 j
        by_cases hj : j = i4
        · subst hj
          rw [hp] at hpres'
          cases hpres'
        · exact hget_ne j hj
      · intro a n hl
        have hamem := (lookupNode_mem hl).2
        refine ⟨n, ?_, fun _ _ => rfl⟩
        show lookupNode h1 a = some n
        rw [hlook_old a hamem]
        exact hl
    refine ⟨lvl1, hwf1, hlvl1_old, hpp, hlook_old, hmem1, ?_, ?_,
      by rw [hget_i4, hv1]; exact hpf.1, by rw [hget_i4, hv1, hpf.2.2.1, ha3],
      by rw [ha3]; exact hna_mem, by rw [ha3]; exact hlvl1_na, hget_ne, ?_⟩
    · rw [hnext1]
      have hPpos : (0:Nat) < PAGE_SIZE := by
        unfold PAGE_SIZE
        omega
      omega
    · rw [hnext1]
    · intro b hb
      rw [hkeys1] at hb
      rcases List.mem_append.mp hb with h | h
      · exact Or.inl h
      · exact Or.inr (List.mem_singleton.mp h)

/-- `get_or_alloc_next_level_table` on entry `idx` of an allocated PDPT/PD
node `a`, with the updated node written back: the table stays well-formed,
existing state is untouched apart from that entry, and the returned address
is a typed node one level down. -/
theorem getOrAlloc_node_spec {pt : PageTable} {lvl : Nat → Nat} {a idx : Nat}
    {n : PageTableNode} {h2 : Heap} {n' : PageTableNode} {a2 : Nat}
    (hwf : TypedWF pt lvl) (hl : lookupNode pt.heap a = some n)
    (hlvl : lvl a = 3 ∨ lvl a = 2) (hidx : idx < 512)
    (hbud : pt.heap.nextAddr + PAGE_SIZE ≤ 2 ^ 63)
    (heq : getOrAllocChild pt.heap n idx = (h2, n', a2)) :
    ∃ lvl2, TypedWF ⟨pt.pml4, updateNode h2 a n'⟩ lvl2 ∧
      (∀ x ∈ keys pt.heap, lvl2 x = lvl x) ∧
      PreservesPresent pt ⟨pt.pml4, updateNode h2 a n'⟩ ∧
      (∀ b ∈ keys pt.heap, b ≠ a →
        lookupNode (updateNode h2 a n') b = lookupNode pt.heap b) ∧
      (∀ b ∈ keys pt.heap, b ∈ keys (updateNode h2 a n')) ∧
      lookupNode (updateNode h2 a n') a = some n' ∧
      pt.heap.nextAddr ≤ (updateNode h2 a n').nextAddr ∧
      (updateNode h2 a n').nextAddr ≤ pt.heap.nextAddr + PAGE_SIZE ∧
      isPresent (getEntry n' idx) = true ∧
      isHuge (getEntry n' idx) = false ∧
      entryPaddr (getEntry n' idx) = a2 ∧
      a2 ∈ keys (updateNode h2 a n') ∧ lvl2 a2 = lvl a - 1 ∧
      (∀ j, j ≠ idx → getEntry n' j = getEntry n j) := by
  have hamem : a ∈ keys pt.heap := (lookupNode_mem hl).2
  unfold getOrAllocChild at heq
  by_cases hpres : isPresent (getEntry n idx) = true
  · rw [if_pos hpres] at heq
    have hh2 : h2 = pt.heap := by cases heq; rfl
    have hn' : n' = n := by cases heq; rfl
    have ha2 : a2 = entryPaddr (getEntry n idx) := by cases heq; rfl
    subst h2
    subst n'
    subst a2
    have hup : updateNode pt.heap a n = pt.heap := updateNode_same hwf.keys_nodup hl
    rw [hup]
    have hmid := hwf.mid_ptr a n hl hlvl idx hpres
    exact ⟨lvl, hwf, fun x _ => rfl, preserves_refl pt, fun b _ _ => rfl,
      fun b hb => hb, hl, le_refl _, by omega, hpres, hmid.1, rfl, hmid.2.1,
      hmid.2.2, fun j _ => rfl⟩
  · rw [if_neg hpres] at heq
    have hpres' : isPresent (getEntry n idx) = false := by
      cases h : isPresent (getEntry n idx)
      · rfl
      · exact absurd h hpres
    have halloc : alloc_next_level_table pt.heap (getEntry n idx) =
        .ok ((allocNode pt.heap).1,
          pt.heap.nextAddr ||| attrVal .ReadWriteExecuteKernel) := by
      unfold alloc_next_level_table
      rw [if_neg (by rw [hpres']; intro hc; cases hc)]
      rfl
    rw [halloc] at heq
    dsimp only at heq
    set na := pt.heap.nextAddr with hna
    set v1 := na ||| attrVal PageTableAttr.ReadWriteExecuteKernel with hv1
    have hh2 : h2 = (allocNode pt.heap).1 := by cases heq; rfl
    have hn' : n' = putEntry n idx v1 := by cases heq; rfl
    have ha2eq : a2 = entryPaddr v1 := by cases heq; rfl
    have hna63 : na < 2 ^ 63 := by
      have h4096 : (0:Nat) < PAGE_SIZE := by
        unfold PAGE_SIZE
        omega
      omega
    have hpf := @ptr_entry_facts na hwf.next_align hna63
    have hfresh : na ∉ keys pt.heap := next_not_mem hwf
    have ha_ne_na : a ≠ na := by
      intro hc
      rw [hc] at hamem
      exact hfresh hamem
    have hkeys2 : keys h2 = keys pt.heap ++ [na] := by
      rw [hh2]
      exact keys_allocNode pt.heap
    have ha2 : a2 = na := by
      rw [ha2eq, hv1]
      exact hpf.2.2.1
    have hnlen : n.entries.length = 512 := hwf.node_len a n hl
    have hget_idx : getEntry n' idx = v1 := by
      rw [hn']
      exact getEntry_put_self v1 (by rw [hnlen]; exact hidx)
    have hget_nej : ∀ j, j ≠ idx → getEntry n' j = getEntry n j := by
      intro j hj
      rw [hn']
      exact getEntry_put_ne v1 (fun hc => hj hc.symm)
    set hu := updateNode h2 a n' with hhu
    have hamem2 : a ∈ keys h2 := by
      rw [hkeys2]
      exact List.mem_append_left _ hamem
    have hkeysu : keys hu = keys pt.heap ++ [na] := by
      rw [hhu, keys_updateNode, hkeys2]
    have hmemu : ∀ b ∈ keys pt.heap, b ∈ keys hu := by
      intro b hb
      rw [hkeysu]
      exact List.mem_append_left _ hb
    have hna_memu : na ∈ keys hu := by
      rw [hkeysu]
      exact List.mem_append_right _ (List.mem_singleton.mpr rfl)
    have hlooku_a : lookupNode hu a = some n' := by
      rw [hhu]
      exact lookupNode_update_self n' hamem2
    have hlooku_old : ∀ b ∈ keys pt.heap, b ≠ a →
        lookupNode hu b = lookupNode pt.heap b := by
      intro b hb hbne
      rw [hhu, lookupNode_update_ne n' hbne, hh2]
      exact lookupNode_alloc_old hb
    have hlooku_na : lookupNode hu na = some zeroNode := by
      rw [hhu, lookupNode_update_ne n' (fun hc => ha_ne_na hc.symm), hh2]
      exact lookupNode_alloc_new hfresh
    have hnextu : hu.nextAddr = na + PAGE_SIZE := by
      rw [hhu, nextAddr_updateNode, hh2]
      rfl
    have hlook_cases : ∀ b m, lookupNode hu b = some m →
        (b = a ∧ m = n') ∨
        (b ∈ keys pt.heap ∧ b ≠ a ∧ lookupNode pt.heap b = some m) ∨
        (b = na ∧ m = zeroNode) := by
      intro b m hlb
      by_cases hba : b = a
      · subst hba
        rw [hlooku_a] at hlb
        cases hlb
        exact Or.inl ⟨rfl, rfl⟩
      · by_cases hbmem : b ∈ keys pt.heap
        · right
          left
          refine ⟨hbmem, hba, ?_⟩
          rw [← hlooku_old b hbmem hba]
          exact hlb
        · by_cases hbna : b = na
          · subst hbna
            rw [hlooku_na] at hlb
            cases hlb
            exact Or.inr (Or.inr ⟨rfl, rfl⟩)
          · exfalso
            have : lookupNode hu b = none := by
              rw [lookupNode_none_iff, hkeysu]
              intro hc
              rcases List.mem_append.mp hc with h | h
              · exact hbmem h
              · exact hbna (List.mem_singleton.mp h)
            rw [this] at hlb
            cases hlb
    set lvl2 : Nat → Nat := fun x => if x = na then lvl a - 1 else lvl x with hlvl2
    have hlvl2_old : ∀ x ∈ keys pt.heap, lvl2 x = lvl x := by
      intro x hx
      have : x ≠ na := by
        intro hc
        rw [hc] at hx
        exact hfresh hx
      rw [hlvl2]
      simp [this]
    have hlvl2_na : lvl2 na = lvl a - 1 := by
      rw [hlvl2]
      simp
    -- present entries of typed old containers target old keys, hence not na
    have hold_target_ne : ∀ b m, lookupNode pt.heap b = some m →
        (lvl b = 3 ∨ lvl b = 2) → ∀ j, isPresent (getEntry m j) = true →
        entryPaddr (getEntry m j) ≠ na := by
      intro b m hlb hlvlb j hpj
      have := mid_target_lt hwf hlb hlvlb hpj
      omega
    have hwf2 : TypedWF ⟨pt.pml4, hu⟩ lvl2 := by
      constructor
      · exact hwf.pml4_len
      · intro b m hlb
        replace hlb : lookupNode hu b = some m := hlb
        rcases hlook_cases b m hlb with ⟨_, hm⟩ | ⟨_, _, hm⟩ | ⟨_, hm⟩
        · rw [hm, hn', putEntry_length]
          exact hnlen
        · exact hwf.node_len b m hm
        · rw [hm]
          exact zeroNode_length
      · show (keys hu).Nodup
        rw [hkeysu, List.nodup_append]
        refine ⟨hwf.keys_nodup, List.nodup_singleton na, ?_⟩
        intro x hx
        simp only [List.mem_singleton]
        intro hxna
        rw [hxna] at hx
        exact hfresh hx
      · intro b hb
        replace hb : b ∈ keys hu := hb
        rw [hkeysu] at hb
        rcases List.mem_append.mp hb with h | h
        · exact hwf.key_pos b h
        · rw [List.mem_singleton.mp h]
          exact hwf.next_pos
      · intro b hb
        replace hb : b ∈ keys hu := hb
        rw [hkeysu] at hb
        rcases List.mem_append.mp hb with h | h
        · exact hwf.key_align b h
        · rw [List.mem_singleton.mp h]
          exact hwf.next_align
      · intro b hb
        replace hb : b ∈ keys hu := hb
        show b < hu.nextAddr
        rw [hkeysu] at hb
        rw [hnextu]
        have hPpos : (0:Nat) < PAGE_SIZE := by
          unfold PAGE_SIZE
          omega
        rcases List.mem_append.mp hb with h | h
        · have := hwf.key_lt b h
          omega
        · rw [List.mem_singleton.mp h]
          omega
      · show hu.nextAddr % PAGE_SIZE = 0
        rw [hnextu, Nat.add_mod, hwf.next_align, Nat.mod_self]
        rfl
      · show 0 < hu.nextAddr
        rw [hnextu]
        have := hwf.next_pos
        omega
      · intro b hb
        replace hb : b ∈ keys hu := hb
        rw [hkeysu] at hb
        rcases List.mem_append.mp hb with h | h
        · rw [hlvl2_old b h]
          exact hwf.lvl_range b h
        · rw [List.mem_singleton.mp h, hlvl2_na]
          rcases hlvl with h3 | h2
          · rw [h3]
            right
            left
            rfl
          · rw [h2]
            left
            rfl
      · intro j hp
        replace hp : isPresent (getEntry pt.pml4 j) = true := hp
        have hold := hwf.pml4_ptr j hp
        exact ⟨hmemu _ hold.1, by
          show lvl2 (entryPaddr (getEntry pt.pml4 j)) = 3
          rw [hlvl2_old _ hold.1]
          exact hold.2⟩
      · intro b m hlb hlvlb j hpj
        replace hlb : lookupNode hu b = some m := hlb
        rcases hlook_cases b m hlb with ⟨hba, hm⟩ | ⟨hbmem, hbne, hm⟩ | ⟨hbna, hm⟩
        · subst hba
          subst hm
          have hlvlb' : lvl b = 3 ∨ lvl b = 2 := by
            rcases hlvlb with h | h
            · left
              rw [← hlvl2_old b hamem]
              exact h
            · right
              rw [← hlvl2_old b hamem]
              exact h
          by_cases hj : j = idx
          · subst hj
            rw [hget_idx, hv1]
            refine ⟨hpf.2.1, ?_, ?_⟩
            · rw [hpf.2.2.1]
              exact hna_memu
            · rw [hpf.2.2.1]
              show lvl2 na = lvl2 b - 1
              rw [hlvl2_na, hlvl2_old b hamem]
          · rw [hget_nej j hj] at hpj ⊢
            have hmid := hwf.mid_ptr b n hl hlvlb' j hpj
            refine ⟨hmid.1, hmemu _ hmid.2.1, ?_⟩
            show lvl2 (entryPaddr (getEntry n j)) = lvl2 b - 1
            rw [hlvl2_old _ hmid.2.1, hlvl2_old b hamem]
            exact hmid.2.2
        · have hlvlb' : lvl b = 3 ∨ lvl b = 2 := by
            rcases hlvlb with h | h
            · left
              rw [← hlvl2_old b hbmem]
              exact h
            · right
              rw [← hlvl2_old b hbmem]
              exact h
          have hmid := hwf.mid_ptr b m hm hlvlb' j hpj
          refine ⟨hmid.1, hmemu _ hmid.2.1, ?_⟩
          show lvl2 (entryPaddr (getEntry m j)) = lvl2 b - 1
          rw [hlvl2_old _ hmid.2.1, hlvl2_old b hbmem]
          exact hmid.2.2
        · rw [hm, getEntry_zeroNode, isPresent_zero] at hpj
          cases hpj
      · intro i j hpi hpj hpaddr
        replace hpi : isPresent (getEntry pt.pml4 i) = true := hpi
        replace hpj : isPresent (getEntry pt.pml4 j) = true := hpj
        replace hpaddr : entryPaddr (getEntry pt.pml4 i) =
          entryPaddr (getEntry pt.pml4 j) := hpaddr
        exact hwf.inj_pml4 i j hpi hpj hpaddr
      · intro i hpi b m hlb hlvlb j hpj
        replace hpi : isPresent (getEntry pt.pml4 i) = true := hpi
        replace hlb : lookupNode hu b = some m := hlb
        show entryPaddr (getEntry pt.pml4 i) ≠ entryPaddr (getEntry m j)
        rcases hlook_cases b m hlb with ⟨hba, hm⟩ | ⟨hbmem, hbne, hm⟩ | ⟨hbna, hm⟩
        · subst hba
          subst hm
          have hlvlb' : lvl b = 3 ∨ lvl b = 2 := by
            rcases hlvlb with h | h
            · left
              rw [← hlvl2_old b hamem]
              exact h
            · right
              rw [← hlvl2_old b hamem]
              exact h
          by_cases hj : j = idx
          · subst hj
            rw [hget_idx, hv1, hpf.2.2.1]
            have := pml4_target_lt hwf hpi
            omega
          · rw [hget_nej j hj] at hpj ⊢
            exact hwf.inj_mix i hpi b n hl hlvlb' j hpj
        · have hlvlb' : lvl b = 3 ∨ lvl b = 2 := by
            rcases hlvlb with h | h
            · left
              rw [← hlvl2_old b hbmem]
              exact h
            · right
              rw [← hlvl2_old b hbmem]
              exact h
          exact hwf.inj_mix i hpi b m hm hlvlb' j hpj
        · rw [hm, getEntry_zeroNode, isPresent_zero] at hpj
          cases hpj
      · intro b m hlb hlvlb c q hlc hlvlc i j hpi hpj hpaddr
        replace hlb : lookupNode hu b = some m := hlb
        replace hlc : lookupNode hu c = some q := hlc
        have resolve : ∀ d r, lookupNode hu d = some r → (lvl2 d = 3 ∨ lvl2 d = 2) →
            ∀ k, isPresent (getEntry r k) = true →
            (d = a ∧ r = n' ∧ k = idx ∧ entryPaddr (getEntry r k) = na) ∨
            (∃ r0, lookupNode pt.heap d = some r0 ∧ (lvl d = 3 ∨ lvl d = 2) ∧
              isPresent (getEntry r0 k) = true ∧
              getEntry r k = getEntry r0 k ∧ entryPaddr (getEntry r0 k) ≠ na) := by
          intro d r hld hlvld k hpk
          rcases hlook_cases d r hld with ⟨hda, hr⟩ | ⟨hdmem, hdne, hr⟩ | ⟨hdna, hr⟩
          · subst hda
            subst hr
            have hlvld' : lvl d = 3 ∨ lvl d = 2 := by
              rcases hlvld with h | h
              · left
                rw [← hlvl2_old d hamem]
                exact h
              · right
                rw [← hlvl2_old d hamem]
                exact h
            by_cases hk : k = idx
            · subst hk
              left
              rw [hget_idx, hv1, hpf.2.2.1]
              exact ⟨rfl, rfl, rfl, rfl⟩
            · right
              rw [hget_nej k hk] at hpk
              refine ⟨n, hl, hlvld', hpk, hget_nej k hk, ?_⟩
              exact hold_target_ne d n hl hlvld' k hpk
          · have hlvld' : lvl d = 3 ∨ lvl d = 2 := by
              rcases hlvld with h | h
              · left
                rw [← hlvl2_old d hdmem]
                exact h
              · right
                rw [← hlvl2_old d hdmem]
                exact h
            right
            exact ⟨r, hr, hlvld', hpk, rfl, hold_target_ne d r hr hlvld' k hpk⟩
          · subst hr
            rw [getEntry_zeroNode, isPresent_zero] at hpk
            cases hpk
        rcases resolve b m hlb hlvlb i hpi with ⟨hba, hmn, hiidx, hpad⟩ | ⟨m0, hlm0, hlvlb0, hpi0, hei, hne0⟩
        · rcases resolve c q hlc hlvlc j hpj with ⟨hca, hqn, hjidx, hpad'⟩ | ⟨q0, hlq0, hlvlc0, hpj0, hej, hne0'⟩
          · rw [hba, hca, hiidx, hjidx]
            exact ⟨rfl, rfl⟩
          · exfalso
            rw [hpad, hej] at hpaddr
            exact hne0' hpaddr.symm
        · rcases resolve c q hlc hlvlc j hpj with ⟨hca, hqn, hjidx, hpad'⟩ | ⟨q0, hlq0, hlvlc0, hpj0, hej, hne0'⟩
          · exfalso
            rw [hpad', hei] at hpaddr
            exact hne0 hpaddr
          · rw [hei, hej] at hpaddr
            exact hwf.inj_nodes b m0 hlm0 hlvlb0 c q0 hlq0 hlvlc0 i j hpi0 hpj0 hpaddr
    have hpp : PreservesPresent pt ⟨pt.pml4, hu⟩ := by
      constructor
      · intro j hp
        rfl
      · intro b m hlb
        by_cases hba : b = a
        · subst hba
          refine ⟨n', ?_, ?_⟩
          · show lookupNode hu b = some n'
            exact hlooku_a
          · intro j hpj
            have hmn : m = n := by
              rw [hlb] at hl
              cases hl
              rfl
            subst hmn
            by_cases hj : j = idx
            · subst hj
              rw [hpj] at hpres'
              cases hpres'
            · exact hget_nej j hj
        · refine ⟨m, ?_, fun _ _ => rfl⟩
          show lookupNode hu b = some m
          rw [hlooku_old b (lookupNode_mem hlb).2 hba]
          exact hlb
    refine ⟨lvl2, hwf2, hlvl2_old, hpp, ?_, hmemu, hlooku_a, ?_, ?_,
      by rw [hget_idx, hv1]; exact hpf.1, by rw [hget_idx, hv1]; exact hpf.2.1,
      by rw [hget_idx, hv1, hpf.2.2.1, ha2], by rw [ha2]; exact hna_memu,
      by rw [ha2, hlvl2_na], hget_nej⟩
    · intro b hb hbne
      exact hlooku_old b hb hbne
    · rw [hnextu]
      have hPpos : (0:Nat) < PAGE_SIZE := by
        unfold PAGE_SIZE
        omega
      omega
    · rw [hnextu]

/-- `ChasePT` depends only on the three upper table indices of the address. -/
theorem chase_congr {pt : PageTable} {va vb a1 : Nat}
    (h4 : tableIndex va 4 = tableIndex vb 4) (h3 : tableIndex va 3 = tableIndex vb 3)
    (h2 : tableIndex va 2 = tableIndex vb 2) (hc : ChasePT pt va a1) :
    ChasePT pt vb a1 := by
  unfold ChasePT at hc ⊢
  rw [h4, h3, h2] at hc
  exact hc

/-- The `walk` prefix of `PageTable::map`: descending (and allocating as
needed) from the PML4 to the PT node of `va` always succeeds on a well-formed
table with headroom for three fresh nodes, preserves well-formedness and all
present entries, and leaves the chase for `va` ending at the returned node. -/
theorem walkAlloc_spec {pt : PageTable} {lvl : Nat → Nat} (va : Nat)
    (hwf : TypedWF pt lvl)
    (hbud : pt.heap.nextAddr + 3 * PAGE_SIZE ≤ 2 ^ 63) :
    ∃ pt' a1 lvl', walkAlloc pt va = .ok (pt', a1) ∧ TypedWF pt' lvl' ∧
      (∀ x ∈ keys pt.heap, lvl' x = lvl x) ∧
      PreservesPresent pt pt' ∧
      (∀ b ∈ keys pt.heap, b ∈ keys pt'.heap) ∧
      pt.heap.nextAddr ≤ pt'.heap.nextAddr ∧
      pt'.heap.nextAddr ≤ pt.heap.nextAddr + 3 * PAGE_SIZE ∧
      ChasePT pt' va a1 ∧ lvl' a1 = 1 := by
  rcases hs4 : getOrAllocChild pt.heap pt.pml4 (tableIndex va 4) with ⟨h1, p1, a3⟩
  have hbud1 : pt.heap.nextAddr + PAGE_SIZE ≤ 2 ^ 63 := by omega
  rcases getOrAlloc_pml4_spec hwf (tableIndex_lt va 4) hbud1 hs4 with
    ⟨lvl1, hwf1, hlvlo1, hpp1, hlook1, hmem1, hn1a, hn1b, hp4, hpa4, ha3mem, ha3lvl, hge4, _⟩
  replace hn1a : pt.heap.nextAddr ≤ h1.nextAddr := hn1a
  replace hn1b : h1.nextAddr ≤ pt.heap.nextAddr + PAGE_SIZE := hn1b
  rcases hl3 : lookupNode h1 a3 with _ | n3
  · exact absurd ha3mem (lookupNode_none_iff.mp hl3)
  have hbud2 : (⟨p1, h1⟩ : PageTable).heap.nextAddr + PAGE_SIZE ≤ 2 ^ 63 := by
    show h1.nextAddr + PAGE_SIZE ≤ 2 ^ 63
    omega
  rcases hs3 : getOrAllocChild h1 n3 (tableIndex va 3) with ⟨h2, n3', a2⟩
  rcases getOrAlloc_node_spec hwf1 hl3 (Or.inl ha3lvl) (tableIndex_lt va 3) hbud2 hs3 with
    ⟨lvl2, hwf2, hlvlo2, hpp2, hlook2, hmem2, hlka3, hn2a, hn2b, hp3, hh3, hpa3,
      ha2mem, ha2lvl, hge3⟩
  replace hn2a : h1.nextAddr ≤ (updateNode h2 a3 n3').nextAddr := hn2a
  replace hn2b : (updateNode h2 a3 n3').nextAddr ≤ h1.nextAddr + PAGE_SIZE := hn2b
  replace ha2lvl : lvl2 a2 = 2 := by
    rw [ha2lvl, ha3lvl]
  rcases hl2 : lookupNode (updateNode h2 a3 n3') a2 with _ | n2
  · exact absurd ha2mem (lookupNode_none_iff.mp hl2)
  have hbud3 : (⟨(⟨p1, h1⟩ : PageTable).pml4, updateNode h2 a3 n3'⟩ :
      PageTable).heap.nextAddr + PAGE_SIZE ≤ 2 ^ 63 := by
    show (updateNode h2 a3 n3').nextAddr + PAGE_SIZE ≤ 2 ^ 63
    omega
  rcases hs2 : getOrAllocChild (updateNode h2 a3 n3') n2 (tableIndex va 2) with ⟨h3, n2', a1⟩
  rcases getOrAlloc_node_spec hwf2 hl2 (Or.inr ha2lvl) (tableIndex_lt va 2) hbud3 hs2 with
    ⟨lvl3, hwf3, hlvlo3, hpp3, hlook3, hmem3, hlka2, hn3a, hn3b, hp2, hh2, hpa2,
      ha1mem, ha1lvl, hge2⟩
  replace hn3a : (updateNode h2 a3 n3').nextAddr ≤ (updateNode h3 a2 n2').nextAddr := hn3a
  replace hn3b : (updateNode h3 a2 n2').nextAddr ≤ (updateNode h2 a3 n3').nextAddr +
      PAGE_SIZE := hn3b
  replace ha1mem : a1 ∈ keys (updateNode h3 a2 n2') := ha1mem
  replace ha1lvl : lvl3 a1 = 1 := by
    have : lvl3 a1 = lvl2 a2 - 1 := ha1lvl
    rw [this, ha2lvl]
  rcases hl1 : lookupNode (updateNode h3 a2 n2') a1 with _ | n1
  · exact absurd ha1mem (lookupNode_none_iff.mp hl1)
  have ha3mem2 : a3 ∈ keys (updateNode h2 a3 n3') := hmem2 a3 ha3mem
  have ha3ne : a3 ≠ a2 := by
    intro hc
    have hA : lvl2 a3 = 3 := by
      rw [hlvlo2 a3 ha3mem, ha3lvl]
    rw [hc, ha2lvl] at hA
    exact absurd hA (by decide)
  have hlka3' : lookupNode (updateNode h3 a2 n2') a3 = some n3' := by
    rw [hlook3 a3 ha3mem2 ha3ne]
    exact hlka3
  refine ⟨⟨p1, updateNode h3 a2 n2'⟩, a1, lvl3, ?_, hwf3, ?_, ?_, ?_, ?_, ?_, ?_,
    ha1lvl⟩
  · unfold walkAlloc
    rw [hs4]
    dsimp only
    rw [hl3]
    dsimp only
    rw [hs3]
    dsimp only
    rw [hl2]
    dsimp only
    rw [hs2]
    dsimp only
    rw [hl1]
  · intro x hx
    have hx1 : x ∈ keys h1 := hmem1 x hx
    have hx2 : x ∈ keys (updateNode h2 a3 n3') := hmem2 x hx1
    rw [hlvlo3 x hx2, hlvlo2 x hx1, hlvlo1 x hx]
  · exact preserves_trans hpp1 (preserves_trans hpp2 hpp3)
  · intro b hb
    exact hmem3 b (hmem2 b (hmem1 b hb))
  · show pt.heap.nextAddr ≤ (updateNode h3 a2 n2').nextAddr
    omega
  · show (updateNode h3 a2 n2').nextAddr ≤ pt.heap.nextAddr + 3 * PAGE_SIZE
    omega
  · refine ⟨n3', n2', hp4, ?_, hp3, hh3, ?_, hp2, hh2, hpa2⟩
    · show lookupNode (updateNode h3 a2 n2')
        (entryPaddr (getEntry p1 (tableIndex va 4))) = some n3'
      rw [hpa4]
      exact hlka3'
    · show lookupNode (updateNode h3 a2 n2')
        (entryPaddr (getEntry n3' (tableIndex va 3))) = some n2'
      rw [hpa3]
      exact hlka2

/-- Writing a PT-level (leaf) entry preserves well-formedness, the heap
layout, all other nodes, and every pointer chase. -/
theorem leaf_write_spec {pt : PageTable} {lvl : Nat → Nat} {a1 j v : Nat}
    {n1 : PageTableNode} (hwf : TypedWF pt lvl) (hlvl1 : lvl a1 = 1)
    (hl1 : lookupNode pt.heap a1 = some n1) :
    TypedWF ⟨pt.pml4, updateNode pt.heap a1 (putEntry n1 j v)⟩ lvl ∧
    keys (updateNode pt.heap a1 (putEntry n1 j v)) = keys pt.heap ∧
    (updateNode pt.heap a1 (putEntry n1 j v)).nextAddr = pt.heap.nextAddr ∧
    lookupNode (updateNode pt.heap a1 (putEntry n1 j v)) a1 = some (putEntry n1 j v) ∧
    (∀ b, b ≠ a1 →
      lookupNode (updateNode pt.heap a1 (putEntry n1 j v)) b = lookupNode pt.heap b) ∧
    (∀ vb b, ChasePT pt vb b →
      ChasePT ⟨pt.pml4, updateNode pt.heap a1 (putEntry n1 j v)⟩ vb b) ∧
    (∀ vb b, ChasePT ⟨pt.pml4, updateNode pt.heap a1 (putEntry n1 j v)⟩ vb b →
      ChasePT pt vb b) := by
  have hamem : a1 ∈ keys pt.heap := (lookupNode_mem hl1).2
  set n1' := putEntry n1 j v with hn1'
  set hW := updateNode pt.heap a1 n1' with hhW
  have hkeysW : keys hW = keys pt.heap := keys_updateNode pt.heap a1 n1'
  have hnextW : hW.nextAddr = pt.heap.nextAddr := nextAddr_updateNode pt.heap a1 n1'
  have hlW_self : lookupNode hW a1 = some n1' := lookupNode_update_self n1' hamem
  have hlW_ne : ∀ b, b ≠ a1 → lookupNode hW b = lookupNode pt.heap b := by
    intro b hb
    exact lookupNode_update_ne n1' hb
  have hne3 : ∀ b, lvl b = 3 ∨ lvl b = 2 → b ≠ a1 := by
    intro b hb hc
    rw [hc, hlvl1] at hb
    rcases hb with h | h
    · cases h
    · cases h
  have hlook_cases : ∀ b m, lookupNode hW b = some m →
      (b = a1 ∧ m = n1') ∨ (b ≠ a1 ∧ lookupNode pt.heap b = some m) := by
    intro b m hlb
    by_cases hb : b = a1
    · subst hb
      rw [hlW_self] at hlb
      cases hlb
      exact Or.inl ⟨rfl, rfl⟩
    · right
      refine ⟨hb, ?_⟩
      rw [← hlW_ne b hb]
      exact hlb
  have hwfW : TypedWF ⟨pt.pml4, hW⟩ lvl := by
    constructor
    · exact hwf.pml4_len
    · intro b m hlb
      replace hlb : lookupNode hW b = some m := hlb
      rcases hlook_cases b m hlb with ⟨_, hm⟩ | ⟨_, hm⟩
      · rw [hm, hn1', putEntry_length]
        exact hwf.node_len a1 n1 hl1
      · exact hwf.node_len b m hm
    · show (keys hW).Nodup
      rw [hkeysW]
      exact hwf.keys_nodup
    · intro b hb
      replace hb : b ∈ keys hW := hb
      rw [hkeysW] at hb
      exact hwf.key_pos b hb
    · intro b hb
      replace hb : b ∈ keys hW := hb
      rw [hkeysW] at hb
      exact hwf.key_align b hb
    · intro b hb
      replace hb : b ∈ keys hW := hb
      show b < hW.nextAddr
      rw [hkeysW] at hb
      rw [hnextW]
      exact hwf.key_lt b hb
    · show hW.nextAddr % PAGE_SIZE = 0
      rw [hnextW]
      exact hwf.next_align
    · show 0 < hW.nextAddr
      rw [hnextW]
      exact hwf.next_pos
    · intro b hb
      replace hb : b ∈ keys hW := hb
      rw [hkeysW] at hb
      exact hwf.lvl_range b hb
    · intro i hp
      replace hp : isPresent (getEntry pt.pml4 i) = true := hp
      have hold := hwf.pml4_ptr i hp
      refine ⟨?_, hold.2⟩
      show entryPaddr (getEntry pt.pml4 i) ∈ keys hW
      rw [hkeysW]
      exact hold.1
    · intro b m hlb hlvlb i hpi
      replace hlb : lookupNode hW b = some m := hlb
      rcases hlook_cases b m hlb with ⟨hba, _⟩ | ⟨_, hm⟩
      · exact absurd hba (hne3 b hlvlb)
      · have hold := hwf.mid_ptr b m hm hlvlb i hpi
        refine ⟨hold.1, ?_, hold.2.2⟩
        show entryPaddr (getEntry m i) ∈ keys hW
        rw [hkeysW]
        exact hold.2.1
    · intro i j2 hpi hpj hpaddr
      replace hpi : isPresent (getEntry pt.pml4 i) = true := hpi
      replace hpj : isPresent (getEntry pt.pml4 j2) = true := hpj
      replace hpaddr : entryPaddr (getEntry pt.pml4 i) =
        entryPaddr (getEntry pt.pml4 j2) := hpaddr
      exact hwf.inj_pml4 i j2 hpi hpj hpaddr
    · intro i hpi b m hlb hlvlb j2 hpj
      replace hpi : isPresent (getEntry pt.pml4 i) = true := hpi
      replace hlb : lookupNode hW b = some m := hlb
      rcases hlook_cases b m hlb with ⟨hba, _⟩ | ⟨_, hm⟩
      · exact absurd hba (hne3 b hlvlb)
      · exact hwf.inj_mix i hpi b m hm hlvlb j2 hpj
    · intro b m hlb hlvlb c q hlc hlvlc i j2 hpi hpj hpaddr
      replace hlb : lookupNode hW b = some m := hlb
      replace hlc : lookupNode hW c = some q := hlc
      rcases hlook_cases b m hlb with ⟨hba, _⟩ | ⟨_, hm⟩
      · exact absurd hba (hne3 b hlvlb)
      rcases hlook_cases c q hlc with ⟨hca, _⟩ | ⟨_, hq⟩
      · exact absurd hca (hne3 c hlvlc)
      exact hwf.inj_nodes b m hm hlvlb c q hq hlvlc i j2 hpi hpj hpaddr
  have htransfer : ∀ (ptA ptB : PageTable), ptA.pml4 = ptB.pml4 →
      TypedWF ptA lvl → (∀ b, b ≠ a1 → lookupNode ptB.heap b = lookupNode ptA.heap b) →
      ∀ vb b, ChasePT ptA vb b → ChasePT ptB vb b := by
    intro ptA ptB hpml hwfA hlk vb b hc
    rcases hc with ⟨n3, n2, h4, hl3, h3p, h3h, hl2, h2p, h2h, hb⟩
    have h3lvl := hwfA.pml4_ptr _ h4
    have h2lvl := hwfA.mid_ptr _ _ hl3 (Or.inl h3lvl.2) _ h3p
    refine ⟨n3, n2, ?_, ?_, h3p, h3h, ?_, h2p, h2h, hb⟩
    · rw [← hpml]
      exact h4
    · rw [← hpml, hlk _ (hne3 _ (Or.inl h3lvl.2))]
      exact hl3
    · rw [hlk _ (hne3 _ (Or.inr (by rw [h2lvl.2.2, h3lvl.2])))]
      exact hl2
  refine ⟨hwfW, hkeysW, hnextW, hlW_self, hlW_ne, ?_, ?_⟩
  · exact htransfer pt ⟨pt.pml4, hW⟩ rfl hwf (fun b hb => hlW_ne b hb)
  · exact htransfer ⟨pt.pml4, hW⟩ pt rfl hwfW (fun b hb => (hlW_ne b hb).symm)

/-- On a fully present path the walk performs no allocation and returns the
table unchanged together with the chased PT node. -/
theorem walkAlloc_of_chase {pt : PageTable} {lvl : Nat → Nat} {va a1 : Nat}
    (hwf : TypedWF pt lvl) (hc : ChasePT pt va a1) :
    walkAlloc pt va = .ok (pt, a1) := by
  have hty := chase_typed hwf hc
  rcases hc with ⟨n3, n2, h4, hl3, h3p, h3h, hl2, h2p, h2h, ha⟩
  have hs4 : getOrAllocChild pt.heap pt.pml4 (tableIndex va 4) =
      (pt.heap, pt.pml4, entryPaddr (getEntry pt.pml4 (tableIndex va 4))) := by
    unfold getOrAllocChild
    rw [if_pos h4]
  have hs3 : getOrAllocChild pt.heap n3 (tableIndex va 3) =
      (pt.heap, n3, entryPaddr (getEntry n3 (tableIndex va 3))) := by
    unfold getOrAllocChild
    rw [if_pos h3p]
  have hs2 : getOrAllocChild pt.heap n2 (tableIndex va 2) =
      (pt.heap, n2, entryPaddr (getEntry n2 (tableIndex va 2))) := by
    unfold getOrAllocChild
    rw [if_pos h2p]
  rcases hla1 : lookupNode pt.heap a1 with _ | nf
  · exact absurd hty.1 (lookupNode_none_iff.mp hla1)
  unfold walkAlloc
  rw [hs4]
  dsimp only
  rw [hl3]
  dsimp only
  rw [hs3]
  dsimp only
  rw [updateNode_same hwf.keys_nodup hl3]
  rw [hl2]
  dsimp only
  rw [hs2]
  dsimp only
  rw [updateNode_same hwf.keys_nodup hl2]
  rw [ha, hla1]

/-- One body iteration of the 4 KiB mapping loop, given the PT node for the
current address: the entry write succeeds, preserves well-formedness and all
chases, and installs the i-th page on top of the previously installed ones. -/
theorem mapLoop_write_step {virt phys : Nat} {attr : PageTableAttr} {pt1 : PageTable}
    {lvl1 : Nat → Nat} {na vaddr i : Nat}
    (hvirt : virt % PAGE_SIZE = 0) (hphys : phys % PAGE_SIZE = 0)
    (hwf1 : TypedWF pt1 lvl1) (hchase : ChasePT pt1 vaddr na)
    (hva : vaddr % 2 ^ 48 = (virt + i * PAGE_SIZE) % 2 ^ 48)
    (hpblt : phys + i * PAGE_SIZE < 2 ^ 63)
    (hsmall : i < 2 ^ 36)
    (hprev : ∀ j, j < i → InstalledP pt1 (virt + j * PAGE_SIZE)
      ((phys + j * PAGE_SIZE) ||| attrVal attr)) :
    ∃ n, lookupNode pt1.heap na = some n ∧
      setEntry ((phys + i * PAGE_SIZE) % U64) attr =
        .ok ((phys + i * PAGE_SIZE) ||| attrVal attr) ∧
      TypedWF ⟨pt1.pml4, updateNode pt1.heap na (putEntry n ((tableIndex virt 1 + i) % 512)
        ((phys + i * PAGE_SIZE) ||| attrVal attr))⟩ lvl1 ∧
      (updateNode pt1.heap na (putEntry n ((tableIndex virt 1 + i) % 512)
        ((phys + i * PAGE_SIZE) ||| attrVal attr))).nextAddr = pt1.heap.nextAddr ∧
      (∀ vb b, ChasePT pt1 vb b → ChasePT ⟨pt1.pml4, updateNode pt1.heap na
        (putEntry n ((tableIndex virt 1 + i) % 512)
          ((phys + i * PAGE_SIZE) ||| attrVal attr))⟩ vb b) ∧
      (∀ j, j < i + 1 → InstalledP ⟨pt1.pml4, updateNode pt1.heap na
        (putEntry n ((tableIndex virt 1 + i) % 512)
          ((phys + i * PAGE_SIZE) ||| attrVal attr))⟩ (virt + j * PAGE_SIZE)
        ((phys + j * PAGE_SIZE) ||| attrVal attr)) := by
  have hty := chase_typed hwf1 hchase
  obtain ⟨n, hlook⟩ := lookupNode_isSome_of_mem hty.1
  have hnlen : n.entries.length = 512 := hwf1.node_len na n hlook
  set idx := (tableIndex virt 1 + i) % 512 with hidxdef
  have hidxlt : idx < 512 := Nat.mod_lt _ (by norm_num)
  have hidx1 : tableIndex vaddr 1 = idx := idx1_of_offset hvirt hva
  have hplt64 : phys + i * PAGE_SIZE < U64 := by
    have h63 : (2:Nat) ^ 63 < U64 := by norm_num [U64]
    omega
  have hmod : (phys + i * PAGE_SIZE) % U64 = phys + i * PAGE_SIZE :=
    Nat.mod_eq_of_lt hplt64
  have hmask : (phys + i * PAGE_SIZE) &&& PTE_ATTR_MASK_NOT = 0 := by
    apply (land_notmask_eq_zero_iff hplt64).mpr
    refine ⟨?_, hpblt⟩
    show (phys + i * 4096) % 4096 = 0
    have h1 : phys % 4096 = 0 := hphys
    omega
  have hset : setEntry ((phys + i * PAGE_SIZE) % U64) attr =
      .ok ((phys + i * PAGE_SIZE) ||| attrVal attr) := by
    unfold setEntry
    rw [hmod, if_neg (fun hc => hc hmask)]
  set val := (phys + i * PAGE_SIZE) ||| attrVal attr with hvaldef
  obtain ⟨hwf2, hkeys2, hnext2, hlself, hlne, hchfwd, hchbwd⟩ :=
    @leaf_write_spec pt1 lvl1 na idx val n hwf1 hty.2 hlook
  have hvalign : vaddr % PAGE_SIZE = 0 := by
    show vaddr % 4096 = 0
    have h1 : virt % 4096 = 0 := hvirt
    have h2 : vaddr % 2 ^ 48 = (virt + i * 4096) % 2 ^ 48 := hva
    omega
  refine ⟨n, hlook, hset, hwf2, hnext2, hchfwd, ?_⟩
  intro j hj
  rcases Nat.lt_succ_iff_lt_or_eq.mp hj with hji | hji
  · rcases hprev j hji with ⟨b1, m1, hptb, hlm, hget⟩
    have hcb : ChasePT pt1 (virt + j * PAGE_SIZE) b1 := ptAddrOf_eq_some_iff.mp hptb
    have hcb2 := hchfwd _ _ hcb
    by_cases hbna : b1 = na
    · have hm1n : m1 = n := by
        rw [hbna, hlook] at hlm
        cases hlm
        rfl
      have hidxne : tableIndex (virt + j * PAGE_SIZE) 1 ≠ idx := by
        intro hciq
        have hupper : tableIndex (virt + j * PAGE_SIZE) 4 = tableIndex vaddr 4 ∧
            tableIndex (virt + j * PAGE_SIZE) 3 = tableIndex vaddr 3 ∧
            tableIndex (virt + j * PAGE_SIZE) 2 = tableIndex vaddr 2 := by
          by_contra hne
          exact chase_distinct hwf1 hcb hchase hne hbna
        have halj : (virt + j * PAGE_SIZE) % PAGE_SIZE = 0 := by
          show (virt + j * 4096) % 4096 = 0
          have h1 : virt % 4096 = 0 := hvirt
          omega
        have hm48 : (virt + j * PAGE_SIZE) % 2 ^ 48 = vaddr % 2 ^ 48 :=
          mod48_eq_of_indices halj hvalign (hciq.trans hidx1.symm) hupper.2.2
            hupper.2.1 hupper.1
        rw [hva] at hm48
        have hm48' : (virt + j * 4096) % 2 ^ 48 = (virt + i * 4096) % 2 ^ 48 := hm48
        omega
      refine ⟨b1, putEntry n idx val, ptAddrOf_eq_some_iff.mpr hcb2, ?_, ?_⟩
      · rw [hbna]
        exact hlself
      · rw [getEntry_put_ne val (fun hc => hidxne hc.symm), ← hm1n]
        exact hget
    · refine ⟨b1, m1, ptAddrOf_eq_some_iff.mpr hcb2, ?_, hget⟩
      show lookupNode (updateNode pt1.heap na (putEntry n idx val)) b1 = some m1
      rw [hlne b1 hbna]
      exact hlm
  · subst hji
    have hchase2 := hchfwd _ _ hchase
    have hidxs := tableIndex_all_congr hva
    have hcj : ChasePT ⟨pt1.pml4, updateNode pt1.heap na (putEntry n idx val)⟩
        (virt + j * PAGE_SIZE) na :=
      chase_congr hidxs.1 hidxs.2.1 hidxs.2.2.1 hchase2
    refine ⟨na, putEntry n idx val, ptAddrOf_eq_some_iff.mpr hcj, hlself, ?_⟩
    have hj1 : tableIndex (virt + j * PAGE_SIZE) 1 = idx := by
      rw [← hidxs.2.2.2]
      exact hidx1
    rw [hj1]
    exact getEntry_put_self val (by rw [hnlen]; exact hidxlt)

/-- One-step unrolling of `mapLoop`. -/
theorem mapLoop_succ (pt : PageTable) (nodeAddr vaddr paddr : Nat) (attr : PageTableAttr)
    (startIndex i rem : Nat) :
    mapLoop pt nodeAddr vaddr paddr attr startIndex i (rem + 1) =
      (match (if (startIndex + i) % 512 = 0 ∧ i ≠ 0 then walkAlloc pt vaddr
          else Except.ok (pt, nodeAddr)) with
      | .error (e, pt1) => .err e pt1
      | .ok (pt1, na) =>
        match lookupNode pt1.heap na with
        | none => .err .badNodePointer pt1
        | some n =>
          match setEntry paddr attr with
          | .error e => .err e pt1
          | .ok v =>
            mapLoop ⟨pt1.pml4, updateNode pt1.heap na
                (putEntry n ((startIndex + i) % 512) v)⟩
              na (vadd vaddr PAGE_SIZE) ((paddr + PAGE_SIZE) % U64) attr
              startIndex (i + 1) rem) := rfl

/-- The 4 KiB mapping loop of `PageTable::map` succeeds on a well-formed table
with enough allocation headroom, keeps the table well-formed, and installs
`phys + j*4096 | attr` as the PT entry of `virt + j*4096` for every processed
page (preserving all previously installed pages). -/
theorem mapLoop_spec {virt phys : Nat} {attr : PageTableAttr}
    (hvirt : virt % PAGE_SIZE = 0) (hphys : phys % PAGE_SIZE = 0)
    (hattr : isPresent (attrVal attr) = true) :
    ∀ (remaining : Nat) (pt : PageTable) (lvl : Nat → Nat) (nodeAddr vaddr paddr i : Nat),
      TypedWF pt lvl →
      vaddr % 2 ^ 48 = (virt + i * PAGE_SIZE) % 2 ^ 48 →
      paddr = (phys + i * PAGE_SIZE) % U64 →
      (¬((tableIndex virt 1 + i) % 512 = 0 ∧ i ≠ 0) → ChasePT pt vaddr nodeAddr) →
      pt.heap.nextAddr + 3 * PAGE_SIZE * remaining ≤ 2 ^ 63 →
      phys + (i + remaining) * PAGE_SIZE ≤ 2 ^ 63 →
      i + remaining ≤ 2 ^ 36 →
      (∀ j, j < i → InstalledP pt (virt + j * PAGE_SIZE)
        ((phys + j * PAGE_SIZE) ||| attrVal attr)) →
      ∃ pt' lvl', mapLoop pt nodeAddr vaddr paddr attr (tableIndex virt 1) i remaining =
          .ok pt' ∧ TypedWF pt' lvl' ∧
        (∀ j, j < i + remaining → InstalledP pt' (virt + j * PAGE_SIZE)
          ((phys + j * PAGE_SIZE) ||| attrVal attr)) ∧
        (∀ vb b, ChasePT pt vb b → ChasePT pt' vb b) := by
  intro remaining
  induction remaining with
  | zero =>
    intro pt lvl nodeAddr vaddr paddr i hwf hva hpa hnode hbud hpb hsmall hprev
    exact ⟨pt, lvl, rfl, hwf, fun j hj => hprev j (by omega), fun vb b hc => hc⟩
  | succ rem ih =>
    intro pt lvl nodeAddr vaddr paddr i hwf hva hpa hnode hbud hpb hsmall hprev
    have hbud4 : pt.heap.nextAddr + 3 * 4096 * (rem + 1) ≤ 2 ^ 63 := hbud
    have hpb4 : phys + (i + (rem + 1)) * 4096 ≤ 2 ^ 63 := hpb
    have hpblt : phys + i * PAGE_SIZE < 2 ^ 63 := by
      show phys + i * 4096 < 2 ^ 63
      omega
    have hismall : i < 2 ^ 36 := by omega
    by_cases hcross : (tableIndex virt 1 + i) % 512 = 0 ∧ i ≠ 0
    · -- PT-boundary crossing: the loop re-walks the tables first.
      have hbudA : pt.heap.nextAddr + 3 * PAGE_SIZE ≤ 2 ^ 63 := by
        show pt.heap.nextAddr + 3 * 4096 ≤ 2 ^ 63
        omega
      rcases walkAlloc_spec vaddr hwf hbudA with
        ⟨pt1, a1, lvl1, heqWA, hwf1, hlvlo1, hpp1, hmem1, hn1a, hn1b, hchase1, hlvl1a1⟩
      replace hn1b : pt1.heap.nextAddr ≤ pt.heap.nextAddr + 3 * PAGE_SIZE := hn1b
      have hprev1 : ∀ j, j < i → InstalledP pt1 (virt + j * PAGE_SIZE)
          ((phys + j * PAGE_SIZE) ||| attrVal attr) := by
        intro j hj
        have hjlt : phys + j * PAGE_SIZE < 2 ^ 63 := by
          show phys + j * 4096 < 2 ^ 63
          omega
        have hjlt64 : phys + j * PAGE_SIZE < U64 := by
          have h63 : (2:Nat) ^ 63 < U64 := by norm_num [U64]
          omega
        have hmaskj : (phys + j * PAGE_SIZE) &&& PTE_ATTR_MASK_NOT = 0 := by
          apply (land_notmask_eq_zero_iff hjlt64).mpr
          refine ⟨?_, hjlt⟩
          show (phys + j * 4096) % 4096 = 0
          have h1 : phys % 4096 = 0 := hphys
          omega
        exact installed_mono hpp1 (hprev j hj) (by rw [isPresent_lor hmaskj]; exact hattr)
      rcases mapLoop_write_step hvirt hphys hwf1 hchase1 hva hpblt hismall hprev1 with
        ⟨n, hlook, hset, hwf2, hnext2, hpresC, hinst2⟩
      have hsetp : setEntry paddr attr = .ok ((phys + i * PAGE_SIZE) ||| attrVal attr) := by
        rw [hpa]
        exact hset
      have hwp : virt + i * PAGE_SIZE + PAGE_SIZE = virt + (i + 1) * PAGE_SIZE := by
        show virt + i * 4096 + 4096 = virt + (i + 1) * 4096
        ring
      have hva' : (vadd vaddr PAGE_SIZE) % 2 ^ 48 = (virt + (i + 1) * PAGE_SIZE) % 2 ^ 48 := by
        unfold vadd
        rw [canonicalize_mod48]
        show (vaddr + 4096) % 2 ^ 64 % 2 ^ 48 = (virt + (i + 1) * 4096) % 2 ^ 48
        have h2 : vaddr % 2 ^ 48 = (virt + i * 4096) % 2 ^ 48 := hva
        omega
      have hpa' : (paddr + PAGE_SIZE) % U64 = (phys + (i + 1) * PAGE_SIZE) % U64 := by
        rw [hpa]
        show ((phys + i * 4096) % 2 ^ 64 + 4096) % 2 ^ 64 = (phys + (i + 1) * 4096) % 2 ^ 64
        omega
      have hnode' : ¬((tableIndex virt 1 + (i + 1)) % 512 = 0 ∧ i + 1 ≠ 0) →
          ChasePT ⟨pt1.pml4, updateNode pt1.heap a1 (putEntry n ((tableIndex virt 1 + i) % 512)
            ((phys + i * PAGE_SIZE) ||| attrVal attr))⟩ (vadd vaddr PAGE_SIZE) a1 := by
        intro hnc
        have hi1ne : (tableIndex virt 1 + (i + 1)) % 512 ≠ 0 :=
          fun h => hnc ⟨h, Nat.succ_ne_zero i⟩
        have halw : (virt + i * PAGE_SIZE) % PAGE_SIZE = 0 := by
          show (virt + i * 4096) % 4096 = 0
          have h1 : virt % 4096 = 0 := hvirt
          omega
        have hw1 : tableIndex (virt + i * PAGE_SIZE + PAGE_SIZE) 1 ≠ 0 := by
          rw [hwp, idx1_of_offset hvirt rfl]
          exact hi1ne
        have hup : ∀ l, 2 ≤ l → l ≤ 4 →
            tableIndex vaddr l = tableIndex (vadd vaddr PAGE_SIZE) l := by
          intro l hl2 hl4
          have e1 : tableIndex (vadd vaddr PAGE_SIZE) l =
              tableIndex (virt + i * PAGE_SIZE + PAGE_SIZE) l := by
            apply tableIndex_congr l (by omega)
            rw [hva', hwp]
          have e2 : tableIndex (virt + i * PAGE_SIZE + PAGE_SIZE) l =
              tableIndex (virt + i * PAGE_SIZE) l :=
            tableIndex_upper_add_page halw hw1 hl2 hl4
          have e3 : tableIndex vaddr l = tableIndex (virt + i * PAGE_SIZE) l :=
            tableIndex_congr l (by omega) hva
          rw [e1, e2, e3]
        exact chase_congr (hup 4 (by omega) (by omega)) (hup 3 (by omega) (by omega))
          (hup 2 (by omega) (by omega)) (hpresC _ _ hchase1)
      have hbud' : (updateNode pt1.heap a1 (putEntry n ((tableIndex virt 1 + i) % 512)
          ((phys + i * PAGE_SIZE) ||| attrVal attr))).nextAddr + 3 * PAGE_SIZE * rem ≤
          2 ^ 63 := by
        rw [hnext2]
        show pt1.heap.nextAddr + 3 * 4096 * rem ≤ 2 ^ 63
        have h1 : pt1.heap.nextAddr ≤ pt.heap.nextAddr + 3 * 4096 := hn1b
        omega
      have hpb' : phys + ((i + 1) + rem) * PAGE_SIZE ≤ 2 ^ 63 := by
        show phys + ((i + 1) + rem) * 4096 ≤ 2 ^ 63
        omega
      rcases ih ⟨pt1.pml4, updateNode pt1.heap a1 (putEntry n ((tableIndex virt 1 + i) % 512)
            ((phys + i * PAGE_SIZE) ||| attrVal attr))⟩ lvl1 a1 (vadd vaddr PAGE_SIZE)
          ((paddr + PAGE_SIZE) % U64) (i + 1) hwf2 hva' (by rw [hpa']) hnode' hbud' hpb'
          (by omega) hinst2 with ⟨pt', lvl', hm, hwf', hinst', hchp'⟩
      refine ⟨pt', lvl', ?_, hwf', fun j hj => hinst' j (by omega),
        fun vb b hc => hchp' vb b (hpresC vb b (chase_mono hpp1 hc))⟩
      rw [mapLoop_succ, if_pos hcross, heqWA]
      dsimp only
      rw [hlook]
      dsimp only
      rw [hsetp]
      exact hm
    · -- No crossing: the current PT node is still valid.
      have hchase := hnode hcross
      rcases mapLoop_write_step hvirt hphys hwf hchase hva hpblt hismall hprev with
        ⟨n, hlook, hset, hwf2, hnext2, hpresC, hinst2⟩
      have hsetp : setEntry paddr attr = .ok ((phys + i * PAGE_SIZE) ||| attrVal attr) := by
        rw [hpa]
        exact hset
      have hwp : virt + i * PAGE_SIZE + PAGE_SIZE = virt + (i + 1) * PAGE_SIZE := by
        show virt + i * 4096 + 4096 = virt + (i + 1) * 4096
        ring
      have hva' : (vadd vaddr PAGE_SIZE) % 2 ^ 48 = (virt + (i + 1) * PAGE_SIZE) % 2 ^ 48 := by
        unfold vadd
        rw [canonicalize_mod48]
        show (vaddr + 4096) % 2 ^ 64 % 2 ^ 48 = (virt + (i + 1) * 4096) % 2 ^ 48
        have h2 : vaddr % 2 ^ 48 = (virt + i * 4096) % 2 ^ 48 := hva
        omega
      have hpa' : (paddr + PAGE_SIZE) % U64 = (phys + (i + 1) * PAGE_SIZE) % U64 := by
        rw [hpa]
        show ((phys + i * 4096) % 2 ^ 64 + 4096) % 2 ^ 64 = (phys + (i + 1) * 4096) % 2 ^ 64
        omega
      have hnode' : ¬((tableIndex virt 1 + (i + 1)) % 512 = 0 ∧ i + 1 ≠ 0) →
          ChasePT ⟨pt.pml4, updateNode pt.heap nodeAddr
            (putEntry n ((tableIndex virt 1 + i) % 512)
            ((phys + i * PAGE_SIZE) ||| attrVal attr))⟩ (vadd vaddr PAGE_SIZE) nodeAddr := by
        intro hnc
        have hi1ne : (tableIndex virt 1 + (i + 1)) % 512 ≠ 0 :=
          fun h => hnc ⟨h, Nat.succ_ne_zero i⟩
        have halw : (virt + i * PAGE_SIZE) % PAGE_SIZE = 0 := by
          show (virt + i * 4096) % 4096 = 0
          have h1 : virt % 4096 = 0 := hvirt
          omega
        have hw1 : tableIndex (virt + i * PAGE_SIZE + PAGE_SIZE) 1 ≠ 0 := by
          rw [hwp, idx1_of_offset hvirt rfl]
          exact hi1ne
        have hup : ∀ l, 2 ≤ l → l ≤ 4 →
            tableIndex vaddr l = tableIndex (vadd vaddr PAGE_SIZE) l := by
          intro l hl2 hl4
          have e1 : tableIndex (vadd vaddr PAGE_SIZE) l =
              tableIndex (virt + i * PAGE_SIZE + PAGE_SIZE) l := by
            apply tableIndex_congr l (by omega)
            rw [hva', hwp]
          have e2 : tableIndex (virt + i * PAGE_SIZE + PAGE_SIZE) l =
              tableIndex (virt + i * PAGE_SIZE) l :=
            tableIndex_upper_add_page halw hw1 hl2 hl4
          have e3 : tableIndex vaddr l = tableIndex (virt + i * PAGE_SIZE) l :=
            tableIndex_congr l (by omega) hva
          rw [e1, e2, e3]
        exact chase_congr (hup 4 (by omega) (by omega)) (hup 3 (by omega) (by omega))
          (hup 2 (by omega) (by omega)) (hpresC _ _ hchase)
      have hbud' : (updateNode pt.heap nodeAddr (putEntry n ((tableIndex virt 1 + i) % 512)
          ((phys + i * PAGE_SIZE) ||| attrVal attr))).nextAddr + 3 * PAGE_SIZE * rem ≤
          2 ^ 63 := by
        rw [hnext2]
        show pt.heap.nextAddr + 3 * 4096 * rem ≤ 2 ^ 63
        omega
      have hpb' : phys + ((i + 1) + rem) * PAGE_SIZE ≤ 2 ^ 63 := by
        show phys + ((i + 1) + rem) * 4096 ≤ 2 ^ 63
        omega
      rcases ih ⟨pt.pml4, updateNode pt.heap nodeAddr
            (putEntry n ((tableIndex virt 1 + i) % 512)
            ((phys + i * PAGE_SIZE) ||| attrVal attr))⟩ lvl nodeAddr (vadd vaddr PAGE_SIZE)
          ((paddr + PAGE_SIZE) % U64) (i + 1) hwf2 hva' (by rw [hpa']) hnode' hbud' hpb'
          (by omega) hinst2 with ⟨pt', lvl', hm, hwf', hinst', hchp'⟩
      refine ⟨pt', lvl', ?_, hwf', fun j hj => hinst' j (by omega),
        fun vb b hc => hchp' vb b (hpresC vb b hc)⟩
      rw [mapLoop_succ, if_neg hcross]
      dsimp only
      rw [hlook]
      dsimp only
      rw [hsetp]
      exact hm

/-- Every attribute other than `NotPresent` sets the PRESENT bit. -/
theorem isPresent_attrVal {attr : PageTableAttr} (h : attr ≠ .NotPresent) :
    isPresent (attrVal attr) = true := by
  cases attr
  · exact absurd rfl h
  all_goals decide

/-- `PageTable::map` on the 4 KiB path: success and per-page installation. -/
theorem map_spec_4k {pt : PageTable} {lvl : Nat → Nat} {virt phys numPages : Nat}
    {attr : PageTableAttr}
    (hwf : TypedWF pt lvl)
    (hvirt : virt % PAGE_SIZE = 0) (hphys : phys % PAGE_SIZE = 0)
    (hattr : isPresent (attrVal attr) = true)
    (hnothuge : ¬(attr = .ReadWriteKernel1GiB ∧ virt % 2 ^ 30 = 0 ∧ phys % 2 ^ 30 = 0 ∧
      numPages % 2 ^ 18 = 0))
    (hbud : pt.heap.nextAddr + 3 * PAGE_SIZE * (numPages + 1) ≤ 2 ^ 63)
    (hpb : phys + numPages * PAGE_SIZE ≤ 2 ^ 63)
    (hsmall : numPages ≤ 2 ^ 36) :
    ∃ pt' lvl', map pt virt phys numPages attr = .ok pt' ∧ TypedWF pt' lvl' ∧
      (∀ j, j < numPages → InstalledP pt' (virt + j * PAGE_SIZE)
        ((phys + j * PAGE_SIZE) ||| attrVal attr)) ∧
      (∃ a, ChasePT pt' virt a) := by
  have hbud4 : pt.heap.nextAddr + 3 * 4096 * (numPages + 1) ≤ 2 ^ 63 := hbud
  have hpb4 : phys + numPages * 4096 ≤ 2 ^ 63 := hpb
  have hbudA : pt.heap.nextAddr + 3 * PAGE_SIZE ≤ 2 ^ 63 := by
    show pt.heap.nextAddr + 3 * 4096 ≤ 2 ^ 63
    omega
  rcases walkAlloc_spec virt hwf hbudA with
    ⟨pt1, a1, lvl1, heqWA, hwf1, hlvlo1, hpp1, hmem1, hn1a, hn1b, hchase1, hlvl1a1⟩
  replace hn1b : pt1.heap.nextAddr ≤ pt.heap.nextAddr + 3 * PAGE_SIZE := hn1b
  have hva0 : virt % 2 ^ 48 = (virt + 0 * PAGE_SIZE) % 2 ^ 48 := by norm_num
  have hpa0 : phys = (phys + 0 * PAGE_SIZE) % U64 := by
    show phys = (phys + 0 * 4096) % 2 ^ 64
    omega
  have hbud1 : pt1.heap.nextAddr + 3 * PAGE_SIZE * numPages ≤ 2 ^ 63 := by
    show pt1.heap.nextAddr + 3 * 4096 * numPages ≤ 2 ^ 63
    have h1 : pt1.heap.nextAddr ≤ pt.heap.nextAddr + 3 * 4096 := hn1b
    omega
  rcases mapLoop_spec hvirt hphys hattr numPages pt1 lvl1 a1 virt phys 0 hwf1 hva0 hpa0
      (fun _ => hchase1) hbud1 (by show phys + (0 + numPages) * 4096 ≤ 2 ^ 63; omega)
      (by omega) (fun j hj => absurd hj (Nat.not_lt_zero j)) with
    ⟨pt', lvl', hm, hwf', hinst', hchp'⟩
  refine ⟨pt', lvl', ?_, hwf', fun j hj => hinst' j (by omega),
    ⟨a1, hchp' virt a1 hchase1⟩⟩
  unfold map
  rw [if_neg (fun hc => hc hvirt), if_neg (fun hc => hc hphys), if_neg hnothuge, heqWA]
  exact hm

/-- The chase is a partial function of the address. -/
theorem chase_fun {pt : PageTable} {va a b : Nat} (ha : ChasePT pt va a)
    (hb : ChasePT pt va b) : a = b := by
  rw [← ptAddrOf_eq_some_iff] at ha hb
  rw [ha] at hb
  cases hb
  rfl

/-- Re-running the 4 KiB mapping loop over already-installed pages rewrites
every entry with its current value: the table is returned unchanged. -/
theorem mapLoop_idem {virt phys : Nat} {attr : PageTableAttr}
    (hvirt : virt % PAGE_SIZE = 0) (hphys : phys % PAGE_SIZE = 0) :
    ∀ (remaining : Nat) (pt : PageTable) (lvl : Nat → Nat) (nodeAddr vaddr paddr i : Nat),
      TypedWF pt lvl →
      vaddr % 2 ^ 48 = (virt + i * PAGE_SIZE) % 2 ^ 48 →
      paddr = (phys + i * PAGE_SIZE) % U64 →
      (¬((tableIndex virt 1 + i) % 512 = 0 ∧ i ≠ 0) → ChasePT pt vaddr nodeAddr) →
      phys + (i + remaining) * PAGE_SIZE ≤ 2 ^ 63 →
      (∀ j, i ≤ j → j < i + remaining → InstalledP pt (virt + j * PAGE_SIZE)
        ((phys + j * PAGE_SIZE) ||| attrVal attr)) →
      mapLoop pt nodeAddr vaddr paddr attr (tableIndex virt 1) i remaining = .ok pt := by
  intro remaining
  induction remaining with
  | zero =>
    intro pt lvl nodeAddr vaddr paddr i hwf hva hpa hnode hpb hall
    rfl
  | succ rem ih =>
    intro pt lvl nodeAddr vaddr paddr i hwf hva hpa hnode hpb hall
    have hpb4 : phys + (i + (rem + 1)) * 4096 ≤ 2 ^ 63 := hpb
    have hpblt : phys + i * PAGE_SIZE < 2 ^ 63 := by
      show phys + i * 4096 < 2 ^ 63
      omega
    have hplt64 : phys + i * PAGE_SIZE < U64 := by
      have h63 : (2:Nat) ^ 63 < U64 := by norm_num [U64]
      omega
    -- the i-th page is installed: recover its PT node and entry
    rcases hall i (le_refl i) (by omega) with ⟨b, m, hptb, hlm, hget⟩
    have hcb : ChasePT pt (virt + i * PAGE_SIZE) b := ptAddrOf_eq_some_iff.mp hptb
    have hidxs := tableIndex_all_congr hva
    have hcbv : ChasePT pt vaddr b :=
      chase_congr hidxs.1.symm hidxs.2.1.symm hidxs.2.2.1.symm hcb
    have hidx1 : tableIndex vaddr 1 = (tableIndex virt 1 + i) % 512 :=
      idx1_of_offset hvirt hva
    have hgetv : getEntry m ((tableIndex virt 1 + i) % 512) =
        (phys + i * PAGE_SIZE) ||| attrVal attr := by
      rw [← hidx1, hidxs.2.2.2]
      exact hget
    have hmlen : m.entries.length = 512 := hwf.node_len b m hlm
    have hidxlt : (tableIndex virt 1 + i) % 512 < 512 := Nat.mod_lt _ (by norm_num)
    have hput : putEntry m ((tableIndex virt 1 + i) % 512)
        ((phys + i * PAGE_SIZE) ||| attrVal attr) = m :=
      putEntry_same (by rw [hmlen]; exact hidxlt) hgetv
    have hupd : updateNode pt.heap b m = pt.heap := updateNode_same hwf.keys_nodup hlm
    have hmask : (phys + i * PAGE_SIZE) &&& PTE_ATTR_MASK_NOT = 0 := by
      apply (land_notmask_eq_zero_iff hplt64).mpr
      refine ⟨?_, hpblt⟩
      show (phys + i * 4096) % 4096 = 0
      have h1 : phys % 4096 = 0 := hphys
      omega
    have hsetp : setEntry paddr attr = .ok ((phys + i * PAGE_SIZE) ||| attrVal attr) := by
      rw [hpa]
      unfold setEntry
      rw [Nat.mod_eq_of_lt hplt64, if_neg (fun hc => hc hmask)]
    -- next-iteration invariants
    have hwp : virt + i * PAGE_SIZE + PAGE_SIZE = virt + (i + 1) * PAGE_SIZE := by
      show virt + i * 4096 + 4096 = virt + (i + 1) * 4096
      ring
    have hva' : (vadd vaddr PAGE_SIZE) % 2 ^ 48 = (virt + (i + 1) * PAGE_SIZE) % 2 ^ 48 := by
      unfold vadd
      rw [canonicalize_mod48]
      show (vaddr + 4096) % 2 ^ 64 % 2 ^ 48 = (virt + (i + 1) * 4096) % 2 ^ 48
      have h2 : vaddr % 2 ^ 48 = (virt + i * 4096) % 2 ^ 48 := hva
      omega
    have hpa' : (paddr + PAGE_SIZE) % U64 = (phys + (i + 1) * PAGE_SIZE) % U64 := by
      rw [hpa]
      show ((phys + i * 4096) % 2 ^ 64 + 4096) % 2 ^ 64 = (phys + (i + 1) * 4096) % 2 ^ 64
      omega
    have hnode' : ¬((tableIndex virt 1 + (i + 1)) % 512 = 0 ∧ i + 1 ≠ 0) →
        ChasePT pt (vadd vaddr PAGE_SIZE) b := by
      intro hnc
      have hi1ne : (tableIndex virt 1 + (i + 1)) % 512 ≠ 0 :=
        fun h => hnc ⟨h, Nat.succ_ne_zero i⟩
      have halw : (virt + i * PAGE_SIZE) % PAGE_SIZE = 0 := by
        show (virt + i * 4096) % 4096 = 0
        have h1 : virt % 4096 = 0 := hvirt
        omega
      have hw1 : tableIndex (virt + i * PAGE_SIZE + PAGE_SIZE) 1 ≠ 0 := by
        rw [hwp, idx1_of_offset hvirt rfl]
        exact hi1ne
      have hup : ∀ l, 2 ≤ l → l ≤ 4 →
          tableIndex vaddr l = tableIndex (vadd vaddr PAGE_SIZE) l := by
        intro l hl2 hl4
        have e1 : tableIndex (vadd vaddr PAGE_SIZE) l =
            tableIndex (virt + i * PAGE_SIZE + PAGE_SIZE) l := by
          apply tableIndex_congr l (by omega)
          rw [hva', hwp]
        have e2 : tableIndex (virt + i * PAGE_SIZE + PAGE_SIZE) l =
            tableIndex (virt + i * PAGE_SIZE) l :=
          tableIndex_upper_add_page halw hw1 hl2 hl4
        have e3 : tableIndex vaddr l = tableIndex (virt + i * PAGE_SIZE) l :=
          tableIndex_congr l (by omega) hva
        rw [e1, e2, e3]
      exact chase_congr (hup 4 (by omega) (by omega)) (hup 3 (by omega) (by omega))
        (hup 2 (by omega) (by omega)) hcbv
    have hpb' : phys + ((i + 1) + rem) * PAGE_SIZE ≤ 2 ^ 63 := by
      show phys + ((i + 1) + rem) * 4096 ≤ 2 ^ 63
      omega
    have hall' : ∀ j, i + 1 ≤ j → j < (i + 1) + rem → InstalledP pt (virt + j * PAGE_SIZE)
        ((phys + j * PAGE_SIZE) ||| attrVal attr) := by
      intro j hj1 hj2
      exact hall j (by omega) (by omega)
    have hrec := ih pt lvl b (vadd vaddr PAGE_SIZE) ((paddr + PAGE_SIZE) % U64) (i + 1)
      hwf hva' (by rw [hpa']) hnode' hpb' hall'
    by_cases hcross : (tableIndex virt 1 + i) % 512 = 0 ∧ i ≠ 0
    · have hWA : walkAlloc pt vaddr = .ok (pt, b) := walkAlloc_of_chase hwf hcbv
      rw [mapLoop_succ, if_pos hcross, hWA]
      dsimp only
      rw [hlm]
      dsimp only
      rw [hsetp]
      dsimp only
      rw [hput, hupd]
      exact hrec
    · have hchase := hnode hcross
      have hbeq : b = nodeAddr := chase_fun hcbv hchase
      subst hbeq
      rw [mapLoop_succ, if_neg hcross]
      dsimp only
      rw [hlm]
      dsimp only
      rw [hsetp]
      dsimp only
      rw [hput, hupd]
      exact hrec

/-- Re-running `map` over an already fully mapped 4 KiB range returns the
table unchanged. -/
theorem map_idem_4k {pt : PageTable} {lvl : Nat → Nat} {virt phys numPages : Nat}
    {attr : PageTableAttr}
    (hwf : TypedWF pt lvl)
    (hvirt : virt % PAGE_SIZE = 0) (hphys : phys % PAGE_SIZE = 0)
    (hnothuge : ¬(attr = .ReadWriteKernel1GiB ∧ virt % 2 ^ 30 = 0 ∧ phys % 2 ^ 30 = 0 ∧
      numPages % 2 ^ 18 = 0))
    (hpb : phys + numPages * PAGE_SIZE ≤ 2 ^ 63)
    (hchase0 : ∃ a, ChasePT pt virt a)
    (hall : ∀ j, j < numPages → InstalledP pt (virt + j * PAGE_SIZE)
      ((phys + j * PAGE_SIZE) ||| attrVal attr)) :
    map pt virt phys numPages attr = .ok pt := by
  rcases hchase0 with ⟨a0, hc0⟩
  have hWA : walkAlloc pt virt = .ok (pt, a0) := walkAlloc_of_chase hwf hc0
  have hpb4 : phys + numPages * 4096 ≤ 2 ^ 63 := hpb
  have hva0 : virt % 2 ^ 48 = (virt + 0 * PAGE_SIZE) % 2 ^ 48 := by norm_num
  have hpa0 : phys = (phys + 0 * PAGE_SIZE) % U64 := by
    show phys = (phys + 0 * 4096) % 2 ^ 64
    omega
  have hrec := mapLoop_idem hvirt hphys numPages pt lvl a0 virt phys 0 hwf hva0 hpa0
    (fun _ => hc0) (by show phys + (0 + numPages) * 4096 ≤ 2 ^ 63; omega)
    (fun j _ hj => hall j (by omega))
  unfold map
  rw [if_neg (fun hc => hc hvirt), if_neg (fun hc => hc hphys), if_neg hnothuge, hWA]
  exact hrec

/-- The table produced by a successful mapping call. -/
def resultTable : MapOutcome → Option PageTable
  | .ok pt => some pt
  | .err _ _ => none
  | .panic _ _ => none

/-- With attribute `NotPresent` the call reports success yet the mapped page
does not translate: the written PT entry is `0 ||| 0 = 0`, which the walk
rejects as non-present. -/
theorem create_mapping_notpresent_unmapped :
    (resultTable (create_mapping emptyTable 0 0 4096 .NotPresent)).map
      (fun pt' => walkPage pt' 0) = some none := by rfl

/-- C1 (amended): for a well-formed table, 4 KiB-aligned `virt_start` and
`phys_start`, arbitrary `size`, and any attribute that is neither
`NotPresent` nor the 1 GiB huge attribute — with headroom in physical memory
and in the bump allocator — `create_mapping` succeeds, a table walk of the
i-th page (i < ceil(size/4096)) yields physical address `phys_start + i*4096`
with exactly the requested attribute bits, and repeating the identical call
returns the identical table (idempotence, no corrupted half-state). -/
theorem create_mapping_maps_range {pt : PageTable} {lvl : Nat → Nat}
    {virt phys size : Nat} {attr : PageTableAttr}
    (hwf : TypedWF pt lvl)
    (hvirt : virt % PAGE_SIZE = 0) (hphys : phys % PAGE_SIZE = 0)
    (hattr : attr ≠ .NotPresent) (hhuge : attr ≠ .ReadWriteKernel1GiB)
    (hbud : pt.heap.nextAddr +
      3 * PAGE_SIZE * ((size + PAGE_SIZE - 1) / PAGE_SIZE + 1) ≤ 2 ^ 63)
    (hpb : phys + ((size + PAGE_SIZE - 1) / PAGE_SIZE) * PAGE_SIZE ≤ 2 ^ 63)
    (hsize : size ≤ 2 ^ 48) :
    ∃ pt', create_mapping pt virt phys size attr = .ok pt' ∧
      (∀ i, i < (size + PAGE_SIZE - 1) / PAGE_SIZE →
        walkPage pt' (virt + i * PAGE_SIZE) =
          some (phys + i * PAGE_SIZE, attrVal attr)) ∧
      create_mapping pt' virt phys size attr = .ok pt' := by
  have hnothuge : ¬(attr = .ReadWriteKernel1GiB ∧ virt % 2 ^ 30 = 0 ∧
      phys % 2 ^ 30 = 0 ∧ (size + PAGE_SIZE - 1) / PAGE_SIZE % 2 ^ 18 = 0) :=
    fun hc => hhuge hc.1
  have hattr' : isPresent (attrVal attr) = true := isPresent_attrVal hattr
  have hsmall : (size + PAGE_SIZE - 1) / PAGE_SIZE ≤ 2 ^ 36 := by
    show (size + 4096 - 1) / 4096 ≤ 2 ^ 36
    omega
  rcases map_spec_4k hwf hvirt hphys hattr' hnothuge hbud hpb hsmall with
    ⟨pt', lvl', hm, hwf', hinst', hch'⟩
  have hpb4 : phys + ((size + PAGE_SIZE - 1) / PAGE_SIZE) * 4096 ≤ 2 ^ 63 := hpb
  refine ⟨pt', hm, ?_, ?_⟩
  · intro i hi
    have hilt : phys + i * PAGE_SIZE < 2 ^ 63 := by
      show phys + i * 4096 < 2 ^ 63
      have hi4 : i < (size + 4096 - 1) / 4096 := hi
      omega
    have hilt64 : phys + i * PAGE_SIZE < U64 := by
      have h63 : (2:Nat) ^ 63 < U64 := by norm_num [U64]
      omega
    have hmaski : (phys + i * PAGE_SIZE) &&& PTE_ATTR_MASK_NOT = 0 := by
      apply (land_notmask_eq_zero_iff hilt64).mpr
      refine ⟨?_, hilt⟩
      show (phys + i * 4096) % 4096 = 0
      have h1 : phys % 4096 = 0 := hphys
      omega
    have hpres : isPresent ((phys + i * PAGE_SIZE) ||| attrVal attr) = true := by
      rw [isPresent_lor hmaski]
      exact hattr'
    have hdec := entry_decomp hilt64 hmaski (attrVal_lt attr) (attrVal_land_mask attr)
    have hw := walkPage_of_installed (hinst' i hi) hpres
    rw [hw, hdec.1, hdec.2]
  · show map pt' virt phys ((size + PAGE_SIZE - 1) / PAGE_SIZE) attr = .ok pt'
    exact map_idem_4k hwf' hvirt hphys hnothuge hpb hch' hinst'

/-- Concrete instance of the amended C1: mapping one page at 0 → 0 read-write
in a fresh table succeeds, the page translates, and the call is idempotent. -/
theorem create_mapping_maps_range_witness :
    ∃ pt', create_mapping emptyTable 0 0 4096 .ReadWriteKernel = .ok pt' ∧
      (∀ i, i < (4096 + PAGE_SIZE - 1) / PAGE_SIZE →
        walkPage pt' (0 + i * PAGE_SIZE) =
          some (0 + i * PAGE_SIZE, attrVal .ReadWriteKernel)) ∧
      create_mapping pt' 0 0 4096 .ReadWriteKernel = .ok pt' :=
  create_mapping_maps_range typedWF_empty (by decide) (by decide) (by decide)
    (by decide) (by decide) (by decide) (by decide)

/-- Writing the same address twice keeps only the second node. -/
theorem updateNode_twice (h : Heap) (a : Nat) (n1 n2 : PageTableNode) :
    updateNode (updateNode h a n1) a n2 = updateNode h a n2 := by
  unfold updateNode
  simp only [List.map_map]
  congr 1
  apply List.map_congr_left
  intro p _
  by_cases hp : p.1 = a
  · simp [Function.comp, hp]
  · simp [Function.comp, hp]

/-- One-step unrolling of `hugeLoop`. -/
theorem hugeLoop_succ (pt : PageTable) (aPdpt pdptIdx phys : Nat) (attr : PageTableAttr)
    (i rem : Nat) :
    hugeLoop pt aPdpt pdptIdx phys attr i (rem + 1) =
      if pdptIdx + i < 512 then
        match lookupNode pt.heap aPdpt with
        | none => .err .badNodePointer pt
        | some n =>
          match setEntry ((phys + i * 2 ^ 30) % U64) attr with
          | .error e => .err e pt
          | .ok v =>
            hugeLoop ⟨pt.pml4, updateNode pt.heap aPdpt (putEntry n (pdptIdx + i) v)⟩
              aPdpt pdptIdx phys attr (i + 1) rem
      else .panic .indexOutOfBounds pt := rfl

/-- The in-bounds huge-page loop writes exactly the per-gigabyte PDPT entries
and nothing else: it only rewrites the PDPT node in place. -/
theorem hugeLoop_ok {aPdpt pdptIdx phys : Nat} {attr : PageTableAttr} :
    ∀ (count i : Nat) (pt : PageTable) (n : PageTableNode),
      lookupNode pt.heap aPdpt = some n →
      n.entries.length = 512 →
      (keys pt.heap).Nodup →
      pdptIdx + i + count ≤ 512 →
      (∀ k, i ≤ k → k < i + count →
        (phys + k * 2 ^ 30) % U64 &&& PTE_ATTR_MASK_NOT = 0) →
      ∃ n', hugeLoop pt aPdpt pdptIdx phys attr i count =
          .ok ⟨pt.pml4, updateNode pt.heap aPdpt n'⟩ ∧
        n'.entries.length = 512 ∧
        (∀ k, i ≤ k → k < i + count →
          getEntry n' (pdptIdx + k) = ((phys + k * 2 ^ 30) % U64) ||| attrVal attr) ∧
        (∀ j, (∀ k, i ≤ k → k < i + count → j ≠ pdptIdx + k) →
          getEntry n' j = getEntry n j) := by
  intro count
  induction count with
  | zero =>
    intro i pt n hl hlen hnd hfit hmask
    refine ⟨n, ?_, hlen, fun k hk1 hk2 => absurd hk2 (by omega), fun j _ => rfl⟩
    rw [updateNode_same hnd hl]
    rfl
  | succ rem ih =>
    intro i pt n hl hlen hnd hfit hmask
    have hlt : pdptIdx + i < 512 := by omega
    have hset : setEntry ((phys + i * 2 ^ 30) % U64) attr =
        .ok ((phys + i * 2 ^ 30) % U64 ||| attrVal attr) := by
      unfold setEntry
      rw [if_neg (fun hc => hc (hmask i (le_refl i) (by omega)))]
    set v := (phys + i * 2 ^ 30) % U64 ||| attrVal attr with hv
    set n2 := putEntry n (pdptIdx + i) v with hn2
    have hamem : aPdpt ∈ keys pt.heap := (lookupNode_mem hl).2
    have hl2 : lookupNode (updateNode pt.heap aPdpt n2) aPdpt = some n2 :=
      lookupNode_update_self n2 hamem
    have hlen2 : n2.entries.length = 512 := by
      rw [hn2, putEntry_length]
      exact hlen
    have hnd2 : (keys (updateNode pt.heap aPdpt n2)).Nodup := by
      rw [keys_updateNode]
      exact hnd
    rcases ih (i + 1) ⟨pt.pml4, updateNode pt.heap aPdpt n2⟩ n2 hl2 hlen2 hnd2
        (by omega) (fun k hk1 hk2 => hmask k (by omega) (by omega)) with
      ⟨n', hrun, hlen', hinst', huntouched'⟩
    refine ⟨n', ?_, hlen', ?_, ?_⟩
    · rw [hugeLoop_succ, if_pos hlt, hl]
      dsimp only
      rw [hset]
      dsimp only
      rw [hrun]
      show MapOutcome.ok ⟨pt.pml4, updateNode (updateNode pt.heap aPdpt n2) aPdpt n'⟩ =
        .ok ⟨pt.pml4, updateNode pt.heap aPdpt n'⟩
      rw [updateNode_twice]
    · intro k hk1 hk2
      rcases Nat.eq_or_lt_of_le hk1 with hki | hki
      · subst hki
        rw [huntouched' (pdptIdx + i) (fun k2 hk2a _ => by omega), hn2]
        exact getEntry_put_self v (by rw [hlen]; exact hlt)
      · exact hinst' k hki (by omega)
    · intro j hj
      rw [huntouched' j (fun k hk1 hk2 => hj k (by omega) (by omega)), hn2]
      exact getEntry_put_ne v (fun hc => hj i (le_refl i) (by omega) hc.symm)

/-- The out-of-bounds huge-page loop: once the PDPT index would pass 512 the
indexing panics. -/
theorem hugeLoop_panic {aPdpt pdptIdx phys : Nat} {attr : PageTableAttr} :
    ∀ (count i : Nat) (pt : PageTable) (n : PageTableNode),
      lookupNode pt.heap aPdpt = some n →
      n.entries.length = 512 →
      pdptIdx + i ≤ 512 →
      512 < pdptIdx + i + count →
      (∀ k, i ≤ k → pdptIdx + k < 512 →
        (phys + k * 2 ^ 30) % U64 &&& PTE_ATTR_MASK_NOT = 0) →
      ∃ pt1, hugeLoop pt aPdpt pdptIdx phys attr i count =
        .panic .indexOutOfBounds pt1 := by
  intro count
  induction count with
  | zero =>
    intro i pt n hl hlen hle hover hmask
    omega
  | succ rem ih =>
    intro i pt n hl hlen hle hover hmask
    by_cases hlt : pdptIdx + i < 512
    · have hset : setEntry ((phys + i * 2 ^ 30) % U64) attr =
          .ok ((phys + i * 2 ^ 30) % U64 ||| attrVal attr) := by
        unfold setEntry
        rw [if_neg (fun hc => hc (hmask i (le_refl i) hlt))]
      set v := (phys + i * 2 ^ 30) % U64 ||| attrVal attr with hv
      set n2 := putEntry n (pdptIdx + i) v with hn2
      have hamem : aPdpt ∈ keys pt.heap := (lookupNode_mem hl).2
      have hl2 : lookupNode (updateNode pt.heap aPdpt n2) aPdpt = some n2 :=
        lookupNode_update_self n2 hamem
      have hlen2 : n2.entries.length = 512 := by
        rw [hn2, putEntry_length]
        exact hlen
      rcases ih (i + 1) ⟨pt.pml4, updateNode pt.heap aPdpt n2⟩ n2 hl2 hlen2
          (by omega) (by omega) (fun k hk1 hk2 => hmask k (by omega) hk2) with
        ⟨pt1, hrun⟩
      refine ⟨pt1, ?_⟩
      rw [hugeLoop_succ, if_pos hlt, hl]
      dsimp only
      rw [hset]
      dsimp only
      exact hrun
    · refine ⟨pt, ?_⟩
      rw [hugeLoop_succ, if_neg hlt]

/-- PDPT/PML4 indices of a 1 GiB-aligned base advanced by whole gigabytes,
while the range stays inside one PML4 slot. -/
theorem tableIndex34_add_gig {virt k : Nat} (h30 : virt % 2 ^ 30 = 0)
    (hfit : tableIndex virt 3 + k < 512) :
    tableIndex (virt + k * 2 ^ 30) 3 = tableIndex virt 3 + k ∧
    tableIndex (virt + k * 2 ^ 30) 4 = tableIndex virt 4 := by
  obtain ⟨m, hm⟩ : ∃ m, virt = 2 ^ 30 * m := ⟨virt / 2 ^ 30, by omega⟩
  subst hm
  have e3a : tableIndex (2 ^ 30 * m) 3 = m % 512 := by
    rw [tableIndex_eq]
    norm_num [Nat.mul_div_cancel_left]
  have e3b : tableIndex (2 ^ 30 * m + k * 2 ^ 30) 3 = (m + k) % 512 := by
    rw [tableIndex_eq]
    have hdiv : (2 ^ 30 * m + k * 2 ^ 30) / 2 ^ (12 + (3 - 1) * 9) = m + k := by
      norm_num
      omega
    rw [hdiv]
  have e4a : tableIndex (2 ^ 30 * m) 4 = m / 512 % 512 := by
    rw [tableIndex_eq]
    have hdiv : 2 ^ 30 * m / 2 ^ (12 + (4 - 1) * 9) = m / 512 := by
      norm_num
      omega
    rw [hdiv]
  have e4b : tableIndex (2 ^ 30 * m + k * 2 ^ 30) 4 = (m + k) / 512 % 512 := by
    rw [tableIndex_eq]
    have hdiv : (2 ^ 30 * m + k * 2 ^ 30) / 2 ^ (12 + (4 - 1) * 9) = (m + k) / 512 := by
      norm_num
      omega
    rw [hdiv]
  rw [e3a] at hfit
  rw [e3a, e3b, e4a, e4b]
  omega

/-- C10: on the 1 GiB fast path the PDPT indices `pdpt_index(virt) + k` are
used unchecked; a request whose gigabyte count crosses the end of the PDPT
(`pdpt_index + num_pages/2^18 > 512`) panics on an out-of-bounds index
instead of carrying into the next PML4 slot. -/
theorem map_huge_overflow_panics {pt : PageTable} {lvl : Nat → Nat}
    {virt phys numPages : Nat}
    (hwf : TypedWF pt lvl)
    (hv30 : virt % 2 ^ 30 = 0) (hp30 : phys % 2 ^ 30 = 0) (hnp : numPages % 2 ^ 18 = 0)
    (hbud : pt.heap.nextAddr + PAGE_SIZE ≤ 2 ^ 63)
    (hpb : phys + 512 * 2 ^ 30 ≤ 2 ^ 63)
    (hover : 512 < tableIndex virt 3 + numPages / 2 ^ 18) :
    ∃ pt1, map pt virt phys numPages .ReadWriteKernel1GiB =
      .panic .indexOutOfBounds pt1 := by
  have hvirt : virt % PAGE_SIZE = 0 := by
    show virt % 4096 = 0
    omega
  have hphys : phys % PAGE_SIZE = 0 := by
    show phys % 4096 = 0
    omega
  rcases hs4 : getOrAllocChild pt.heap pt.pml4 (tableIndex virt 4) with ⟨h1, p1, a3⟩
  rcases getOrAlloc_pml4_spec hwf (tableIndex_lt virt 4) hbud hs4 with
    ⟨lvl1, hwf1, _, _, _, _, _, _, _, _, ha3mem, _, _, _⟩
  rcases hl3 : lookupNode h1 a3 with _ | n3
  · exact absurd ha3mem (lookupNode_none_iff.mp hl3)
  have hlen3 : n3.entries.length = 512 := hwf1.node_len a3 n3 hl3
  have hmask : ∀ k, 0 ≤ k → tableIndex virt 3 + k < 512 →
      (phys + k * 2 ^ 30) % U64 &&& PTE_ATTR_MASK_NOT = 0 := by
    intro k _ hk
    have hk512 : k < 512 := by
      have := tableIndex_lt virt 3
      omega
    have hlt : phys + k * 2 ^ 30 < 2 ^ 63 := by omega
    have hlt64 : phys + k * 2 ^ 30 < U64 := by
      have h63 : (2:Nat) ^ 63 < U64 := by norm_num [U64]
      omega
    rw [Nat.mod_eq_of_lt hlt64]
    apply (land_notmask_eq_zero_iff hlt64).mpr
    refine ⟨?_, hlt⟩
    show (phys + k * 2 ^ 30) % 4096 = 0
    omega
  rcases hugeLoop_panic (numPages / 2 ^ 18) 0 ⟨p1, h1⟩ n3 hl3 hlen3
      (by have := tableIndex_lt virt 3; omega) (by omega) hmask with ⟨pt1, hrun⟩
  refine ⟨pt1, ?_⟩
  unfold map
  rw [if_neg (fun hc => hc hvirt), if_neg (fun hc => hc hphys),
    if_pos ⟨rfl, hv30, hp30, hnp⟩, hs4]
  dsimp only
  rw [hl3]
  dsimp only
  exact hrun

/-- Concrete instance of C10: two gigabytes mapped starting in the last PDPT
slot of the first PML4 entry panic instead of spilling over. -/
theorem map_huge_overflow_panics_witness :
    ∃ pt1, map emptyTable (511 * 2 ^ 30) 0 (2 * 2 ^ 18) .ReadWriteKernel1GiB =
      .panic .indexOutOfBounds pt1 :=
  map_huge_overflow_panics typedWF_empty (by decide) (by decide) (by decide)
    (by decide) (by decide) (by decide)

/-- A cleanly-split installed entry walks to its physical page and attribute
bits. -/
theorem walk_installed_clean {pt' : PageTable} {va p : Nat} {attr : PageTableAttr}
    (hinst : InstalledP pt' va (p ||| attrVal attr))
    (hattr' : isPresent (attrVal attr) = true)
    (hmask : p &&& PTE_ATTR_MASK_NOT = 0) (hlt64 : p < U64) :
    walkPage pt' va = some (p, attrVal attr) := by
  have hpres : isPresent (p ||| attrVal attr) = true := by
    rw [isPresent_lor hmask]
    exact hattr'
  have hdec := entry_decomp hlt64 hmask (attrVal_lt attr) (attrVal_land_mask attr)
  rw [walkPage_of_installed hinst hpres, hdec.1, hdec.2]

/-- C6: a fully 1 GiB-aligned request takes the PDPT fast path — one huge
entry per gigabyte translating `virt + k·2^30` to `phys + k·2^30`, and the
only node the call may allocate is the PDPT itself (no PD/PT nodes); a
request failing any of the alignment conditions falls back to 4 KiB entries
with the same net translation. -/
theorem map_huge_fast_and_fallback {pt : PageTable} {lvl : Nat → Nat}
    {virt phys numPages : Nat}
    (hwf : TypedWF pt lvl)
    (hvirt : virt % PAGE_SIZE = 0) (hphys : phys % PAGE_SIZE = 0)
    (hbud : pt.heap.nextAddr + 3 * PAGE_SIZE * (numPages + 1) ≤ 2 ^ 63)
    (hpb : phys + numPages * PAGE_SIZE ≤ 2 ^ 63)
    (hsmall : numPages ≤ 2 ^ 36) :
    ((virt % 2 ^ 30 = 0 ∧ phys % 2 ^ 30 = 0 ∧ numPages % 2 ^ 18 = 0 ∧
        tableIndex virt 3 + numPages / 2 ^ 18 ≤ 512) →
      ∃ pt', map pt virt phys numPages .ReadWriteKernel1GiB = .ok pt' ∧
        (∀ b ∈ keys pt'.heap, b ∈ keys pt.heap ∨ b = pt.heap.nextAddr) ∧
        (∀ k, k < numPages / 2 ^ 18 →
          walkPage pt' (virt + k * 2 ^ 30) =
            some (phys + k * 2 ^ 30, attrVal .ReadWriteKernel1GiB))) ∧
    (¬(virt % 2 ^ 30 = 0 ∧ phys % 2 ^ 30 = 0 ∧ numPages % 2 ^ 18 = 0) →
      ∃ pt', map pt virt phys numPages .ReadWriteKernel1GiB = .ok pt' ∧
        ∀ j, j < numPages →
          walkPage pt' (virt + j * PAGE_SIZE) =
            some (phys + j * PAGE_SIZE, attrVal .ReadWriteKernel1GiB)) := by
  have hpb4 : phys + numPages * 4096 ≤ 2 ^ 63 := hpb
  constructor
  · rintro ⟨hv30, hp30, hnp, hfit⟩
    have hcnt : numPages / 2 ^ 18 * 2 ^ 30 = numPages * 4096 := by omega
    have hbudA : pt.heap.nextAddr + PAGE_SIZE ≤ 2 ^ 63 := by
      show pt.heap.nextAddr + 4096 ≤ 2 ^ 63
      have hb : pt.heap.nextAddr + 3 * 4096 * (numPages + 1) ≤ 2 ^ 63 := hbud
      omega
    rcases hs4 : getOrAllocChild pt.heap pt.pml4 (tableIndex virt 4) with ⟨h1, p1, a3⟩
    rcases getOrAlloc_pml4_spec hwf (tableIndex_lt virt 4) hbudA hs4 with
      ⟨lvl1, hwf1, _, _, _, _, _, _, hp4, hpa4, ha3mem, _, _, hkeysub⟩
    rcases hl3 : lookupNode h1 a3 with _ | n3
    · exact absurd ha3mem (lookupNode_none_iff.mp hl3)
    have hlen3 : n3.entries.length = 512 := hwf1.node_len a3 n3 hl3
    have hmaskk : ∀ k, k < numPages / 2 ^ 18 →
        (phys + k * 2 ^ 30) &&& PTE_ATTR_MASK_NOT = 0 ∧ phys + k * 2 ^ 30 < U64 := by
      intro k hk
      have hlt : phys + k * 2 ^ 30 < 2 ^ 63 := by omega
      have hlt64 : phys + k * 2 ^ 30 < U64 := by
        have h63 : (2:Nat) ^ 63 < U64 := by norm_num [U64]
        omega
      refine ⟨(land_notmask_eq_zero_iff hlt64).mpr ⟨?_, hlt⟩, hlt64⟩
      show (phys + k * 2 ^ 30) % 4096 = 0
      have h1 : phys % 2 ^ 30 = 0 := hp30
      omega
    have hmaskmod : ∀ k, 0 ≤ k → k < 0 + numPages / 2 ^ 18 →
        (phys + k * 2 ^ 30) % U64 &&& PTE_ATTR_MASK_NOT = 0 := by
      intro k _ hk
      rw [Nat.mod_eq_of_lt (hmaskk k (by omega)).2]
      exact (hmaskk k (by omega)).1
    rcases @hugeLoop_ok a3 (tableIndex virt 3) phys .ReadWriteKernel1GiB
        (numPages / 2 ^ 18) 0 ⟨p1, h1⟩ n3 hl3 hlen3
        (show (keys h1).Nodup from hwf1.keys_nodup)
        (by have := tableIndex_lt virt 3; omega) hmaskmod with
      ⟨n', hrun, hlen', hinstk, huntouched⟩
    refine ⟨⟨p1, updateNode h1 a3 n'⟩, ?_, ?_, ?_⟩
    · unfold map
      rw [if_neg (fun hc => hc hvirt), if_neg (fun hc => hc hphys),
        if_pos ⟨rfl, hv30, hp30, hnp⟩, hs4]
      dsimp only
      rw [hl3]
      dsimp only
      exact hrun
    · intro b hb
      replace hb : b ∈ keys (updateNode h1 a3 n') := hb
      rw [keys_updateNode] at hb
      exact hkeysub b hb
    · intro k hk
      have hidx := tableIndex34_add_gig hv30
        (show tableIndex virt 3 + k < 512 by omega)
      have hva30 : (virt + k * 2 ^ 30) % 2 ^ 30 = 0 := by omega
      have hg : getEntry n' (tableIndex virt 3 + k) =
          ((phys + k * 2 ^ 30) % U64) ||| attrVal .ReadWriteKernel1GiB :=
        hinstk k (by omega) (by omega)
      have hmod := Nat.mod_eq_of_lt (hmaskk k hk).2
      have hpresH : isPresent ((phys + k * 2 ^ 30) % U64 |||
          attrVal PageTableAttr.ReadWriteKernel1GiB) = true := by
        rw [hmod, isPresent_lor (hmaskk k hk).1]
        decide
      have hhugeH : isHuge ((phys + k * 2 ^ 30) % U64 |||
          attrVal PageTableAttr.ReadWriteKernel1GiB) = true := by
        rw [hmod, isHuge_lor (hmaskk k hk).1]
        decide
      have hdec := entry_decomp (hmaskk k hk).2 (hmaskk k hk).1
        (attrVal_lt .ReadWriteKernel1GiB) (attrVal_land_mask .ReadWriteKernel1GiB)
      unfold walkPage
      rw [hidx.2]
      dsimp only
      rw [if_pos hp4, hpa4, lookupNode_update_self n' ha3mem]
      dsimp only
      rw [hidx.1, hg, if_pos hpresH, if_pos hhugeH, hva30, hmod, hdec.1, hdec.2]
      rw [Nat.zero_div, Nat.zero_mul, Nat.add_zero]
  · intro hnal
    have hattr' : isPresent (attrVal PageTableAttr.ReadWriteKernel1GiB) = true := by
      decide
    have hnothuge : ¬(PageTableAttr.ReadWriteKernel1GiB = .ReadWriteKernel1GiB ∧
        virt % 2 ^ 30 = 0 ∧ phys % 2 ^ 30 = 0 ∧ numPages % 2 ^ 18 = 0) :=
      fun hc => hnal ⟨hc.2.1, hc.2.2.1, hc.2.2.2⟩
    rcases map_spec_4k hwf hvirt hphys hattr' hnothuge hbud hpb hsmall with
      ⟨pt', lvl', hm, hwf', hinst', _⟩
    refine ⟨pt', hm, ?_⟩
    intro j hj
    have hjlt : phys + j * PAGE_SIZE < 2 ^ 63 := by
      show phys + j * 4096 < 2 ^ 63
      have hj4 : j < numPages := hj
      omega
    have hjlt64 : phys + j * PAGE_SIZE < U64 := by
      have h63 : (2:Nat) ^ 63 < U64 := by norm_num [U64]
      omega
    have hmaskj : (phys + j * PAGE_SIZE) &&& PTE_ATTR_MASK_NOT = 0 := by
      apply (land_notmask_eq_zero_iff hjlt64).mpr
      refine ⟨?_, hjlt⟩
      show (phys + j * 4096) % 4096 = 0
      have h1 : phys % 4096 = 0 := hphys
      omega
    exact walk_installed_clean (hinst' j hj) hattr' hmaskj hjlt64

/-- Concrete instance of C6: one aligned gigabyte at 0 → 0 takes the fast
path; any misaligned variant of the same call (none here, so the second
conjunct is its hypothesis-guarded form) is also covered. -/
theorem map_huge_fast_and_fallback_witness :
    (((0:Nat) % 2 ^ 30 = 0 ∧ (0:Nat) % 2 ^ 30 = 0 ∧ (2 ^ 18:Nat) % 2 ^ 18 = 0 ∧
        tableIndex 0 3 + 2 ^ 18 / 2 ^ 18 ≤ 512) →
      ∃ pt', map emptyTable 0 0 (2 ^ 18) .ReadWriteKernel1GiB = .ok pt' ∧
        (∀ b ∈ keys pt'.heap, b ∈ keys emptyTable.heap ∨ b = emptyTable.heap.nextAddr) ∧
        (∀ k, k < 2 ^ 18 / 2 ^ 18 →
          walkPage pt' (0 + k * 2 ^ 30) =
            some (0 + k * 2 ^ 30, attrVal .ReadWriteKernel1GiB))) ∧
    (¬((0:Nat) % 2 ^ 30 = 0 ∧ (0:Nat) % 2 ^ 30 = 0 ∧ (2 ^ 18:Nat) % 2 ^ 18 = 0) →
      ∃ pt', map emptyTable 0 0 (2 ^ 18) .ReadWriteKernel1GiB = .ok pt' ∧
        ∀ j, j < 2 ^ 18 →
          walkPage pt' (0 + j * PAGE_SIZE) =
            some (0 + j * PAGE_SIZE, attrVal .ReadWriteKernel1GiB)) :=
  map_huge_fast_and_fallback typedWF_empty (by decide) (by decide) (by decide)
    (by decide) (by decide)

end Noctis
